import Mathlib

/-!
TicketHacker realtime service: the Hub, the connection session and the
external event bridge.

A shallow embedding of `services/realtime` (Go) and theorems about it.

* `internal/ws/hub.go`       : `HubState`, `NewHub`, `Hub.step`, `Hub.Run`
* `internal/ws/message.go`   : `BroadcastMessage`, `TargetTenant`, `TargetTicket`
* `internal/ws/client.go`    : `Client`, `Client.handleMessage`, `Client.cleanup`,
                               `Client.ReadPump`, `Client.WritePump`
* `internal/redis/pubsub.go` : `RedisEvent`, `Subscriber.handleMessage`
* `internal/redis/presence.go` : `redis.Client.SetPresence`, `redis.Client.RemovePresence`,
                               `redis.Client.ListPresence`
* `main.go`                  : `mainBroadcastFunc`
* `encoding/json`            : `parseJSON`, `decodeStruct`, `JSON.compact`, as far as
                               the code above uses it
* `strings`                  : `strings.Index`, `strings.Count`, `strings.SplitN`

Go maps used as sets (`map[*Client]bool`) are lists without repetition, kept in
insertion order; Go iterates maps in an unspecified order, and every loop of
`Hub.Run` touches, in the iteration for a key, only data belonging to that key,
so the resulting state does not depend on the order.  A run-time panic of Go
(send on a closed channel, close of a closed channel) is an explicit result.
`Hub.Run` takes the requests as one list, in the order its `select` receives
them; the five channels they travel through and the choice of the `select` are
`Inbox` and `Traffic`.
-/

namespace TicketHacker

/-! ## Data model -/

/-- The payload of a frame: Go `[]byte` holding JSON text. -/
abbrev Payload := String

/-- A connection, `ws.Client`.  Go identifies a connection by the pointer
`*Client`; `ptr` stands for that address.  The fields `Hub`, `Conn` and `Redis`
are handles to collaborators and the state of the channel `Send` is kept in
`HubState.send`. -/
structure Client where
  ptr : Nat
  UserID : String
  TenantID : String
  Email : String
  Role : String
deriving DecidableEq, Repr

/-- The state of a buffered Go channel `chan []byte`: the frames waiting in its
buffer, oldest first, and whether `close` has been called on it. -/
structure Chan where
  buf : List Payload
  closed : Bool
deriving DecidableEq, Repr

/-- Capacity of every `Send` channel: `make(chan []byte, 256)` in
`handler.WebSocket` (the constant `sendBufSize = 256` of client.go). -/
def sendBufSize : Nat := 256

/-- A channel as `make` returns it: open, nothing buffered. -/
def Chan.fresh : Chan := { buf := [], closed := false }

/-- `BroadcastTarget` is an `int`; `TargetTenant = iota = 0`. -/
def TargetTenant : Int := 0

/-- `TargetTicket = 1`. -/
def TargetTicket : Int := 1

/-- `ws.BroadcastMessage`. -/
structure BroadcastMessage where
  Target : Int
  TargetID : String
  Payload : Payload
deriving DecidableEq, Repr

/-- A Go `map[*Client]bool` used as a set of connections. -/
abbrev ClientSet := List Client

/-- A Go `map[string]map[*Client]bool`: rooms by key. -/
abbrev RoomIndex := List (String × ClientSet)

/-- Go `m[c] = true` on a set. -/
def ClientSet.add (s : ClientSet) (c : Client) : ClientSet :=
  if c ∈ s then s else s ++ [c]

/-- Go `delete(m, c)` on a set. -/
def ClientSet.remove (s : ClientSet) (c : Client) : ClientSet :=
  s.filter (fun x => x ≠ c)

/-- Go `m[k]` on a room index; `none` is the `nil` a missing key reads as. -/
def RoomIndex.get (m : RoomIndex) (k : String) : Option ClientSet :=
  m.lookup k

/-- Go `m[k] = v` on a room index. -/
def RoomIndex.put : RoomIndex → String → ClientSet → RoomIndex
  | [], k, v => [(k, v)]
  | (k', v') :: rest, k, v =>
    if k' = k then (k, v) :: rest else (k', v') :: RoomIndex.put rest k v

/-- Go `delete(m, k)` on a room index. -/
def RoomIndex.delete (m : RoomIndex) (k : String) : RoomIndex :=
  m.filter (fun kv => kv.1 ≠ k)

/-- The members of room `k`: those a `range m[k]` visits (none for a missing key). -/
def RoomIndex.members (m : RoomIndex) (k : String) : ClientSet :=
  (m.get k).getD []

/-- The state `Hub.Run` works on: the three maps of `ws.Hub` and, for every
connection, the state of its `Send` channel.  A connection without an entry in
`send` has the channel `make` gave it (`Chan.fresh`). -/
structure HubState where
  clients : ClientSet
  tenants : RoomIndex
  tickets : RoomIndex
  send : List (Client × Chan)
deriving DecidableEq, Repr

/-- The channel `client.Send` in state `h`. -/
def HubState.chan (h : HubState) (c : Client) : Chan :=
  (h.send.lookup c).getD Chan.fresh

/-- Store the value `v` for connection `c` in a per-connection table. -/
def setFor {β : Type} : List (Client × β) → Client → β → List (Client × β)
  | [], c, v => [(c, v)]
  | (c', v') :: rest, c, v =>
    if c' = c then (c, v) :: rest else (c', v') :: setFor rest c v

/-- Go `select { case ch <- p: ... default: ... }`, a send that does not block:
`none` is the panic of a send on a closed channel, `some none` means the buffer
is full and the `default` branch runs, `some (some ch')` means the frame was
appended to the buffer. -/
def Chan.trySend (ch : Chan) (p : Payload) : Option (Option Chan) :=
  if ch.closed then none
  else if ch.buf.length < sendBufSize then some (some { buf := ch.buf ++ [p], closed := false })
  else some none

/-- `NewHub()`: three empty maps. -/
def NewHub : HubState := { clients := [], tenants := [], tickets := [], send := [] }

/-- What the `select` of `Hub.Run` receives: one value from one of the channels
`register`, `unregister`, `joinTicket`, `leaveTicket`, `broadcast`, or the
closing of `shutdown`. -/
inductive Request where
  | register (client : Client)
  | unregister (client : Client)
  | joinTicket (client : Client) (ticketID : String)
  | leaveTicket (client : Client) (ticketID : String)
  | broadcast (msg : BroadcastMessage)
  | shutdown
deriving DecidableEq, Repr

/-- The request is a `Register` or an `Unregister`. -/
def Request.isRegistration : Request → Bool
  | .register _ => true
  | .unregister _ => true
  | _ => false

/-- The request is a `Register`, an `Unregister`, a `JoinTopic` or a
`LeaveTopic`. -/
def Request.isMembership : Request → Bool
  | .register _ => true
  | .unregister _ => true
  | .joinTicket _ _ => true
  | .leaveTicket _ _ => true
  | _ => false

/-! ## hub.go -/

/-- The `register` case of `Hub.Run` (hub.go 42-49). -/
def Hub.register (h : HubState) (client : Client) : HubState :=
  let tid := client.TenantID
  let room := (h.tenants.get tid).getD []
  { h with
    clients := h.clients.add client
    tenants := h.tenants.put tid (room.add client) }

/-- Go `close(ch)`: panics (`none`) on a channel that is already closed. -/
def closeChan (h : HubState) (c : Client) : Option HubState :=
  if (h.chan c).closed then none
  else some { h with send := setFor h.send c { buf := (h.chan c).buf, closed := true } }

/-- The loop `for ticketID, members := range h.tickets` of the `unregister`
case (hub.go 63-68): the connection is deleted from every room and a room left
without members is deleted. -/
def sweepTickets (tickets : RoomIndex) (client : Client) : RoomIndex :=
  tickets.filterMap (fun kv =>
    let members := kv.2.remove client
    if members.isEmpty then none else some (kv.1, members))

/-- The fragment shared by the `unregister` case (hub.go 57-62, on `tenants`)
and the `leaveTicket` case (hub.go 82-87, on `tickets`):
`if m[k] != nil { delete(m[k], c); if len(m[k]) == 0 { delete(m, k) } }`. -/
def RoomIndex.leave (m : RoomIndex) (k : String) (c : Client) : RoomIndex :=
  match m.get k with
  | none => m
  | some room =>
    let room := room.remove c
    if room.isEmpty then m.delete k else m.put k room

/-- The `unregister` case of `Hub.Run` (hub.go 51-70); `none` is a panic.  A
connection that is not in `clients` takes the `continue` and nothing changes. -/
def Hub.unregister (h : HubState) (client : Client) : Option HubState :=
  if client ∉ h.clients then some h
  else
    closeChan
      { h with
        clients := h.clients.remove client
        tenants := h.tenants.leave client.TenantID client
        tickets := sweepTickets h.tickets client }
      client

/-- The `joinTicket` case of `Hub.Run` (hub.go 72-78). -/
def Hub.joinTicket (h : HubState) (client : Client) (tid : String) : HubState :=
  let room := (h.tickets.get tid).getD []
  { h with tickets := h.tickets.put tid (room.add client) }

/-- The `leaveTicket` case of `Hub.Run` (hub.go 80-88). -/
def Hub.leaveTicket (h : HubState) (client : Client) (tid : String) : HubState :=
  { h with tickets := h.tickets.leave tid client }

/-- The `switch msg.Target` of the `broadcast` case (hub.go 91-97): the member
set the loop ranges over; a target that is neither constant leaves `targets`
nil. -/
def Hub.targets (h : HubState) (msg : BroadcastMessage) : ClientSet :=
  if msg.Target = TargetTenant then h.tenants.members msg.TargetID
  else if msg.Target = TargetTicket then h.tickets.members msg.TargetID
  else []

/-- One iteration of the loop of the `broadcast` case (hub.go 99-108): the
`select` with a send and a `default`.  A send on a closed channel panics
(`none`); with room in the buffer the payload is appended; otherwise the
`default` branch runs: the connection is deleted from `clients` and from
`tenants[client.TenantID]` and its channel is closed. -/
def Hub.deliver (msg : BroadcastMessage) (h : HubState) (client : Client) : Option HubState :=
  match (h.chan client).trySend msg.Payload with
  | none => none
  | some (some ch) => some { h with send := setFor h.send client ch }
  | some none =>
    let tenants :=
      match h.tenants.get client.TenantID with
      | none => h.tenants
      | some room => h.tenants.put client.TenantID (room.remove client)
    closeChan { h with clients := h.clients.remove client, tenants := tenants } client

/-- The loop `for client := range targets` over the members `cs`. -/
def Hub.deliverAll (msg : BroadcastMessage) : HubState → List Client → Option HubState
  | h, [] => some h
  | h, c :: cs =>
    match Hub.deliver msg h c with
    | none => none
    | some h' => Hub.deliverAll msg h' cs

/-- The `broadcast` case of `Hub.Run` (hub.go 90-109). -/
def Hub.broadcast (h : HubState) (msg : BroadcastMessage) : Option HubState :=
  Hub.deliverAll msg h (Hub.targets h msg)

/-- The loop `for client := range h.clients { close(client.Send) }` of the
`shutdown` case (hub.go 112-114). -/
def closeAll : HubState → List Client → Option HubState
  | h, [] => some h
  | h, c :: cs =>
    match closeChan h c with
    | none => none
    | some h' => closeAll h' cs

/-- How a run of the control loop ends. -/
inductive RunResult where
  /-- every request was consumed; the loop is blocked in `select` -/
  | waiting (h : HubState)
  /-- the loop executed `return` (the `shutdown` case) -/
  | returned (h : HubState)
  /-- a run-time panic: the process is gone -/
  | panicked
deriving DecidableEq, Repr

/-- One pass through the `select` of `Hub.Run` (hub.go 41-116), up to the end
of the chosen case; `none` is a panic. -/
def Hub.step (h : HubState) : Request → Option HubState
  | .register c => some (Hub.register h c)
  | .unregister c => Hub.unregister h c
  | .joinTicket c tid => some (Hub.joinTicket h c tid)
  | .leaveTicket c tid => some (Hub.leaveTicket h c tid)
  | .broadcast msg => Hub.broadcast h msg
  | .shutdown => closeAll h h.clients

/-- `Hub.Run` (hub.go 39-118) on the requests in the order its `select`
receives them: the `shutdown` case ends with `return`, every other case goes
round the loop. -/
def Hub.Run : HubState → List Request → RunResult
  | h, [] => .waiting h
  | h, r :: rest =>
    match Hub.step h r with
    | none => .panicked
    | some h' => if r = .shutdown then .returned h' else Hub.Run h' rest

/-! ## Topic membership as the specification words it -/

/-- Specification, as worded: connection `c` is a member of topic `k` after the
requests `reqs` when its most recent membership-affecting request for `k` is a
`JoinTopic`, that is, when it joined `k` and no `LeaveTopic` for `k` and no
`Unregister` of `c` followed. -/
def specTopicMember (c : Client) (k : String) (reqs : List Request) : Bool :=
  reqs.foldl
    (fun joined r =>
      match r with
      | .joinTicket c' k' => if c' = c ∧ k' = k then true else joined
      | .leaveTicket c' k' => if c' = c ∧ k' = k then false else joined
      | .unregister c' => if c' = c then false else joined
      | _ => joined)
    false

/-- Specification, amended: the pair (registered, member of topic `k`) of
connection `c` after one more request.  An `Unregister` ends the membership
only when it is processed while the connection is registered. -/
def specTopicStep (c : Client) (k : String) (st : Bool × Bool) : Request → Bool × Bool
  | .register c' => if c' = c then (true, st.2) else st
  | .unregister c' => if c' = c ∧ st.1 = true then (false, false) else st
  | .joinTicket c' k' => if c' = c ∧ k' = k then (st.1, true) else st
  | .leaveTicket c' k' => if c' = c ∧ k' = k then (st.1, false) else st
  | _ => st

/-- Specification, amended: (registered, member of topic `k`) of connection `c`
after the requests `reqs`, starting from neither. -/
def specTopicState (c : Client) (k : String) (reqs : List Request) : Bool × Bool :=
  reqs.foldl (specTopicStep c k) (false, false)

/-! ## Concrete connections and messages used in evaluations -/

/-- An agent of tenant `T1`. -/
def agentA : Client :=
  { ptr := 1, UserID := "u1", TenantID := "T1", Email := "ann@example.com", Role := "agent" }

/-- A second agent of tenant `T1`. -/
def agentB : Client :=
  { ptr := 2, UserID := "u2", TenantID := "T1", Email := "bob@example.com", Role := "agent" }

/-- A frame for the tenant room `T1`. -/
def tenantMsg : BroadcastMessage :=
  { Target := TargetTenant, TargetID := "T1", Payload := "\x7b\"event\":\"ticket:created\",\"data\":null\x7d" }

/-- A frame for the ticket room `K9`. -/
def ticketMsg : BroadcastMessage :=
  { Target := TargetTicket, TargetID := "K9", Payload := "\x7b\"event\":\"typing\",\"data\":null\x7d" }

/-- `agentA` registers and joins ticket room `K9`, then 256 tenant frames
arrive while its `WritePump` writes nothing: its queue is full. -/
def stalledRequests : List Request :=
  [.register agentA, .joinTicket agentA "K9"] ++ List.replicate 256 (.broadcast tenantMsg)

/-- The state after `stalledRequests`. -/
def stalledState : HubState :=
  { clients := [agentA]
    tenants := [("T1", [agentA])]
    tickets := [("K9", [agentA])]
    send := [(agentA, { buf := List.replicate 256 tenantMsg.Payload, closed := false })] }

/-- The state after one more tenant frame: `agentA` has been evicted. -/
def evictedState : HubState :=
  { clients := []
    tenants := [("T1", [])]
    tickets := [("K9", [agentA])]
    send := [(agentA, { buf := List.replicate 256 tenantMsg.Payload, closed := true })] }

/-- A JSON text without its insignificant whitespace.  Numbers and string
literals (and object keys) keep the characters they are written with, escapes
included. -/
inductive JSON where
  | null
  | bool (b : Bool)
  | num (lit : String)
  | str (lit : String)
  | arr (elems : List JSON)
  | obj (fields : List (String × JSON))
deriving Repr

/-- The whitespace of JSON. -/
def isSpace (c : Char) : Bool :=
  c = ' ' || c = '\t' || c = '\r' || c = '\n'

/-- Drop leading whitespace. -/
def skipSpace : List Char → List Char
  | [] => []
  | c :: cs => if isSpace c then skipSpace cs else c :: cs

/-- A decimal digit. -/
def isDigit (c : Char) : Bool :=
  '0' ≤ c && c ≤ '9'

/-- A hexadecimal digit. -/
def isHex (c : Char) : Bool :=
  isDigit c || ('a' ≤ c && c ≤ 'f') || ('A' ≤ c && c ≤ 'F')

/-- The scanner inside a string literal, after the opening quote: the
characters of the literal up to the closing quote and what follows it; `none`
on a control character, an unknown escape or a missing closing quote. -/
def scanString : List Char → List Char → Option (List Char × List Char)
  | [], _ => none
  | '"' :: rest, acc => some (acc, rest)
  | '\\' :: 'u' :: a :: b :: c :: d :: rest, acc =>
    if isHex a && isHex b && isHex c && isHex d then
      scanString rest (acc ++ ['\\', 'u', a, b, c, d])
    else none
  | '\\' :: e :: rest, acc =>
    if e = '"' || e = '\\' || e = '/' || e = 'b' || e = 'f' || e = 'n' || e = 'r' || e = 't' then
      scanString rest (acc ++ ['\\', e])
    else none
  | c :: rest, acc =>
    if c.toNat < 0x20 || c = '\\' then none else scanString rest (acc ++ [c])

/-- The leading decimal digits and what follows them. -/
def takeDigits : List Char → List Char × List Char
  | [] => ([], [])
  | c :: cs =>
    if isDigit c then ((takeDigits cs).1.cons c, (takeDigits cs).2) else ([], c :: cs)

/-- The exponent part of a number, if any. -/
def scanExponent (acc : List Char) (cs : List Char) : Option (List Char × List Char) :=
  match cs with
  | e :: rest =>
    if e = 'e' || e = 'E' then
      match rest with
      | s :: rest' =>
        if s = '+' || s = '-' then
          let ds := takeDigits rest'
          if ds.1.isEmpty then none else some (acc ++ e :: s :: ds.1, ds.2)
        else
          let ds := takeDigits rest
          if ds.1.isEmpty then none else some (acc ++ e :: ds.1, ds.2)
      | [] => none
    else some (acc, cs)
  | [] => some (acc, cs)

/-- The fraction and exponent parts of a number, if any. -/
def scanFraction (acc : List Char) (cs : List Char) : Option (List Char × List Char) :=
  match cs with
  | '.' :: rest =>
    let ds := takeDigits rest
    if ds.1.isEmpty then none else scanExponent (acc ++ '.' :: ds.1) ds.2
  | _ => scanExponent acc cs

/-- The scanner on a number: its characters and what follows them. -/
def scanNumber (cs : List Char) : Option (List Char × List Char) :=
  let signed : List Char × List Char :=
    match cs with
    | '-' :: rest => (['-'], rest)
    | _ => ([], cs)
  match signed.2 with
  | [] => none
  | d :: rest =>
    if d = '0' then scanFraction (signed.1 ++ ['0']) rest
    else if '1' ≤ d && d ≤ '9' then
      let ds := takeDigits rest
      scanFraction (signed.1 ++ d :: ds.1) ds.2
    else none

/-- The nesting of arrays and objects the scanner accepts (`maxNestingDepth`). -/
def maxNestingDepth : Nat := 10000

mutual
/-- One JSON value at the head of the input (no leading whitespace) and what
follows it.  The first argument bounds the number of nested calls. -/
def parseValue : Nat → Nat → List Char → Option (JSON × List Char)
  | 0, _, _ => none
  | fuel + 1, depth, cs =>
    match cs with
    | '"' :: rest =>
      match scanString rest [] with
      | some (lit, rest') => some (.str (String.mk lit), rest')
      | none => none
    | '[' :: rest =>
      if depth ≥ maxNestingDepth then none
      else
        match skipSpace rest with
        | ']' :: rest' => some (.arr [], rest')
        | rest' => parseElems fuel (depth + 1) rest' []
    | '\x7b' :: rest =>
      if depth ≥ maxNestingDepth then none
      else
        match skipSpace rest with
        | '\x7d' :: rest' => some (.obj [], rest')
        | rest' => parseMembers fuel (depth + 1) rest' []
    | 't' :: 'r' :: 'u' :: 'e' :: rest => some (.bool true, rest)
    | 'f' :: 'a' :: 'l' :: 's' :: 'e' :: rest => some (.bool false, rest)
    | 'n' :: 'u' :: 'l' :: 'l' :: rest => some (.null, rest)
    | _ =>
      match scanNumber cs with
      | some (lit, rest) => some (.num (String.mk lit), rest)
      | none => none
/-- The elements of an array after `[` or `,`, up to the closing `]`. -/
def parseElems : Nat → Nat → List Char → List JSON → Option (JSON × List Char)
  | 0, _, _, _ => none
  | fuel + 1, depth, cs, acc =>
    match parseValue fuel depth cs with
    | none => none
    | some (v, rest) =>
      match skipSpace rest with
      | ',' :: rest' => parseElems fuel depth (skipSpace rest') (acc ++ [v])
      | ']' :: rest' => some (.arr (acc ++ [v]), rest')
      | _ => none
/-- The members of an object after `{` or `,`, up to the closing `}`. -/
def parseMembers : Nat → Nat → List Char → List (String × JSON) → Option (JSON × List Char)
  | 0, _, _, _ => none
  | fuel + 1, depth, cs, acc =>
    match cs with
    | '"' :: rest =>
      match scanString rest [] with
      | none => none
      | some (key, rest₁) =>
        match skipSpace rest₁ with
        | ':' :: rest₂ =>
          match parseValue fuel depth (skipSpace rest₂) with
          | none => none
          | some (v, rest₃) =>
            match skipSpace rest₃ with
            | ',' :: rest₄ =>
              parseMembers fuel depth (skipSpace rest₄) (acc ++ [(String.mk key, v)])
            | '\x7d' :: rest₄ => some (.obj (acc ++ [(String.mk key, v)]), rest₄)
            | _ => none
        | _ => none
    | _ => none
end

/-- `checkValid`: the input is one JSON value surrounded by optional
whitespace; the value as a tree. -/
def parseJSON (input : String) : Option JSON :=
  let cs := skipSpace input.toList
  match parseValue (2 * cs.length + 2) 0 cs with
  | none => none
  | some (v, rest) => if (skipSpace rest).isEmpty then some v else none

/-- The value of a hexadecimal digit. -/
def hexValue (c : Char) : Nat :=
  if isDigit c then c.toNat - '0'.toNat
  else if 'a' ≤ c && c ≤ 'f' then c.toNat - 'a'.toNat + 10
  else c.toNat - 'A'.toNat + 10

/-- `getu4`: the number four hexadecimal digits write. -/
def hex4 (a b c d : Char) : Nat :=
  ((hexValue a * 16 + hexValue b) * 16 + hexValue c) * 16 + hexValue d

/-- `unquote` on the characters of a string literal the scanner accepted: the
string it denotes.  A `\u` escape in the surrogate range is combined with a
following low surrogate escape; a surrogate without its partner becomes
U+FFFD. -/
def unquoteChars : Nat → List Char → List Char
  | 0, _ => []
  | _ + 1, [] => []
  | fuel + 1, '\\' :: 'u' :: a :: b :: c :: d :: rest =>
    let r := hex4 a b c d
    if 0xD800 ≤ r ∧ r < 0xE000 then
      match rest with
      | '\\' :: 'u' :: a' :: b' :: c' :: d' :: rest' =>
        let r' := hex4 a' b' c' d'
        if isHex a' && isHex b' && isHex c' && isHex d' && decide (r < 0xDC00) &&
            decide (0xDC00 ≤ r') && decide (r' < 0xE000) then
          Char.ofNat ((r - 0xD800) * 1024 + (r' - 0xDC00) + 0x10000) :: unquoteChars fuel rest'
        else Char.ofNat 0xFFFD :: unquoteChars fuel rest
      | _ => Char.ofNat 0xFFFD :: unquoteChars fuel rest
    else Char.ofNat r :: unquoteChars fuel rest
  | fuel + 1, '\\' :: e :: rest =>
    (if e = 'b' then Char.ofNat 8
     else if e = 'f' then Char.ofNat 12
     else if e = 'n' then '\n'
     else if e = 'r' then '\r'
     else if e = 't' then '\t'
     else e) :: unquoteChars fuel rest
  | fuel + 1, c :: rest => c :: unquoteChars fuel rest

/-- The Go string a string literal denotes. -/
def unquote (lit : String) : String :=
  String.mk (unquoteChars lit.length lit.toList)

/-- The sixteen digits `hex` of encode.go. -/
def hexDigit (n : Nat) : Char :=
  "0123456789abcdef".toList.getD n '0'

/-- What `appendCompact` with `escapeHTML` writes for one character of a valid
JSON text outside whitespace: `<`, `>`, `&`, U+2028 and U+2029 become `\u`
escapes. -/
def escapeHTMLChar (c : Char) : List Char :=
  if c = '<' || c = '>' || c = '&' then
    ['\\', 'u', '0', '0', hexDigit (c.toNat / 16), hexDigit (c.toNat % 16)]
  else if c.toNat = 0x2028 || c.toNat = 0x2029 then
    ['\\', 'u', '2', '0', '2', hexDigit (c.toNat % 16)]
  else [c]

/-- The characters of a literal as `appendCompact` writes them. -/
def escapeHTML (lit : String) : List Char :=
  lit.toList.flatMap escapeHTMLChar

mutual
/-- What `json.Marshal` writes for a `json.RawMessage` holding this text
(`appendCompact` with `escapeHTML`). -/
def JSON.compact : JSON → List Char
  | .null => "null".toList
  | .bool b => if b then "true".toList else "false".toList
  | .num lit => lit.toList
  | .str lit => '"' :: escapeHTML lit ++ ['"']
  | .arr elems => '[' :: JSON.compactElems elems ++ [']']
  | .obj fields => '\x7b' :: JSON.compactFields fields ++ ['\x7d']
/-- The elements of an array, separated by commas. -/
def JSON.compactElems : List JSON → List Char
  | [] => []
  | [v] => JSON.compact v
  | v :: rest => JSON.compact v ++ ',' :: JSON.compactElems rest
/-- The members of an object, separated by commas. -/
def JSON.compactFields : List (String × JSON) → List Char
  | [] => []
  | [(k, v)] => '"' :: escapeHTML k ++ '"' :: ':' :: JSON.compact v
  | (k, v) :: rest =>
    '"' :: escapeHTML k ++ '"' :: ':' :: JSON.compact v ++ ',' :: JSON.compactFields rest
end

/-- What `json.Marshal` writes for a `json.RawMessage`: `null` for a nil one. -/
def marshalRaw : Option JSON → List Char
  | none => "null".toList
  | some v => v.compact

/-- What `appendString` with `escapeHTML` writes for one character of a Go
string (Go 1.22 and later, which the `"GET /health"` routing pattern of main.go
requires). -/
def encodeChar (c : Char) : List Char :=
  if c = '"' || c = '\\' then ['\\', c]
  else if c.toNat = 8 then ['\\', 'b']
  else if c.toNat = 12 then ['\\', 'f']
  else if c = '\n' then ['\\', 'n']
  else if c = '\r' then ['\\', 'r']
  else if c = '\t' then ['\\', 't']
  else if c.toNat < 0x20 || c = '<' || c = '>' || c = '&' then
    ['\\', 'u', '0', '0', hexDigit (c.toNat / 16), hexDigit (c.toNat % 16)]
  else if c.toNat = 0x2028 || c.toNat = 0x2029 then
    ['\\', 'u', '2', '0', '2', hexDigit (c.toNat % 16)]
  else [c]

/-- What `json.Marshal` writes for a Go string. -/
def marshalString (s : String) : List Char :=
  '"' :: s.toList.flatMap encodeChar ++ ['"']

/-- What `json.Marshal` writes for a non-nil `[]string`. -/
def marshalStrings : List String → List Char
  | [] => []
  | [s] => marshalString s
  | s :: rest => marshalString s ++ ',' :: marshalStrings rest

/-- One character of `foldName`, for comparison with a field name made of
ASCII letters, digits and `_`: ASCII letters are folded to upper case and the
only other characters whose fold is an ASCII letter are the Kelvin sign
(U+212A, to `K`) and the long s (U+017F, to `S`). -/
def foldChar (c : Char) : Char :=
  if 'a' ≤ c && c ≤ 'z' then Char.ofNat (c.toNat - 32)
  else if c.toNat = 0x212A then 'K'
  else if c.toNat = 0x017F then 'S'
  else c

/-- The object key `key` selects the struct field with JSON name `name`: the
decoder looks for the exact name and then for the folded name. -/
def keyMatches (key name : String) : Bool :=
  key = name || key.toList.map foldChar = name.toList.map foldChar

/-- Decoding a JSON value into a Go `string` that holds `cur`: a string literal
is stored, `null` changes nothing, anything else is an `UnmarshalTypeError`
(`none`). -/
def decodeString (cur : String) : JSON → Option String
  | .str lit => some (unquote lit)
  | .null => some cur
  | _ => none

/-- Decoding a JSON value into a Go `bool` that holds `cur`. -/
def decodeBool (cur : Bool) : JSON → Option Bool
  | .bool b => some b
  | .null => some cur
  | _ => none

/-- Decoding the members of a JSON object into a Go struct, in the order they
are written: `set` stores one member (a key that names no field changes
nothing); the first `UnmarshalTypeError` makes the whole `Unmarshal` return an
error (`none`). -/
def decodeMembers {α : Type} (set : α → String → JSON → Option α) :
    List (String × JSON) → α → Option α
  | [], a => some a
  | (k, v) :: rest, a =>
    match set a (unquote k) v with
    | none => none
    | some a' => decodeMembers set rest a'

/-- Decoding a JSON text into a Go struct that holds `zero`: an object is
decoded member by member, `null` changes nothing, any other value is an
`UnmarshalTypeError`. -/
def decodeStruct {α : Type} (set : α → String → JSON → Option α) (zero : α) : JSON → Option α
  | .obj fields => decodeMembers set fields zero
  | .null => some zero
  | _ => none

/-! ## client.go: the connection session -/

/-- `ws.IncomingMessage`; `Data` is a `json.RawMessage`, `none` when nil. -/
structure IncomingMessage where
  Event : String
  Data : Option JSON

/-- Storing one member of a JSON object into an `IncomingMessage`. -/
def IncomingMessage.set (m : IncomingMessage) (key : String) (v : JSON) : Option IncomingMessage :=
  if keyMatches key "event" then (decodeString m.Event v).map (fun s => { m with Event := s })
  else if keyMatches key "data" then some { m with Data := some v }
  else some m

/-- `json.Unmarshal(raw, &msg)` in `ReadPump`; `none` is an error. -/
def unmarshalIncoming (raw : String) : Option IncomingMessage :=
  match parseJSON raw with
  | none => none
  | some j => decodeStruct IncomingMessage.set { Event := "", Data := none } j

/-- `json.Unmarshal(msg.Data, &data)` for `TicketJoinData` and
`TicketLeaveData`, whose only field is `TicketID` with JSON name `ticketId`:
the decoded `TicketID`, or `none` for an error (nil `Data` is the error
"unexpected end of JSON input"). -/
def unmarshalTicketID : Option JSON → Option String
  | none => none
  | some j =>
    decodeStruct
      (fun (cur : String) key v => if keyMatches key "ticketId" then decodeString cur v else some cur)
      "" j

/-- `ws.TypingData`. -/
structure TypingData where
  TicketID : String
  IsTyping : Bool

/-- `json.Unmarshal(msg.Data, &data)` for `TypingData`. -/
def unmarshalTyping : Option JSON → Option TypingData
  | none => none
  | some j =>
    decodeStruct
      (fun (cur : TypingData) key v =>
        if keyMatches key "ticketId" then
          (decodeString cur.TicketID v).map (fun s => { cur with TicketID := s })
        else if keyMatches key "isTyping" then
          (decodeBool cur.IsTyping v).map (fun b => { cur with IsTyping := b })
        else some cur)
      { TicketID := "", IsTyping := false } j

/-- `json.Marshal(OutgoingMessage{Event: event, Data: data})`, given what
`json.Marshal` writes for `data`: the fields in the order of the struct. -/
def marshalOutgoing (event : String) (data : List Char) : Payload :=
  String.mk ("\x7b\"event\":".toList ++ marshalString event ++ ",\"data\":".toList ++ data ++ ['\x7d'])

/-- `json.Marshal` of `AgentPresence{UserID: userID}`. -/
def marshalAgentPresence (userID : String) : List Char :=
  "\x7b\"userId\":".toList ++ marshalString userID ++ ['\x7d']

/-- `json.Marshal` of `ViewersBroadcast{Viewers: viewers}` for the non-nil
slice `SMembers(...).Result()` returns without error. -/
def marshalViewers (viewers : List String) : List Char :=
  "\x7b\"viewers\":[".toList ++ marshalStrings viewers ++ "]\x7d".toList

/-- `json.Marshal` of `PresenceListResponse{AgentIDs: agentIDs}`; `ListPresence`
returns a nil slice when it found no key, which is written `null`. -/
def marshalPresenceList (agentIDs : List String) : List Char :=
  if agentIDs.isEmpty then "\x7b\"agentIds\":null\x7d".toList
  else "\x7b\"agentIds\":[".toList ++ marshalStrings agentIDs ++ "]\x7d".toList

/-- `json.Marshal` of `TypingBroadcast`. -/
def marshalTyping (userID userName : String) (isTyping : Bool) : List Char :=
  "\x7b\"userId\":".toList ++ marshalString userID ++ ",\"userName\":".toList ++
    marshalString userName ++ ",\"isTyping\":".toList ++
    (if isTyping then "true".toList else "false".toList) ++ ['\x7d']

/-- What a session does to the world outside it, in the order it does it: the
requests it submits to the Hub, its calls of the presence and viewer-set
collaborators, the send on its own queue and the closing of its connection. -/
inductive Action where
  /-- `hub.Register(client)`, that is `h.register <- client` -/
  | register (client : Client)
  /-- `c.Hub.joinTicket <- ticketAction{...}` -/
  | joinTicket (client : Client) (ticketID : String)
  /-- `c.Hub.leaveTicket <- ticketAction{...}` -/
  | leaveTicket (client : Client) (ticketID : String)
  /-- `c.Hub.broadcast <- msg` -/
  | broadcast (msg : BroadcastMessage)
  /-- `c.Hub.unregister <- c` -/
  | unregister (client : Client)
  | addViewer (ticketID userID : String)
  | removeViewer (ticketID userID : String)
  | getViewers (ticketID : String)
  | setPresence (tenantID userID : String)
  | removePresence (tenantID userID : String)
  | listPresence (tenantID : String)
  /-- `select { case c.Send <- payload: default: }` -/
  | trySend (client : Client) (payload : Payload)
  /-- `c.Conn.Close()` -/
  | closeConn (client : Client)
deriving DecidableEq, Repr

/-- The action is a call of `RemovePresence`. -/
def Action.isRemovePresence : Action → Bool
  | .removePresence _ _ => true
  | _ => false

/-- The action submits a broadcast to a tenant room. -/
def Action.isTenantBroadcast : Action → Bool
  | .broadcast msg => decide (msg.Target = TargetTenant)
  | _ => false

/-- `Client.broadcastViewers` (client.go 149-161); `viewers` is what
`GetViewers` returns, `none` for an error. -/
def Client.broadcastViewers (c : Client) (viewers : Option (List String)) (ticketID : String) :
    List Action :=
  .getViewers ticketID ::
    match viewers with
    | none => []
    | some vs =>
      [.broadcast
        { Target := TargetTicket
          TargetID := ticketID
          Payload := marshalOutgoing "ticket:viewers" (marshalViewers vs) }]

/-- What `strings.Split(email, "@")[0]` returns: the part before the first `@`. -/
def userNameOf (email : String) : String :=
  String.mk (email.toList.takeWhile (fun ch => ch ≠ '@'))

/-- `Client.handleMessage` (client.go 91-147).  `reply` is what the one reading
call of a collaborator in the chosen case returns (`GetViewers` or
`ListPresence`), `none` for an error. -/
def Client.handleMessage (c : Client) (reply : Option (List String)) (msg : IncomingMessage) :
    List Action :=
  if msg.Event = "ticket:join" then
    match unmarshalTicketID msg.Data with
    | none => []
    | some ticketID =>
      if ticketID = "" then []
      else
        [.joinTicket c ticketID, .addViewer ticketID c.UserID] ++
          c.broadcastViewers reply ticketID
  else if msg.Event = "ticket:leave" then
    match unmarshalTicketID msg.Data with
    | none => []
    | some ticketID =>
      if ticketID = "" then []
      else
        [.leaveTicket c ticketID, .removeViewer ticketID c.UserID] ++
          c.broadcastViewers reply ticketID
  else if msg.Event = "typing" then
    match unmarshalTyping msg.Data with
    | none => []
    | some data =>
      if data.TicketID = "" then []
      else
        [.broadcast
          { Target := TargetTicket
            TargetID := data.TicketID
            Payload :=
              marshalOutgoing "typing" (marshalTyping c.UserID (userNameOf c.Email) data.IsTyping) }]
  else if msg.Event = "heartbeat" then [.setPresence c.TenantID c.UserID]
  else if msg.Event = "presence:list" then
    .listPresence c.TenantID ::
      match reply with
      | none => []
      | some agentIDs =>
        [.trySend c (marshalOutgoing "presence:list" (marshalPresenceList agentIDs))]
  else []

/-- `Client.cleanup` (client.go 163-176). -/
def Client.cleanup (c : Client) : List Action :=
  [.removePresence c.TenantID c.UserID,
   .broadcast
    { Target := TargetTenant
      TargetID := c.TenantID
      Payload := marshalOutgoing "agent:offline" (marshalAgentPresence c.UserID) }]

/-- `Client.ReadPump` (client.go 32-63) on a connection that delivers the
frames `frames`, each with the reply of the collaborator to the reading call
it leads to, and then fails to read: every frame that decodes is handled, and
on the way out the deferred function runs `cleanup`, submits `Unregister` and
closes the connection. -/
def Client.ReadPump (c : Client) : List (String × Option (List String)) → List Action
  | [] => c.cleanup ++ [.unregister c, .closeConn c]
  | (raw, reply) :: rest =>
    (match unmarshalIncoming raw with
     | none => []
     | some msg => c.handleMessage reply msg) ++ Client.ReadPump c rest

/-! ## handler/websocket.go and auth/jwt.go -/

/-- `auth.Claims`, the fields this service reads. -/
structure auth.Claims where
  Sub : String
  TenantID : String
  Email : String
  Role : String
deriving DecidableEq, Repr

/-- The handler that `handler.WebSocket` returns (websocket.go 22-79), on one
request, and the inbound loop it starts: what they do to the Hub, to the
collaborators and to the queue of the connection, in order.  `token` is the
query parameter, `claims` what `auth.ValidateToken` returns for it (`none` for
an error), `conn` what `upgrader.Upgrade` returns (`none` for an error; the
number stands for the address of the `ws.Client` built around it), and
`frames` is what the connection delivers to `ReadPump`.  A request without a
token, with a token that is not valid or whose upgrade fails creates nothing.
Otherwise the handler registers the connection, writes its presence record
and broadcasts `agent:online` to its tenant room, and then starts `WritePump`,
which only writes to the connection (`Client.WritePump`), and `ReadPump`. -/
def handler.WebSocket (token : String) (claims : Option auth.Claims) (conn : Option Nat)
    (frames : List (String × Option (List String))) : List Action :=
  if token = "" then []
  else
    match claims with
    | none => []
    | some claims =>
      match conn with
      | none => []
      | some ptr =>
        let client : Client :=
          { ptr := ptr, UserID := claims.Sub, TenantID := claims.TenantID,
            Email := claims.Email, Role := claims.Role }
        [.register client,
         .setPresence claims.TenantID claims.Sub,
         .broadcast
          { Target := TargetTenant
            TargetID := claims.TenantID
            Payload := marshalOutgoing "agent:online" (marshalAgentPresence claims.Sub) }] ++
          client.ReadPump frames

/-- The claims of the token of `agentA`. -/
def agentAClaims : auth.Claims :=
  { Sub := "u1", TenantID := "T1", Email := "ann@example.com", Role := "agent" }

/-- A frame handed to `c.Conn.WriteMessage`, by message type. -/
inductive Frame where
  | text (p : Payload)
  | ping
  | close
deriving DecidableEq, Repr

/-- The outbound loop of one connection: the calls of `c.Conn.WriteMessage` it
has made, oldest first, each with whether it returned a nil error, and whether
the loop is still running (it has not returned and closed the connection). -/
structure PumpState where
  writes : List (Frame × Bool)
  running : Bool
deriving DecidableEq, Repr

/-- The `WritePump` of a connection before its first step. -/
def PumpState.start : PumpState := { writes := [], running := true }

/-- Which case the `select` of `WritePump` takes, and whether the
`WriteMessage` of that case succeeds. -/
inductive PumpEvent where
  /-- `case message, ok := <-c.Send` -/
  | recv (writeOk : Bool)
  /-- `case <-ticker.C` -/
  | tick (writeOk : Bool)
deriving DecidableEq, Repr

/-- One pass through the loop of `Client.WritePump` (client.go 72-88) on the
channel `c.Send`; `none` when the case cannot be taken (the loop has returned,
or the channel is open and empty).  A receive takes the oldest frame of the
buffer; on a closed and drained channel it yields `ok == false`, the loop
writes a close frame and returns.  A failed write makes the loop return. -/
def Client.WritePump (ch : Chan) (st : PumpState) : PumpEvent → Option (Chan × PumpState)
  | .recv writeOk =>
    if st.running then
      match ch.buf with
      | message :: rest =>
        some ({ ch with buf := rest },
              { writes := st.writes ++ [(.text message, writeOk)], running := writeOk })
      | [] =>
        if ch.closed then
          some (ch, { writes := st.writes ++ [(.close, writeOk)], running := false })
        else none
    else none
  | .tick writeOk =>
    if st.running then
      some (ch, { writes := st.writes ++ [(.ping, writeOk)], running := writeOk })
    else none

/-- The payloads of the text frames among the calls of `WriteMessage`. -/
def textsOf : List (Frame × Bool) → List Payload
  | [] => []
  | (.text p, _) :: rest => p :: textsOf rest
  | _ :: rest => textsOf rest

/-! ## The Hub and the outbound loops together -/

/-- The Hub, whether its control loop is still running, and the outbound loop
of every connection (`PumpState.start` for a connection without an entry). -/
structure System where
  hub : HubState
  hubRunning : Bool
  pumps : List (Client × PumpState)
deriving DecidableEq, Repr

/-- The outbound loop of connection `c`. -/
def System.pump (s : System) (c : Client) : PumpState :=
  (s.pumps.lookup c).getD PumpState.start

/-- One step of one of the goroutines that touch the `Send` channels. -/
inductive Event where
  /-- the control loop of the Hub processes a request -/
  | hub (r : Request)
  /-- the `WritePump` of a connection goes once round its loop -/
  | pump (c : Client) (e : PumpEvent)
  /-- the `ReadPump` of a connection answers `presence:list`:
  `select { case c.Send <- payload: default: }` -/
  | reply (c : Client) (payload : Payload)
deriving DecidableEq, Repr

/-- One step of the system; `none` when the step cannot be taken or panics. -/
def System.step (s : System) : Event → Option System
  | .hub r =>
    if s.hubRunning then
      match Hub.step s.hub r with
      | none => none
      | some h' => some { s with hub := h', hubRunning := decide (r ≠ .shutdown) }
    else none
  | .pump c e =>
    match Client.WritePump (s.hub.chan c) (s.pump c) e with
    | none => none
    | some (ch, st) =>
      some { s with
        hub := { s.hub with send := setFor s.hub.send c ch }
        pumps := setFor s.pumps c st }
  | .reply c payload =>
    match (s.hub.chan c).trySend payload with
    | none => none
    | some none => some s
    | some (some ch) => some { s with hub := { s.hub with send := setFor s.hub.send c ch } }

/-- A sequence of steps. -/
def System.run : System → List Event → Option System
  | s, [] => some s
  | s, e :: rest =>
    match System.step s e with
    | none => none
    | some s' => System.run s' rest

/-- Everything connection `c` has been sent so far, oldest first: the text
frames its `WritePump` has handed to `WriteMessage`, then the frames waiting in
its queue. -/
def System.stream (s : System) (c : Client) : List Payload :=
  textsOf (s.pump c).writes ++ (s.hub.chan c).buf

/-- The system when `main` has called `NewHub()` and started `hub.Run()`. -/
def System.start : System :=
  { hub := NewHub, hubRunning := true, pumps := [] }

/-- A sequence of steps that the goroutines of this repository can take while
the Hub is running: no step is a `Shutdown` (it ends the control loop), every
step can be taken without a panic, and a `Register` is processed for a
connection whose `Send` channel is open (`handler.WebSocket`, the only caller
of `Hub.Register`, registers a connection once, right after `make` returned its
channel). -/
def System.admissible : System → List Event → Bool
  | _, [] => true
  | s, e :: rest =>
    (match e with
     | .hub .shutdown => false
     | .hub (.register c) => !(s.hub.chan c).closed
     | _ => true) &&
    (match System.step s e with
     | none => false
     | some s' => System.admissible s' rest)

/-- The states the Hub can be in while its control loop runs: those reached
from `NewHub()` by an admissible sequence of steps of the control loop, of the
outbound loops and of `presence:list` replies. -/
def Reachable (h : HubState) : Prop :=
  ∃ evs s, System.admissible System.start evs = true ∧
    System.run System.start evs = some s ∧ s.hub = h

/-- The steps in which the control loop processes the requests `reqs`. -/
def hubEvents (reqs : List Request) : List Event :=
  reqs.map Event.hub

/-- A system in which `agentA` is registered and a member of ticket room `K9`,
with the given channel states, Hub status and outbound loops. -/
def joinedSystem (send : List (Client × Chan)) (hubRunning : Bool)
    (pumps : List (Client × PumpState)) : System :=
  { hub :=
      { clients := [agentA]
        tenants := [("T1", [agentA])]
        tickets := [("K9", [agentA])]
        send := send }
    hubRunning := hubRunning
    pumps := pumps }

/-- The JSON text `{"event":"ticket:viewers","data":{"viewers":[...]}}` with
the given user ids as the elements of the array, each written as
`json.Marshal` writes a string. -/
def viewersText (viewers : List String) : Payload :=
  String.mk ("\x7b\"event\":\"ticket:viewers\",\"data\":\x7b\"viewers\":[".toList ++
    marshalStrings viewers ++ "]\x7d\x7d".toList)

/-! ## redis/pubsub.go: the external event bridge -/

/-- `redis.RedisEvent`; `Ticket` and `Message` are `json.RawMessage`, `none`
when nil. -/
structure RedisEvent where
  Event : String
  TenantID : String
  Ticket : Option JSON
  TicketID : String
  Message : Option JSON
  SourceID : String
  TargetID : String

/-- The zero value `var event RedisEvent`. -/
def RedisEvent.zero : RedisEvent :=
  { Event := "", TenantID := "", Ticket := none, TicketID := "", Message := none,
    SourceID := "", TargetID := "" }

/-- Storing one member of a JSON object into a `RedisEvent`, by the JSON names
of its fields. -/
def RedisEvent.set (ev : RedisEvent) (key : String) (v : JSON) : Option RedisEvent :=
  if keyMatches key "event" then (decodeString ev.Event v).map (fun s => { ev with Event := s })
  else if keyMatches key "tenant_id" then
    (decodeString ev.TenantID v).map (fun s => { ev with TenantID := s })
  else if keyMatches key "ticket" then some { ev with Ticket := some v }
  else if keyMatches key "ticket_id" then
    (decodeString ev.TicketID v).map (fun s => { ev with TicketID := s })
  else if keyMatches key "message" then some { ev with Message := some v }
  else if keyMatches key "source_id" then
    (decodeString ev.SourceID v).map (fun s => { ev with SourceID := s })
  else if keyMatches key "target_id" then
    (decodeString ev.TargetID v).map (fun s => { ev with TargetID := s })
  else some ev

/-- `json.Unmarshal([]byte(payload), &event)` (pubsub.go 56-57); `none` is an
error. -/
def unmarshalRedisEvent (payload : String) : Option RedisEvent :=
  match parseJSON payload with
  | none => none
  | some j => decodeStruct RedisEvent.set RedisEvent.zero j

/-- `json.Unmarshal(event.Ticket, &ticket)` for `struct { ID string "json:id" }`
(pubsub.go 79-82): the decoded `ID`, `none` for an error (a nil `Ticket` is the
error "unexpected end of JSON input"). -/
def unmarshalTicketRef : Option JSON → Option String
  | none => none
  | some j =>
    decodeStruct
      (fun (cur : String) key v => if keyMatches key "id" then decodeString cur v else some cur)
      "" j

/-- `json.Marshal(map[string]interface{}{"event": event, "data": data})`, given
what `json.Marshal` writes for `data`: the keys of a map are written sorted. -/
def marshalEnvelope (event : String) (data : List Char) : Payload :=
  String.mk ("\x7b\"data\":".toList ++ data ++ ",\"event\":".toList ++ marshalString event ++ ['\x7d'])

/-- `json.Marshal(map[string]string{"sourceId": s, "targetId": t})`. -/
def marshalMerge (sourceID targetID : String) : List Char :=
  "\x7b\"sourceId\":".toList ++ marshalString sourceID ++ ",\"targetId\":".toList ++
    marshalString targetID ++ ['\x7d']

/-- One call `s.broadcast(target, targetID, payload)` of the `BroadcastFunc`. -/
structure BroadcastCall where
  target : Int
  targetID : String
  payload : Payload
deriving DecidableEq, Repr

/-- `Subscriber.handleMessage` (pubsub.go 55-103): the calls of `s.broadcast` it
makes, in order, before it returns. -/
def Subscriber.handleMessage (payload : String) : List BroadcastCall :=
  match unmarshalRedisEvent payload with
  | none => []
  | some event =>
    if event.Event = "ticket.created" then
      [{ target := 0, targetID := event.TenantID,
         payload := marshalEnvelope "ticket:created" (marshalRaw event.Ticket) }]
    else if event.Event = "ticket.updated" then
      let out := marshalEnvelope "ticket:updated" (marshalRaw event.Ticket)
      { target := 0, targetID := event.TenantID, payload := out } ::
        match unmarshalTicketRef event.Ticket with
        | none => []
        | some id => if id ≠ "" then [{ target := 1, targetID := id, payload := out }] else []
    else if event.Event = "ticket.merged" then
      [{ target := 0, targetID := event.TenantID,
         payload := marshalEnvelope "ticket:merged" (marshalMerge event.SourceID event.TargetID) }]
    else if event.Event = "message.created" then
      [{ target := 1, targetID := event.TicketID,
         payload := marshalEnvelope "message:created" (marshalRaw event.Message) }]
    else []

/-- The `BroadcastFunc` that `main` hands to `NewSubscriber` (main.go 47-53):
the request `hub.Broadcast` submits for one call. -/
def mainBroadcastFunc (call : BroadcastCall) : Request :=
  .broadcast { Target := call.target, TargetID := call.targetID, Payload := call.payload }

/-- The loop of `Subscriber.Listen` (pubsub.go 41-52) on the messages the
subscription delivers before the context is cancelled or the channel is
closed: every message is handed to `handleMessage`, one after the other. -/
def Subscriber.Listen : List String → List BroadcastCall
  | [] => []
  | payload :: rest => Subscriber.handleMessage payload ++ Subscriber.Listen rest

/-- The JSON value is an object. -/
def JSON.isObject : JSON → Bool
  | .obj _ => true
  | _ => false

/-- The JSON value is a string literal. -/
def JSON.isString : JSON → Bool
  | .str _ => true
  | _ => false

/-- The JSON value is `null`. -/
def JSON.isNull : JSON → Bool
  | .null => true
  | _ => false

/-- The JSON value is `null` or a string literal that denotes the empty
string. -/
def JSON.isEmptyId : JSON → Bool
  | .null => true
  | .str lit => decide (unquote lit = "")
  | _ => false

/-- The JSON text of the object with the members `"data"`, holding the JSON
text `data`, and `"event"`, holding the string `event`, for an event name that
needs no escaping. -/
def envelopeText (event : String) (data : List Char) : Payload :=
  String.mk ("\x7b\"data\":".toList ++ data ++ ",\"event\":\"".toList ++ event.toList ++
    "\"\x7d".toList)

/-- The call for the tenant room that a `ticket.updated` envelope leads to:
target 0, the envelope's tenant id, and the object with the ticket snapshot as
`data` and `"ticket:updated"` as `event`. -/
def tenantUpdatedCall (event : RedisEvent) : BroadcastCall :=
  { target := 0, targetID := event.TenantID,
    payload := envelopeText "ticket:updated" (marshalRaw event.Ticket) }

/-- The call for the ticket room `id` with the same payload. -/
def ticketUpdatedCall (event : RedisEvent) (id : String) : BroadcastCall :=
  { target := 1, targetID := id,
    payload := envelopeText "ticket:updated" (marshalRaw event.Ticket) }

/-- The envelope `{"event":"ticket.updated","tenant_id":"T1","ticket":{"id":5}}`
decoded: its snapshot has a number as id. -/
def numberIdEvent : RedisEvent :=
  { Event := "ticket.updated", TenantID := "T1", Ticket := some (.obj [("id", .num "5")]),
    TicketID := "", Message := none, SourceID := "", TargetID := "" }

/-- The envelope
`{"event":"ticket.updated","tenant_id":"T1","ticket":{"title":"a<b", "id":"K9","n":[1,2.5e3,true,null]}}`
decoded: its snapshot has the string `K9` as id. -/
def stringIdEvent : RedisEvent :=
  { Event := "ticket.updated", TenantID := "T1",
    Ticket := some (.obj [("title", .str "a<b"), ("id", .str "K9"),
      ("n", .arr [.num "1", .num "2.5e3", .bool true, .null])]),
    TicketID := "", Message := none, SourceID := "", TargetID := "" }

/-! ## Invariants of the hub state -/

/-- Every registered connection occurs once in `clients` and its `Send`
channel is open. -/
structure RegistryOpen (h : HubState) : Prop where
  nodup : h.clients.Nodup
  isOpen : ∀ c ∈ h.clients, (h.chan c).closed = false

/-- The registry and the tenant rooms agree: a connection is in the room of its
own tenant exactly when it is registered, and a tenant room holds connections
of that tenant only. -/
structure TenantsAgree (h : HubState) : Prop where
  mem_iff : ∀ c, c ∈ h.tenants.members c.TenantID ↔ c ∈ h.clients
  tenant_of : ∀ t c, c ∈ h.tenants.members t → c.TenantID = t

/-- The hub state agrees with the amended specification of topic membership
after the requests `reqs`; ticket rooms have distinct keys and are not empty. -/
structure TopicsAgree (h : HubState) (reqs : List Request) : Prop where
  reg : ∀ c k, c ∈ h.clients ↔ (specTopicState c k reqs).1 = true
  mem : ∀ c k, c ∈ h.tickets.members k ↔ (specTopicState c k reqs).2 = true
  keys : (h.tickets.map Prod.fst).Nodup
  nonempty : ∀ k room, h.tickets.get k = some room → room ≠ []

/-! ## The request channels of the Hub and the `select` of `Hub.Run` -/

/-- The channels `NewHub()` makes (hub.go 30-35), each with the values waiting
in its buffer, oldest first; `shutdown` is unbuffered and only ever closed. -/
structure Inbox where
  register : List Client
  unregister : List Client
  joinTicket : List (Client × String)
  leaveTicket : List (Client × String)
  broadcast : List BroadcastMessage
  shutdown : Bool
deriving DecidableEq, Repr

/-- The channels as `NewHub()` returns them. -/
def Inbox.new : Inbox :=
  { register := [], unregister := [], joinTicket := [], leaveTicket := [], broadcast := [],
    shutdown := false }

/-- The cases of the `select` of `Hub.Run` (hub.go 41-116), one per channel. -/
inductive SelectCase where
  | register
  | unregister
  | joinTicket
  | leaveTicket
  | broadcast
  | shutdown
deriving DecidableEq, Repr

/-- The channel a request travels through. -/
def Request.kind : Request → SelectCase
  | .register _ => .register
  | .unregister _ => .unregister
  | .joinTicket _ _ => .joinTicket
  | .leaveTicket _ _ => .leaveTicket
  | .broadcast _ => .broadcast
  | .shutdown => .shutdown

/-- Submitting a request: `h.register <- client` (`Hub.Register`),
`h.unregister <- client`, `c.Hub.joinTicket <- ticketAction{...}`,
`c.Hub.leaveTicket <- ...`, `h.broadcast <- msg`, and `close(h.shutdown)`
(`Hub.Shutdown`).  `none` when the send cannot complete yet because the buffer
(256 values, 4096 for `broadcast`) is full, and for a second `Shutdown`. -/
def Inbox.submit (i : Inbox) : Request → Option Inbox
  | .register c =>
    if i.register.length < 256 then some { i with register := i.register ++ [c] } else none
  | .unregister c =>
    if i.unregister.length < 256 then some { i with unregister := i.unregister ++ [c] } else none
  | .joinTicket c k =>
    if i.joinTicket.length < 256 then some { i with joinTicket := i.joinTicket ++ [(c, k)] }
    else none
  | .leaveTicket c k =>
    if i.leaveTicket.length < 256 then some { i with leaveTicket := i.leaveTicket ++ [(c, k)] }
    else none
  | .broadcast msg =>
    if i.broadcast.length < 4096 then some { i with broadcast := i.broadcast ++ [msg] } else none
  | .shutdown => if i.shutdown then none else some { i with shutdown := true }

/-- The `select` of `Hub.Run` taking one case: the request it receives and the
channels afterwards; `none` when that case cannot proceed (its channel is
empty, or `shutdown` is not closed).  Go chooses among the cases that can
proceed; which one is not determined by the program. -/
def Inbox.receive (i : Inbox) : SelectCase → Option (Request × Inbox)
  | .register =>
    match i.register with
    | c :: rest => some (.register c, { i with register := rest })
    | [] => none
  | .unregister =>
    match i.unregister with
    | c :: rest => some (.unregister c, { i with unregister := rest })
    | [] => none
  | .joinTicket =>
    match i.joinTicket with
    | a :: rest => some (.joinTicket a.1 a.2, { i with joinTicket := rest })
    | [] => none
  | .leaveTicket =>
    match i.leaveTicket with
    | a :: rest => some (.leaveTicket a.1 a.2, { i with leaveTicket := rest })
    | [] => none
  | .broadcast =>
    match i.broadcast with
    | msg :: rest => some (.broadcast msg, { i with broadcast := rest })
    | [] => none
  | .shutdown => if i.shutdown then some (.shutdown, i) else none

/-- The requests waiting in the channel of one case, oldest first. -/
def Inbox.pending (i : Inbox) : SelectCase → List Request
  | .register => i.register.map Request.register
  | .unregister => i.unregister.map Request.unregister
  | .joinTicket => i.joinTicket.map (fun a => Request.joinTicket a.1 a.2)
  | .leaveTicket => i.leaveTicket.map (fun a => Request.leaveTicket a.1 a.2)
  | .broadcast => i.broadcast.map Request.broadcast
  | .shutdown => []

/-- A step of the traffic through the channels: a goroutine submits a request,
or the `select` of `Hub.Run` takes a case. -/
inductive InboxStep where
  | submit (r : Request)
  | select (c : SelectCase)
deriving DecidableEq, Repr

/-- The channels together with the requests submitted so far and the requests
`Hub.Run` has received so far, both oldest first. -/
structure Traffic where
  inbox : Inbox
  submitted : List Request
  processed : List Request
deriving DecidableEq, Repr

/-- No request has been submitted yet. -/
def Traffic.start : Traffic :=
  { inbox := Inbox.new, submitted := [], processed := [] }

/-- One step of the traffic; `none` when the step cannot be taken.  (After the
`shutdown` case `Hub.Run` returns and takes no further case; a trace that goes
on describes more than the loop does.) -/
def Traffic.step (t : Traffic) : InboxStep → Option Traffic
  | .submit r =>
    match t.inbox.submit r with
    | none => none
    | some i => some { t with inbox := i, submitted := t.submitted ++ [r] }
  | .select c =>
    match t.inbox.receive c with
    | none => none
    | some (r, i) => some { t with inbox := i, processed := t.processed ++ [r] }

/-- A sequence of steps of the traffic. -/
def Traffic.run : Traffic → List InboxStep → Option Traffic
  | t, [] => some t
  | t, s :: rest =>
    match Traffic.step t s with
    | none => none
    | some t' => Traffic.run t' rest

/-- The requests of one kind among `reqs`, in order. -/
def ofKind (k : SelectCase) (reqs : List Request) : List Request :=
  reqs.filter (fun r => decide (r.kind = k))

/-! ## Runs in which the callers keep to the registry -/

/-- No iteration of the broadcast loop over the members `cs` takes the
`default` branch: every member has room in its queue when its turn comes, so
no member is evicted. -/
def Hub.noEviction (msg : BroadcastMessage) : HubState → List Client → Bool
  | _, [] => true
  | h, c :: cs =>
    decide ((h.chan c).buf.length < sendBufSize) &&
      (match Hub.deliver msg h c with
       | none => true
       | some h' => Hub.noEviction msg h' cs)

/-- A sequence of steps as `System.admissible` allows, in which moreover every
`JoinTopic` is processed while its connection is in the registry (the Hub does
not check this) and no broadcast evicts a member. -/
def System.orderly : System → List Event → Bool
  | _, [] => true
  | s, e :: rest =>
    (match e with
     | .hub .shutdown => false
     | .hub (.register c) => !(s.hub.chan c).closed
     | .hub (.joinTicket c _) => decide (c ∈ s.hub.clients)
     | .hub (.broadcast msg) => Hub.noEviction msg s.hub (Hub.targets s.hub msg)
     | _ => true) &&
    (match System.step s e with
     | none => false
     | some s' => System.orderly s' rest)

/-- Every member of a ticket room is in the registry. -/
def TopicsRegistered (h : HubState) : Prop :=
  ∀ kv ∈ h.tickets, ∀ c ∈ kv.2, c ∈ h.clients

/-- No ticket room is empty. -/
def TopicsNonempty (h : HubState) : Prop :=
  ∀ kv ∈ h.tickets, kv.2 ≠ []

/-- The state after `agentA` registered. -/
def registeredState : HubState :=
  { clients := [agentA], tenants := [("T1", [agentA])], tickets := [], send := [] }


/-! ## The presence store (`internal/redis/presence.go`)

The keys of the presence store are built and taken apart with the package
`strings` of Go.  A Go string is a string of bytes; the strings of this service
are UTF-8 text (token claims, JSON documents), and in UTF-8 text a separator
begins at a byte exactly where it begins at a character, so a string is the
list of its characters, places in it are counted in characters, and only
`len` counts bytes. -/

/-- `len(s)` of Go: the number of bytes of the string. -/
def strings.len (s : List Char) : Nat := String.utf8Len s

/-- `strings.Index(s, sep)`: the place of the first instance of `sep` in `s`,
`none` where Go returns `-1`. -/
def strings.Index (s sep : List Char) : Option Nat :=
  match s with
  | [] => if sep.isEmpty then some 0 else none
  | ch :: rest =>
    if sep.isPrefixOf (ch :: rest) then some 0
    else (strings.Index rest sep).map (fun m => m + 1)

/-- The loop of `strings.Count` for a separator that is not empty: each
instance found is counted and the search goes on behind it.  The first argument
bounds the number of rounds. -/
def strings.Count.loop (sep : List Char) : Nat → List Char → Nat
  | 0, _ => 0
  | fuel + 1, s =>
    match strings.Index s sep with
    | none => 0
    | some i => strings.Count.loop sep fuel (s.drop (i + sep.length)) + 1

/-- `strings.Count(s, sep)`: the number of non-overlapping instances of `sep`
in `s`, and the number of characters plus one for the empty separator.  Every
round of the loop drops at least one character, so `s.length` rounds are
enough. -/
def strings.Count (s sep : List Char) : Nat :=
  if sep.isEmpty then s.length + 1 else strings.Count.loop sep s.length s

/-- The loop of `strings.explode`: `k` times one character, then the rest. -/
def strings.explode.loop : Nat → List Char → List (List Char)
  | k + 1, ch :: rest => [ch] :: strings.explode.loop k rest
  | _, s => [s]

/-- `strings.explode(s, n)`: `s` cut into its characters, at most `n` parts,
the last part being the rest. -/
def strings.explode (s : List Char) (n : Int) : List (List Char) :=
  let l : Int := s.length
  let n : Int := if n < 0 ∨ n > l then l else n
  if n ≤ 0 then [] else strings.explode.loop (n - 1).toNat s

/-- The loop of `strings.genSplit` with `sepSave = 0`: at most `n` times the
part before the next separator, then the rest (`a[i] = s`). -/
def strings.genSplit.loop (sep : List Char) : Nat → List Char → List (List Char)
  | 0, s => [s]
  | n + 1, s =>
    match strings.Index s sep with
    | none => [s]
    | some m => s.take m :: strings.genSplit.loop sep n (s.drop (m + sep.length))

/-- `strings.genSplit(s, sep, 0, n)`. -/
def strings.genSplit (s sep : List Char) (n : Int) : List (List Char) :=
  if n = 0 then []
  else if sep.isEmpty then strings.explode s n
  else
    let n : Int := if n < 0 then (strings.Count s sep : Int) + 1 else n
    let n : Int := if n > (strings.len s : Int) + 1 then (strings.len s : Int) + 1 else n
    strings.genSplit.loop sep (n - 1).toNat s

/-- `strings.SplitN(s, sep, n)`: `s` cut at the separators into at most `n`
parts, the last part being the unsplit rest (all parts for `n < 0`, none for
`n = 0`). -/
def strings.SplitN (s sep : String) (n : Int) : List String :=
  (strings.genSplit s.toList sep.toList n).map String.mk

/-- `time.Second`, in the nanoseconds of `time.Duration`. -/
def time.Second : Int := 1000000000

/-- A command that `presence.go` sends to the Redis server through `c.RDB`. -/
inductive RedisCommand where
  /-- `c.RDB.Set(ctx, key, value, expiration)` -/
  | set (key : String) (value : Int) (expiration : Int)
  /-- `c.RDB.Del(ctx, key)` -/
  | del (key : String)
  /-- `c.RDB.Scan(ctx, cursor, match, count)` -/
  | scan (cursor : Nat) (pattern : String) (count : Int)
deriving DecidableEq, Repr

/-- The key a `Set` or `Del` command names (the pattern for a `Scan`). -/
def RedisCommand.key : RedisCommand → String
  | .set key _ _ => key
  | .del key => key
  | .scan _ pattern _ => pattern

/-- What `c.RDB.Scan(...).Result()` returns: the keys of a page and the next
cursor, or an error. -/
abbrev ScanResult := Except String (List String × Nat)

/-- The Redis server as `ListPresence` sees it: the reply to a `Scan` with
the given cursor, pattern and count. -/
abbrev ScanServer := Nat → String → Int → ScanResult

/-- `redis.Client.SetPresence` (presence.go 9-12): the command it sends;
`now` is `time.Now().UnixMilli()`. -/
def redis.Client.SetPresence (tenantID userID : String) (now : Int) : RedisCommand :=
  let key := "presence:" ++ tenantID ++ ":" ++ userID
  .set key now (30 * time.Second)

/-- `redis.Client.RemovePresence` (presence.go 14-17): the command it sends. -/
def redis.Client.RemovePresence (tenantID userID : String) : RedisCommand :=
  let key := "presence:" ++ tenantID ++ ":" ++ userID
  .del key

/-- The body of the loop over the keys of a page (presence.go 30-33). -/
def redis.Client.ListPresence.visit (agentIDs : List String) (key : String) : List String :=
  let parts := strings.SplitN key ":" 3
  if parts.length = 3 then agentIDs ++ [parts.getD 2 ""] else agentIDs

/-- The outer loop of `ListPresence` (presence.go 24-39), from the state
`cursor`, `agentIDs`.  The first argument bounds the number of `Scan` calls:
`none` says that the loop has not ended within them. -/
def redis.Client.ListPresence.loop (RDB : ScanServer) (pattern : String) :
    Nat → Nat → List String → Option (Except String (List String))
  | 0, _, _ => none
  | fuel + 1, cursor, agentIDs =>
    match RDB cursor pattern 100 with
    | .error err => some (.error err)
    | .ok (keys, next) =>
      let agentIDs := keys.foldl redis.Client.ListPresence.visit agentIDs
      let cursor := next
      if cursor = 0 then some (.ok agentIDs)
      else redis.Client.ListPresence.loop RDB pattern fuel cursor agentIDs

/-- `redis.Client.ListPresence` (presence.go 19-42) against the server `RDB`,
within `fuel` calls of `Scan`. -/
def redis.Client.ListPresence (RDB : ScanServer) (tenantID : String) (fuel : Nat) :
    Option (Except String (List String)) :=
  let pattern := "presence:" ++ tenantID ++ ":*"
  redis.Client.ListPresence.loop RDB pattern fuel 0 []

/-- A server that holds the given pages of keys: the cursor `i` yields page
`i` and the cursor of the page after it, `0` after the last page. -/
def pagedServer (pages : List (List String)) : ScanServer :=
  fun cursor _ _ =>
    .ok (pages.getD cursor [], if cursor + 1 < pages.length then cursor + 1 else 0)

/-! ## Runs of the system, by what the callers of the Hub do -/

/-- The connection a request names. -/
def Request.client : Request → Option Client
  | .register c => some c
  | .unregister c => some c
  | .joinTicket c _ => some c
  | .leaveTicket c _ => some c
  | _ => none

/-- The loop of the `broadcast` case over the members `cs` takes the `default`
branch for connection `c`: its queue is open and full when its turn comes, and
it is evicted. -/
def Hub.evicts (msg : BroadcastMessage) (c : Client) : HubState → List Client → Bool
  | _, [] => false
  | h, x :: cs =>
    (decide (x = c) && decide ((h.chan x).trySend msg.Payload = some none)) ||
      (match Hub.deliver msg h x with
       | none => false
       | some h' => Hub.evicts msg c h' cs)

/-- Along the steps `evs` from `s`, which can all be taken, every `JoinTopic`
of connection `c` is processed while `c` is in the registry, and no broadcast
evicts `c`. -/
def System.keeps (c : Client) : System → List Event → Bool
  | _, [] => true
  | s, e :: rest =>
    (match e with
     | .hub (.joinTicket c' _) => decide (c' = c → c ∈ s.hub.clients)
     | .hub (.broadcast msg) => !Hub.evicts msg c s.hub (Hub.targets s.hub msg)
     | _ => true) &&
    (match System.step s e with
     | none => false
     | some s' => System.keeps c s' rest)

/-- Connection `c` is in the registry when it is a member of a ticket room. -/
def MemberRegistered (h : HubState) (c : Client) : Prop :=
  ∀ kv ∈ h.tickets, c ∈ kv.2 → c ∈ h.clients

/-- `agentB` registers and is evicted by the 257th tenant frame; then `agentA`
registers and joins ticket room `K9`. -/
def evictionThenJoinRequests : List Request :=
  [.register agentB] ++ List.replicate 257 (.broadcast tenantMsg) ++
    [.register agentA, .joinTicket agentA "K9"]

/-- The state after `evictionThenJoinRequests`. -/
def evictionThenJoinState : HubState :=
  { clients := [agentA]
    tenants := [("T1", [agentA])]
    tickets := [("K9", [agentA])]
    send := [(agentB, { buf := List.replicate 256 tenantMsg.Payload, closed := true })] }

/-! ## JSON texts that the scanner reads back -/

/-- The characters a backslash may be followed by in a string literal, `u`
apart. -/
def isEscape (e : Char) : Bool :=
  e = '"' || e = '\\' || e = '/' || e = 'b' || e = 'f' || e = 'n' || e = 'r' || e = 't'

/-- The characters between the quotes of a JSON string literal: characters
other than the quote, the backslash and the control characters, and escapes. -/
inductive StrLit : List Char → Prop where
  | nil : StrLit []
  | plain (c : Char) (rest : List Char) (hq : c ≠ '"') (hb : c ≠ '\\')
      (hc : ¬ c.toNat < 0x20) (h : StrLit rest) : StrLit (c :: rest)
  | esc (e : Char) (rest : List Char) (he : isEscape e = true) (h : StrLit rest) :
      StrLit ('\\' :: e :: rest)
  | uni (a b c d : Char) (rest : List Char)
      (hx : (isHex a && isHex b && isHex c && isHex d) = true) (h : StrLit rest) :
      StrLit ('\\' :: 'u' :: a :: b :: c :: d :: rest)

/-- What may follow a value inside a JSON text without whitespace: nothing, a
comma or a closing bracket. -/
def isTerm : List Char → Bool
  | [] => true
  | c :: _ => c = ',' || c = ']' || c = '\x7d'

/-- The characters of a JSON number: they begin with `-` or a digit, and the
scanner reads them back as a number whatever ends a value follows. -/
def NumLit (lit : List Char) : Prop :=
  (∃ h t, lit = h :: t ∧ (h = '-' ∨ isDigit h = true)) ∧
    ∀ r, isTerm r = true → scanNumber (lit ++ r) = some (lit, r)

/-- A JSON text as the scanner accepts it: its numbers and its string literals,
object keys included, are written as JSON writes them. -/
inductive JSON.WF : JSON → Prop where
  | null : JSON.WF .null
  | bool (b : Bool) : JSON.WF (.bool b)
  | num (lit : String) (h : NumLit lit.toList) : JSON.WF (.num lit)
  | str (lit : String) (h : StrLit lit.toList) : JSON.WF (.str lit)
  | arr (elems : List JSON) (h : ∀ e ∈ elems, JSON.WF e) : JSON.WF (.arr elems)
  | obj (fields : List (String × JSON)) (hk : ∀ kv ∈ fields, StrLit kv.1.toList)
      (hv : ∀ kv ∈ fields, JSON.WF kv.2) : JSON.WF (.obj fields)

mutual
/-- The text with `<`, `>`, `&`, U+2028 and U+2029 inside its string literals
and keys written as `\u` escapes, which is how `JSON.compact` writes them. -/
def JSON.escaped : JSON → JSON
  | .null => .null
  | .bool b => .bool b
  | .num lit => .num lit
  | .str lit => .str (String.mk (escapeHTML lit))
  | .arr elems => .arr (JSON.escapedElems elems)
  | .obj fields => .obj (JSON.escapedFields fields)
/-- The elements of an array, escaped. -/
def JSON.escapedElems : List JSON → List JSON
  | [] => []
  | v :: rest => JSON.escaped v :: JSON.escapedElems rest
/-- The members of an object, escaped. -/
def JSON.escapedFields : List (String × JSON) → List (String × JSON)
  | [] => []
  | (k, v) :: rest => (String.mk (escapeHTML k), JSON.escaped v) :: JSON.escapedFields rest
end

mutual
/-- A number of nested calls that is enough for `parseValue` to read the value
back from its compact text. -/
def JSON.need : JSON → Nat
  | .arr elems => JSON.needElems elems + 1
  | .obj fields => JSON.needFields fields + 1
  | _ => 1
/-- The same for `parseElems`. -/
def JSON.needElems : List JSON → Nat
  | [] => 0
  | v :: rest => max (JSON.need v) (JSON.needElems rest) + 1
/-- The same for `parseMembers`. -/
def JSON.needFields : List (String × JSON) → Nat
  | [] => 0
  | (_, v) :: rest => max (JSON.need v) (JSON.needFields rest) + 1
end

mutual
/-- How deep arrays and objects are nested in the value. -/
def JSON.nesting : JSON → Nat
  | .arr elems => JSON.nestingElems elems + 1
  | .obj fields => JSON.nestingFields fields + 1
  | _ => 0
/-- The deepest nesting among the elements. -/
def JSON.nestingElems : List JSON → Nat
  | [] => 0
  | v :: rest => max (JSON.nesting v) (JSON.nestingElems rest)
/-- The deepest nesting among the members. -/
def JSON.nestingFields : List (String × JSON) → Nat
  | [] => 0
  | (_, v) :: rest => max (JSON.nesting v) (JSON.nestingFields rest)
end

/-- The character is written by `JSON.compact` as it stands. -/
def keptByCompact (c : Char) : Bool :=
  !(c = '<' || c = '>' || c = '&' || c.toNat = 0x2028 || c.toNat = 0x2029)

mutual
/-- No string literal or key of the text holds `<`, `>`, `&`, U+2028 or
U+2029. -/
def JSON.isPlain : JSON → Bool
  | .str lit => lit.toList.all keptByCompact
  | .arr elems => JSON.isPlainElems elems
  | .obj fields => JSON.isPlainFields fields
  | _ => true
/-- The same for the elements of an array. -/
def JSON.isPlainElems : List JSON → Bool
  | [] => true
  | v :: rest => JSON.isPlain v && JSON.isPlainElems rest
/-- The same for the members of an object. -/
def JSON.isPlainFields : List (String × JSON) → Bool
  | [] => true
  | (k, v) :: rest => k.toList.all keptByCompact && JSON.isPlain v && JSON.isPlainFields rest
end

mutual
/-- The value a JSON text denotes: the text with every string literal and
every key replaced by the Go string it denotes (`unquote`). -/
def JSON.decoded : JSON → JSON
  | .null => .null
  | .bool b => .bool b
  | .num lit => .num lit
  | .str lit => .str (unquote lit)
  | .arr elems => .arr (JSON.decodedElems elems)
  | .obj fields => .obj (JSON.decodedFields fields)
/-- The elements of an array, decoded. -/
def JSON.decodedElems : List JSON → List JSON
  | [] => []
  | v :: rest => JSON.decoded v :: JSON.decodedElems rest
/-- The members of an object, decoded. -/
def JSON.decodedFields : List (String × JSON) → List (String × JSON)
  | [] => []
  | (k, v) :: rest => (unquote k, JSON.decoded v) :: JSON.decodedFields rest
end

/-! ## Sets and room indices -/

theorem ClientSet.mem_add {s : ClientSet} {c x : Client} :
    x ∈ s.add c ↔ x ∈ s ∨ x = c := by
  unfold ClientSet.add
  split
  · constructor
    · exact Or.inl
    · rintro (h | rfl) <;> assumption
  · simp

theorem ClientSet.mem_remove {s : ClientSet} {c x : Client} :
    x ∈ s.remove c ↔ x ∈ s ∧ x ≠ c := by
  simp [ClientSet.remove]

theorem ClientSet.nodup_add {s : ClientSet} (c : Client) (hs : s.Nodup) : (s.add c).Nodup := by
  unfold ClientSet.add
  split
  · exact hs
  · rename_i hc
    exact List.Nodup.append hs (List.nodup_singleton c) (by simpa using hc)

theorem ClientSet.nodup_remove {s : ClientSet} (c : Client) (hs : s.Nodup) : (s.remove c).Nodup :=
  List.Nodup.filter _ hs

theorem ClientSet.remove_isEmpty {s : ClientSet} {c : Client} :
    (s.remove c).isEmpty = true ↔ ∀ x ∈ s, x = c := by
  rw [List.isEmpty_iff, List.eq_nil_iff_forall_not_mem]
  simp only [ClientSet.mem_remove, not_and, not_not]

theorem RoomIndex.get_put_self (m : RoomIndex) (k : String) (v : ClientSet) :
    (m.put k v).get k = some v := by
  induction m with
  | nil => simp [RoomIndex.put, RoomIndex.get, List.lookup]
  | cons kv rest ih =>
    obtain ⟨k', v'⟩ := kv
    by_cases hk : k' = k
    · simp [RoomIndex.put, RoomIndex.get, hk, List.lookup]
    · have hk' : (k == k') = false := by simpa using fun h => hk h.symm
      simpa [RoomIndex.put, RoomIndex.get, hk, List.lookup, hk'] using ih

theorem RoomIndex.get_put_ne (m : RoomIndex) {k k' : String} (v : ClientSet) (h : k' ≠ k) :
    (m.put k v).get k' = m.get k' := by
  induction m with
  | nil =>
    have : (k' == k) = false := by simpa using h
    simp [RoomIndex.put, RoomIndex.get, List.lookup, this]
  | cons kv rest ih =>
    obtain ⟨k₁, v₁⟩ := kv
    by_cases hk : k₁ = k
    · subst hk
      have : (k' == k₁) = false := by simpa using h
      simp [RoomIndex.put, RoomIndex.get, List.lookup, this]
    · by_cases hk2 : k' = k₁
      · subst hk2
        simp [RoomIndex.put, RoomIndex.get, hk, List.lookup]
      · have : (k' == k₁) = false := by simpa using hk2
        simpa [RoomIndex.put, RoomIndex.get, hk, List.lookup, this] using ih

theorem RoomIndex.get_delete_self (m : RoomIndex) (k : String) :
    (m.delete k).get k = none := by
  induction m with
  | nil => simp [RoomIndex.delete, RoomIndex.get]
  | cons kv rest ih =>
    obtain ⟨k₁, v₁⟩ := kv
    by_cases hk : k₁ = k
    · simpa [RoomIndex.delete, RoomIndex.get, List.filter, hk] using ih
    · have : (k == k₁) = false := by simpa using fun h => hk h.symm
      simpa [RoomIndex.delete, RoomIndex.get, List.filter, hk, List.lookup, this] using ih

theorem RoomIndex.get_delete_ne (m : RoomIndex) {k k' : String} (h : k' ≠ k) :
    (m.delete k).get k' = m.get k' := by
  induction m with
  | nil => simp [RoomIndex.delete, RoomIndex.get]
  | cons kv rest ih =>
    obtain ⟨k₁, v₁⟩ := kv
    by_cases hk : k₁ = k
    · subst hk
      have : (k' == k₁) = false := by simpa using h
      simpa [RoomIndex.delete, RoomIndex.get, List.filter, List.lookup, this] using ih
    · by_cases hk2 : k' = k₁
      · subst hk2
        simp [RoomIndex.delete, RoomIndex.get, List.filter, hk, List.lookup]
      · have : (k' == k₁) = false := by simpa using hk2
        simpa [RoomIndex.delete, RoomIndex.get, List.filter, hk, List.lookup, this] using ih

theorem lookup_setFor {β : Type} (l : List (Client × β)) (c c' : Client) (ch : β) :
    (setFor l c ch).lookup c' = if c' = c then some ch else l.lookup c' := by
  induction l with
  | nil =>
    by_cases h : c' = c
    · simp [setFor, List.lookup, h]
    · have : (c' == c) = false := by simpa using h
      simp [setFor, List.lookup, h, this]
  | cons kv rest ih =>
    obtain ⟨c₁, ch₁⟩ := kv
    by_cases h1 : c₁ = c
    · subst h1
      by_cases h : c' = c₁
      · simp [setFor, List.lookup, h]
      · have : (c' == c₁) = false := by simpa using h
        simp [setFor, List.lookup, h, this]
    · by_cases h : c' = c
      · subst h
        have : (c' == c₁) = false := by simpa using fun e => h1 e.symm
        simpa [setFor, List.lookup, h1, this] using ih
      · by_cases h2 : c' = c₁
        · subst h2
          simp [setFor, List.lookup, h1, h]
        · have : (c' == c₁) = false := by simpa using h2
          simpa [setFor, List.lookup, h1, h, this] using ih

/-! ## Channels -/

theorem chan_setFor (h : HubState) (c c' : Client) (ch : Chan) :
    ({ h with send := setFor h.send c ch } : HubState).chan c' =
      if c' = c then ch else h.chan c' := by
  unfold HubState.chan
  simp only [lookup_setFor]
  split <;> rfl

theorem chan_of_send_eq {h h' : HubState} {c : Client} {ch : Chan}
    (hs : h'.send = setFor h.send c ch) (c' : Client) :
    h'.chan c' = if c' = c then ch else h.chan c' := by
  unfold HubState.chan
  rw [hs, lookup_setFor]
  split <;> rfl

theorem closeChan_eq_some {h h' : HubState} {c : Client} (hc : closeChan h c = some h') :
    (h.chan c).closed = false ∧
      h' = { h with send := setFor h.send c { buf := (h.chan c).buf, closed := true } } := by
  unfold closeChan at hc
  split at hc
  · cases hc
  · rename_i hcl
    exact ⟨by simpa using hcl, (Option.some.inj hc).symm⟩

theorem closeChan_of_open {h : HubState} {c : Client} (hc : (h.chan c).closed = false) :
    closeChan h c =
      some { h with send := setFor h.send c { buf := (h.chan c).buf, closed := true } } := by
  simp [closeChan, hc]

/-! ## The registry holds each connection once, with an open channel -/

theorem registryOpen_newHub : RegistryOpen NewHub :=
  ⟨List.nodup_nil, fun _ hc => by simp [NewHub] at hc⟩

theorem registryOpen_register {h : HubState} (hi : RegistryOpen h) {c : Client}
    (hc : (h.chan c).closed = false) : RegistryOpen (Hub.register h c) := by
  refine ⟨ClientSet.nodup_add c hi.nodup, ?_⟩
  intro x hx
  have hx' : x ∈ h.clients ∨ x = c := ClientSet.mem_add.mp hx
  have hch : (Hub.register h c).chan x = h.chan x := rfl
  rw [hch]
  rcases hx' with hx' | rfl
  · exact hi.isOpen x hx'
  · exact hc

theorem registryOpen_unregister {h h' : HubState} (hi : RegistryOpen h) {c : Client}
    (hs : Hub.unregister h c = some h') : RegistryOpen h' := by
  unfold Hub.unregister at hs
  split at hs
  · cases hs; exact hi
  · obtain ⟨_, rfl⟩ := closeChan_eq_some hs
    refine ⟨ClientSet.nodup_remove c hi.nodup, ?_⟩
    intro x hx
    have hx' : x ∈ h.clients ∧ x ≠ c := ClientSet.mem_remove.mp hx
    rw [chan_setFor, if_neg hx'.2]
    exact hi.isOpen x hx'.1

theorem Hub.deliver_eq_some {msg : BroadcastMessage} {h h' : HubState} {c : Client}
    (hs : Hub.deliver msg h c = some h') :
    (h.chan c).closed = false ∧
    (((h.chan c).buf.length < sendBufSize ∧
        h' = { h with
               send := setFor h.send c ⟨(h.chan c).buf ++ [msg.Payload], false⟩ }) ∨
     (¬ (h.chan c).buf.length < sendBufSize ∧
        h' = { clients := h.clients.remove c
               tenants :=
                 match h.tenants.get c.TenantID with
                 | none => h.tenants
                 | some room => h.tenants.put c.TenantID (room.remove c)
               tickets := h.tickets
               send := setFor h.send c { buf := (h.chan c).buf, closed := true } })) := by
  unfold Hub.deliver Chan.trySend at hs
  by_cases hcl : (h.chan c).closed = true
  · simp [hcl] at hs
  · have hcl' : (h.chan c).closed = false := by simpa using hcl
    refine ⟨hcl', ?_⟩
    by_cases hsp : (h.chan c).buf.length < sendBufSize
    · left
      simp only [hcl', hsp, if_true, Bool.false_eq_true, if_false] at hs
      exact ⟨hsp, (Option.some.inj hs).symm⟩
    · right
      simp only [hcl', hsp, Bool.false_eq_true, if_false] at hs
      obtain ⟨_, rfl⟩ := closeChan_eq_some hs
      exact ⟨hsp, rfl⟩

theorem registryOpen_deliver {h h' : HubState} (hi : RegistryOpen h) {msg : BroadcastMessage}
    {c : Client} (hs : Hub.deliver msg h c = some h') : RegistryOpen h' := by
  obtain ⟨_, ⟨_, rfl⟩ | ⟨_, rfl⟩⟩ := Hub.deliver_eq_some hs
  · refine ⟨hi.nodup, ?_⟩
    intro x hx
    rw [chan_of_send_eq (h := h) rfl x]
    split
    · rfl
    · exact hi.isOpen x hx
  · refine ⟨ClientSet.nodup_remove c hi.nodup, ?_⟩
    intro x hx
    have hx' : x ∈ h.clients ∧ x ≠ c := ClientSet.mem_remove.mp hx
    rw [chan_of_send_eq (h := h) rfl x, if_neg hx'.2]
    exact hi.isOpen x hx'.1

theorem registryOpen_deliverAll {msg : BroadcastMessage} (cs : List Client) :
    ∀ {h h' : HubState}, RegistryOpen h → Hub.deliverAll msg h cs = some h' → RegistryOpen h' := by
  induction cs with
  | nil =>
    intro h h' hi hs
    cases hs
    exact hi
  | cons c cs ih =>
    intro h h' hi hs
    unfold Hub.deliverAll at hs
    split at hs
    · cases hs
    · rename_i h₁ hd
      exact ih (registryOpen_deliver hi hd) hs

theorem registryOpen_step {h h' : HubState} (hi : RegistryOpen h) {r : Request}
    (hne : r ≠ .shutdown) (hreg : ∀ c, r = .register c → (h.chan c).closed = false)
    (hs : Hub.step h r = some h') : RegistryOpen h' := by
  cases r with
  | register c =>
    cases hs
    exact registryOpen_register hi (hreg c rfl)
  | unregister c => exact registryOpen_unregister hi hs
  | joinTicket c tid =>
    cases hs
    exact ⟨hi.nodup, hi.isOpen⟩
  | leaveTicket c tid =>
    cases hs
    exact ⟨hi.nodup, hi.isOpen⟩
  | broadcast msg => exact registryOpen_deliverAll _ hi hs
  | shutdown => exact absurd rfl hne

/-- Unfolding of `Hub.Run` on a request that is not `shutdown`. -/
theorem Hub.Run_cons {h : HubState} {r : Request} (rest : List Request) (hne : r ≠ .shutdown) :
    Hub.Run h (r :: rest) =
      match Hub.step h r with
      | none => .panicked
      | some h' => Hub.Run h' rest := by
  simp only [Hub.Run]
  split
  · rfl
  · simp [hne]

/-! ## The `shutdown` case -/

theorem RoomIndex.members_put_self (m : RoomIndex) (k : String) (v : ClientSet) :
    (m.put k v).members k = v := by
  simp [RoomIndex.members, RoomIndex.get_put_self]

theorem RoomIndex.members_put_ne (m : RoomIndex) {k k' : String} (v : ClientSet) (h : k' ≠ k) :
    (m.put k v).members k' = m.members k' := by
  simp [RoomIndex.members, RoomIndex.get_put_ne m v h]

theorem RoomIndex.get_leave_ne (m : RoomIndex) {k t : String} (c : Client) (h : t ≠ k) :
    (m.leave k c).get t = m.get t := by
  unfold RoomIndex.leave
  split
  · rfl
  · simp only
    split
    · exact RoomIndex.get_delete_ne m h
    · exact RoomIndex.get_put_ne m _ h

theorem RoomIndex.get_leave_self (m : RoomIndex) (k : String) (c : Client) :
    (m.leave k c).get k =
      match m.get k with
      | none => none
      | some room => if (room.remove c).isEmpty then none else some (room.remove c) := by
  unfold RoomIndex.leave
  cases hg : m.get k with
  | none => simp [hg]
  | some room =>
    simp only
    split
    · exact RoomIndex.get_delete_self m k
    · exact RoomIndex.get_put_self m k _

theorem RoomIndex.mem_members_leave (m : RoomIndex) (k t : String) (c x : Client) :
    x ∈ (m.leave k c).members t ↔ x ∈ m.members t ∧ ¬ (t = k ∧ x = c) := by
  by_cases htk : t = k
  · subst htk
    unfold RoomIndex.members
    rw [RoomIndex.get_leave_self]
    cases hg : m.get t with
    | none => simp
    | some room =>
      simp only [Option.getD_some, true_and]
      split
      · rename_i he
        have hall := ClientSet.remove_isEmpty.mp he
        simp only [Option.getD_none, List.not_mem_nil, false_iff, not_and, not_not]
        exact hall x
      · simp only [Option.getD_some]
        exact ClientSet.mem_remove
  · unfold RoomIndex.members
    rw [RoomIndex.get_leave_ne m c htk]
    simp [htk]

theorem RoomIndex.get_eq_none_of_not_mem_keys (m : RoomIndex) (k : String)
    (h : k ∉ m.map Prod.fst) : m.get k = none := by
  induction m with
  | nil => rfl
  | cons kv rest ih =>
    obtain ⟨k₁, v₁⟩ := kv
    simp only [List.map_cons, List.mem_cons, not_or] at h
    have : (k == k₁) = false := by simpa using h.1
    simpa [RoomIndex.get, List.lookup, this] using ih h.2

theorem RoomIndex.keys_put (m : RoomIndex) (k : String) (v : ClientSet) :
    (m.put k v).map Prod.fst =
      if k ∈ m.map Prod.fst then m.map Prod.fst else m.map Prod.fst ++ [k] := by
  induction m with
  | nil => simp [RoomIndex.put]
  | cons kv rest ih =>
    obtain ⟨k₁, v₁⟩ := kv
    by_cases hk : k₁ = k
    · subst hk
      simp [RoomIndex.put]
    · have hk' : ¬ k = k₁ := fun e => hk e.symm
      simp only [RoomIndex.put, hk, if_false, List.map_cons, ih, List.mem_cons, hk', false_or]
      split <;> simp

theorem RoomIndex.nodup_keys_put {m : RoomIndex} (k : String) (v : ClientSet)
    (h : (m.map Prod.fst).Nodup) : ((m.put k v).map Prod.fst).Nodup := by
  rw [RoomIndex.keys_put]
  split
  · exact h
  · rename_i hk
    exact List.Nodup.append h (List.nodup_singleton k) (by simpa using hk)

theorem RoomIndex.nodup_keys_delete {m : RoomIndex} (k : String)
    (h : (m.map Prod.fst).Nodup) : ((m.delete k).map Prod.fst).Nodup :=
  List.Nodup.sublist (List.Sublist.map _ (List.filter_sublist _)) h

theorem RoomIndex.nodup_keys_leave {m : RoomIndex} (k : String) (c : Client)
    (h : (m.map Prod.fst).Nodup) : ((m.leave k c).map Prod.fst).Nodup := by
  unfold RoomIndex.leave
  split
  · exact h
  · simp only
    split
    · exact RoomIndex.nodup_keys_delete k h
    · exact RoomIndex.nodup_keys_put k _ h

theorem sweepTickets_cons_of_empty {k : String} {v : ClientSet} {c : Client}
    (rest : RoomIndex) (he : (v.remove c).isEmpty = true) :
    sweepTickets ((k, v) :: rest) c = sweepTickets rest c := by
  have he' : v.remove c = [] := List.isEmpty_iff.mp he
  simp [sweepTickets, List.filterMap_cons, he']

theorem sweepTickets_cons_of_nonempty {k : String} {v : ClientSet} {c : Client}
    (rest : RoomIndex) (he : ¬ (v.remove c).isEmpty = true) :
    sweepTickets ((k, v) :: rest) c = (k, v.remove c) :: sweepTickets rest c := by
  have he' : ¬ v.remove c = [] := fun e => he (List.isEmpty_iff.mpr e)
  simp [sweepTickets, List.filterMap_cons, he']

theorem keys_sweepTickets_sublist (m : RoomIndex) (c : Client) :
    ((sweepTickets m c).map Prod.fst).Sublist (m.map Prod.fst) := by
  induction m with
  | nil => simp [sweepTickets]
  | cons kv rest ih =>
    obtain ⟨k₁, v₁⟩ := kv
    by_cases he : (ClientSet.remove v₁ c).isEmpty = true
    · rw [sweepTickets_cons_of_empty rest he]
      exact List.Sublist.cons _ ih
    · rw [sweepTickets_cons_of_nonempty rest he]
      exact List.Sublist.cons₂ _ ih

theorem nodup_keys_sweepTickets {m : RoomIndex} (c : Client)
    (h : (m.map Prod.fst).Nodup) : ((sweepTickets m c).map Prod.fst).Nodup :=
  List.Nodup.sublist (keys_sweepTickets_sublist m c) h

theorem get_sweepTickets (m : RoomIndex) (c : Client) (k : String)
    (h : (m.map Prod.fst).Nodup) :
    (sweepTickets m c).get k =
      match m.get k with
      | none => none
      | some room => if (room.remove c).isEmpty then none else some (room.remove c) := by
  induction m with
  | nil => rfl
  | cons kv rest ih =>
    obtain ⟨k₁, v₁⟩ := kv
    have h' : (k₁ :: rest.map Prod.fst).Nodup := h
    have hnd := List.nodup_cons.mp h'
    have ih' := ih hnd.2
    by_cases hk : k = k₁
    · subst hk
      have hrest : RoomIndex.get rest k = none :=
        RoomIndex.get_eq_none_of_not_mem_keys rest k hnd.1
      have hsw : (sweepTickets rest c).get k = none := by
        rw [ih', hrest]
      have hget : RoomIndex.get ((k, v₁) :: rest) k = some v₁ := by
        simp [RoomIndex.get, List.lookup]
      rw [hget]
      simp only
      by_cases he : (ClientSet.remove v₁ c).isEmpty = true
      · rw [sweepTickets_cons_of_empty rest he, hsw, if_pos he]
      · rw [sweepTickets_cons_of_nonempty rest he, if_neg he]
        simp [RoomIndex.get, List.lookup]
    · have hb : (k == k₁) = false := by simpa using hk
      have hget : RoomIndex.get ((k₁, v₁) :: rest) k = RoomIndex.get rest k := by
        simp [RoomIndex.get, List.lookup, hb]
      rw [hget, ← ih']
      by_cases he : (ClientSet.remove v₁ c).isEmpty = true
      · rw [sweepTickets_cons_of_empty rest he]
      · rw [sweepTickets_cons_of_nonempty rest he]
        simp [RoomIndex.get, List.lookup, hb]

theorem mem_members_sweepTickets (m : RoomIndex) (c x : Client) (k : String)
    (h : (m.map Prod.fst).Nodup) :
    x ∈ (sweepTickets m c).members k ↔ x ∈ m.members k ∧ x ≠ c := by
  unfold RoomIndex.members
  rw [get_sweepTickets m c k h]
  cases hg : m.get k with
  | none => simp
  | some room =>
    simp only [Option.getD_some]
    split
    · rename_i he
      have hall := ClientSet.remove_isEmpty.mp he
      simp only [Option.getD_none, List.not_mem_nil, false_iff, not_and, not_not]
      exact hall x
    · simp only [Option.getD_some]
      exact ClientSet.mem_remove

/-! ## Running the loop -/

theorem Hub.Run_append (a b : List Request) :
    ∀ h : HubState, Hub.Run h (a ++ b) =
      match Hub.Run h a with
      | .waiting h₁ => Hub.Run h₁ b
      | other => other := by
  induction a with
  | nil => intro h; simp [Hub.Run]
  | cons r rest ih =>
    intro h
    simp only [List.cons_append, Hub.Run]
    cases hstep : Hub.step h r with
    | none => simp
    | some h₁ =>
      simp only
      split
      · rfl
      · exact ih h₁

theorem Hub.Run_snoc_waiting {h h' : HubState} {a : List Request} {r : Request}
    (hr : Hub.Run h (a ++ [r]) = .waiting h') :
    ∃ h₁, Hub.Run h a = .waiting h₁ ∧ r ≠ .shutdown ∧ Hub.step h₁ r = some h' := by
  rw [Hub.Run_append] at hr
  cases ha : Hub.Run h a with
  | waiting h₁ =>
    refine ⟨h₁, rfl, ?_⟩
    simp only [ha, Hub.Run] at hr
    cases hstep : Hub.step h₁ r with
    | none => simp [hstep] at hr
    | some h₂ =>
      simp only [hstep] at hr
      split at hr
      · cases hr
      · rename_i hne
        cases hr
        exact ⟨hne, rfl⟩
  | returned h₁ => simp [ha] at hr
  | panicked => simp [ha] at hr

/-! ## Registry and tenant rooms -/

theorem tenantsAgree_newHub : TenantsAgree NewHub :=
  ⟨fun _ => by simp [NewHub, RoomIndex.members, RoomIndex.get],
   fun _ _ hc => by simp [NewHub, RoomIndex.members, RoomIndex.get] at hc⟩

theorem mem_members_register (h : HubState) (c x : Client) (t : String) :
    x ∈ (Hub.register h c).tenants.members t ↔
      x ∈ h.tenants.members t ∨ (t = c.TenantID ∧ x = c) := by
  unfold Hub.register
  simp only
  by_cases ht : t = c.TenantID
  · subst ht
    rw [RoomIndex.members_put_self, ClientSet.mem_add]
    simp [RoomIndex.members]
  · rw [RoomIndex.members_put_ne _ _ ht]
    simp [ht]

theorem tenantsAgree_register {h : HubState} (hi : TenantsAgree h) (c : Client) :
    TenantsAgree (Hub.register h c) := by
  constructor
  · intro x
    rw [mem_members_register]
    have hcl : (Hub.register h c).clients = h.clients.add c := rfl
    rw [hcl, ClientSet.mem_add, hi.mem_iff x]
    constructor
    · rintro (hx | ⟨_, hx⟩)
      · exact Or.inl hx
      · exact Or.inr hx
    · rintro (hx | hx)
      · exact Or.inl hx
      · exact Or.inr ⟨by rw [hx], hx⟩
  · intro t x hx
    rw [mem_members_register] at hx
    rcases hx with hx | ⟨ht, hx⟩
    · exact hi.tenant_of t x hx
    · rw [hx, ht]

theorem Hub.unregister_eq_some {h h' : HubState} {c : Client}
    (hs : Hub.unregister h c = some h') :
    (c ∉ h.clients ∧ h' = h) ∨
    (c ∈ h.clients ∧ (h.chan c).closed = false ∧
      h' = { clients := h.clients.remove c
             tenants := h.tenants.leave c.TenantID c
             tickets := sweepTickets h.tickets c
             send := setFor h.send c { buf := (h.chan c).buf, closed := true } }) := by
  unfold Hub.unregister at hs
  split at hs
  · rename_i hc
    exact Or.inl ⟨hc, (Option.some.inj hs).symm⟩
  · rename_i hc
    obtain ⟨ho, rfl⟩ := closeChan_eq_some hs
    exact Or.inr ⟨not_not.mp hc, ho, rfl⟩

theorem tenantsAgree_unregister {h h' : HubState} (hi : TenantsAgree h) {c : Client}
    (hs : Hub.unregister h c = some h') : TenantsAgree h' := by
  rcases Hub.unregister_eq_some hs with ⟨_, rfl⟩ | ⟨_, _, rfl⟩
  · exact hi
  · constructor
    · intro x
      simp only [RoomIndex.mem_members_leave, ClientSet.mem_remove, hi.mem_iff x]
      constructor
      · rintro ⟨hx, hne⟩
        refine ⟨hx, fun e => hne ⟨by rw [e], e⟩⟩
      · rintro ⟨hx, hne⟩
        exact ⟨hx, fun e => hne e.2⟩
    · intro t x hx
      simp only [RoomIndex.mem_members_leave] at hx
      exact hi.tenant_of t x hx.1

theorem Hub.not_mem_clients_of_unregister {h h' : HubState} {c : Client}
    (hs : Hub.unregister h c = some h') : c ∉ h'.clients := by
  rcases Hub.unregister_eq_some hs with ⟨hc, rfl⟩ | ⟨_, _, rfl⟩
  · exact hc
  · simp [ClientSet.mem_remove]

/-- Requests of the kinds `Register` and `Unregister` only. -/
theorem registerOnly_run (reqs : List Request)
    (hk : ∀ r ∈ reqs, r.isRegistration = true) :
    ∀ {h h' : HubState}, TenantsAgree h → h.tickets = [] → Hub.Run h reqs = .waiting h' →
      TenantsAgree h' ∧ h'.tickets = [] := by
  induction reqs with
  | nil =>
    intro h h' hi ht hr
    simp only [Hub.Run] at hr
    cases hr
    exact ⟨hi, ht⟩
  | cons r rest ih =>
    intro h h' hi ht hr
    have hrest : ∀ r ∈ rest, r.isRegistration = true :=
      fun r hr => hk r (List.mem_cons_of_mem _ hr)
    have hr0 := hk r (List.mem_cons_self _ _)
    cases r with
    | joinTicket c k => simp [Request.isRegistration] at hr0
    | leaveTicket c k => simp [Request.isRegistration] at hr0
    | broadcast m => simp [Request.isRegistration] at hr0
    | shutdown => simp [Request.isRegistration] at hr0
    | register c =>
      rw [Hub.Run_cons rest (by simp)] at hr
      exact ih hrest (tenantsAgree_register hi c) ht hr
    | unregister c =>
      rw [Hub.Run_cons rest (by simp)] at hr
      cases hstep : Hub.step h (.unregister c) with
      | none => simp [hstep] at hr
      | some h₁ =>
        simp only [hstep] at hr
        have hu : Hub.unregister h c = some h₁ := hstep
        refine ih hrest (tenantsAgree_unregister hi hu) ?_ hr
        rcases Hub.unregister_eq_some hu with ⟨_, rfl⟩ | ⟨_, _, rfl⟩
        · exact ht
        · simp [ht, sweepTickets]

/-! ## Topic rooms -/

theorem specTopicState_snoc (c : Client) (k : String) (pre : List Request) (r : Request) :
    specTopicState c k (pre ++ [r]) = specTopicStep c k (specTopicState c k pre) r := by
  simp [specTopicState, List.foldl_append]

theorem topicsAgree_newHub : TopicsAgree NewHub [] := by
  refine ⟨?_, ?_, ?_, ?_⟩
  · intro c k; simp [NewHub, specTopicState]
  · intro c k; simp [NewHub, specTopicState, RoomIndex.members, RoomIndex.get]
  · simp [NewHub]
  · intro k room hg; simp [NewHub, RoomIndex.get] at hg

theorem topicsAgree_register {h : HubState} {pre : List Request} (hi : TopicsAgree h pre)
    (c₀ : Client) : TopicsAgree (Hub.register h c₀) (pre ++ [.register c₀]) := by
  have hcl : (Hub.register h c₀).clients = h.clients.add c₀ := rfl
  have htk : (Hub.register h c₀).tickets = h.tickets := rfl
  refine ⟨?_, ?_, ?_, ?_⟩
  · intro c k
    rw [specTopicState_snoc, hcl, ClientSet.mem_add, hi.reg c k]
    unfold specTopicStep
    by_cases hc : c₀ = c
    · simp [hc]
    · have hc' : ¬ c = c₀ := fun e => hc e.symm
      simp [hc, hc']
  · intro c k
    rw [specTopicState_snoc, htk, hi.mem c k]
    unfold specTopicStep
    by_cases hc : c₀ = c <;> simp [hc]
  · rw [htk]; exact hi.keys
  · rw [htk]; exact hi.nonempty

theorem topicsAgree_unregister {h h' : HubState} {pre : List Request} (hi : TopicsAgree h pre)
    {c₀ : Client} (hs : Hub.unregister h c₀ = some h') :
    TopicsAgree h' (pre ++ [.unregister c₀]) := by
  rcases Hub.unregister_eq_some hs with ⟨hc₀, rfl⟩ | ⟨hc₀, _, rfl⟩
  · have hst : ∀ c k, specTopicState c k (pre ++ [.unregister c₀]) = specTopicState c k pre := by
      intro c k
      rw [specTopicState_snoc]
      unfold specTopicStep
      by_cases hc : c₀ = c
      · subst hc
        have : ¬ (specTopicState c₀ k pre).1 = true := fun e => hc₀ ((hi.reg c₀ k).mpr e)
        simp [this]
      · simp [hc]
    refine ⟨?_, ?_, hi.keys, hi.nonempty⟩
    · intro c k; rw [hst]; exact hi.reg c k
    · intro c k; rw [hst]; exact hi.mem c k
  · have hst : ∀ c k, specTopicState c k (pre ++ [.unregister c₀]) =
        if c₀ = c then (false, false) else specTopicState c k pre := by
      intro c k
      rw [specTopicState_snoc]
      unfold specTopicStep
      by_cases hc : c₀ = c
      · subst hc
        have : (specTopicState c₀ k pre).1 = true := (hi.reg c₀ k).mp hc₀
        simp [this]
      · simp [hc]
    refine ⟨?_, ?_, ?_, ?_⟩
    · intro c k
      rw [hst]
      simp only [ClientSet.mem_remove, hi.reg c k]
      by_cases hc : c₀ = c
      · simp [hc]
      · have hc' : c ≠ c₀ := fun e => hc e.symm
        simp [hc, hc']
    · intro c k
      rw [hst]
      simp only
      rw [mem_members_sweepTickets _ _ _ _ hi.keys, hi.mem c k]
      by_cases hc : c₀ = c
      · simp [hc]
      · have hc' : c ≠ c₀ := fun e => hc e.symm
        simp [hc, hc']
    · exact nodup_keys_sweepTickets c₀ hi.keys
    · intro k room hg
      simp only at hg
      rw [get_sweepTickets _ _ _ hi.keys] at hg
      split at hg
      · cases hg
      · split at hg
        · cases hg
        · rename_i hne
          cases hg
          exact fun e => hne (List.isEmpty_iff.mpr e)

theorem topicsAgree_joinTicket {h : HubState} {pre : List Request} (hi : TopicsAgree h pre)
    (c₀ : Client) (k₀ : String) :
    TopicsAgree (Hub.joinTicket h c₀ k₀) (pre ++ [.joinTicket c₀ k₀]) := by
  have hcl : (Hub.joinTicket h c₀ k₀).clients = h.clients := rfl
  have htk : (Hub.joinTicket h c₀ k₀).tickets =
      h.tickets.put k₀ ((h.tickets.members k₀).add c₀) := rfl
  refine ⟨?_, ?_, ?_, ?_⟩
  · intro c k
    rw [specTopicState_snoc, hcl, hi.reg c k]
    unfold specTopicStep
    by_cases hc : c₀ = c ∧ k₀ = k <;> simp [hc]
  · intro c k
    rw [specTopicState_snoc, htk]
    unfold specTopicStep
    by_cases hk : k = k₀
    · subst hk
      rw [RoomIndex.members_put_self, ClientSet.mem_add, hi.mem c k]
      by_cases hc : c₀ = c
      · simp [hc]
      · have hc' : ¬ c = c₀ := fun e => hc e.symm
        simp [hc, hc']
    · rw [RoomIndex.members_put_ne _ _ hk, hi.mem c k]
      have hk' : ¬ k₀ = k := fun e => hk e.symm
      simp [hk']
  · rw [htk]; exact RoomIndex.nodup_keys_put _ _ hi.keys
  · intro k room hg
    rw [htk] at hg
    by_cases hk : k = k₀
    · subst hk
      rw [RoomIndex.get_put_self] at hg
      cases hg
      intro e
      have : c₀ ∈ (h.tickets.members k).add c₀ := ClientSet.mem_add.mpr (Or.inr rfl)
      rw [e] at this
      cases this
    · rw [RoomIndex.get_put_ne _ _ hk] at hg
      exact hi.nonempty k room hg

theorem topicsAgree_leaveTicket {h : HubState} {pre : List Request} (hi : TopicsAgree h pre)
    (c₀ : Client) (k₀ : String) :
    TopicsAgree (Hub.leaveTicket h c₀ k₀) (pre ++ [.leaveTicket c₀ k₀]) := by
  have hcl : (Hub.leaveTicket h c₀ k₀).clients = h.clients := rfl
  have htk : (Hub.leaveTicket h c₀ k₀).tickets = h.tickets.leave k₀ c₀ := rfl
  refine ⟨?_, ?_, ?_, ?_⟩
  · intro c k
    rw [specTopicState_snoc, hcl, hi.reg c k]
    unfold specTopicStep
    by_cases hc : c₀ = c ∧ k₀ = k <;> simp [hc]
  · intro c k
    rw [specTopicState_snoc, htk, RoomIndex.mem_members_leave, hi.mem c k]
    unfold specTopicStep
    by_cases hc : c₀ = c ∧ k₀ = k
    · obtain ⟨rfl, rfl⟩ := hc
      simp
    · have hc' : ¬ (k = k₀ ∧ c = c₀) := fun e => hc ⟨e.2.symm, e.1.symm⟩
      simp [hc, hc']
  · rw [htk]; exact RoomIndex.nodup_keys_leave _ _ hi.keys
  · intro k room hg
    rw [htk] at hg
    by_cases hk : k = k₀
    · subst hk
      rw [RoomIndex.get_leave_self] at hg
      split at hg
      · cases hg
      · split at hg
        · cases hg
        · rename_i hne
          cases hg
          exact fun e => hne (List.isEmpty_iff.mpr e)
    · rw [RoomIndex.get_leave_ne _ _ hk] at hg
      exact hi.nonempty k room hg

theorem topicsAgree_run (reqs : List Request) :
    (∀ r ∈ reqs, r.isMembership = true) →
      ∀ h, Hub.Run NewHub reqs = .waiting h → TopicsAgree h reqs := by
  induction reqs using List.reverseRecOn with
  | nil =>
    intro _ h hr
    simp only [Hub.Run] at hr
    cases hr
    exact topicsAgree_newHub
  | append_singleton pre r ih =>
    intro hk h hr
    obtain ⟨h₁, hpre, _, hstep⟩ := Hub.Run_snoc_waiting hr
    have hi := ih (fun r hr => hk r (List.mem_append_left _ hr)) h₁ hpre
    have hr0 := hk r (List.mem_append_right _ (List.mem_singleton_self r))
    cases r with
    | register c => cases hstep; exact topicsAgree_register hi c
    | unregister c => exact topicsAgree_unregister hi hstep
    | joinTicket c k => cases hstep; exact topicsAgree_joinTicket hi c k
    | leaveTicket c k => cases hstep; exact topicsAgree_leaveTicket hi c k
    | broadcast m => simp [Request.isMembership] at hr0
    | shutdown => simp [Request.isMembership] at hr0

/-! ## Frames reach a connection in the order they were queued -/

theorem closeAll_buf (cs : List Client) :
    ∀ {h h' : HubState}, closeAll h cs = some h' → ∀ c, (h'.chan c).buf = (h.chan c).buf := by
  induction cs with
  | nil =>
    intro h h' hs c
    cases hs
    rfl
  | cons x cs ih =>
    intro h h' hs c
    unfold closeAll at hs
    split at hs
    · cases hs
    · rename_i h₁ hx
      obtain ⟨_, rfl⟩ := closeChan_eq_some hx
      rw [ih hs c, chan_of_send_eq (h := h) rfl c]
      split
      · rename_i hc
        rw [hc]
      · rfl

theorem Hub.deliver_buf {msg : BroadcastMessage} {h h' : HubState} {x : Client}
    (hs : Hub.deliver msg h x = some h') (c : Client) :
    (h'.chan c).buf =
      (h.chan c).buf ++
        (if c = x ∧ (h.chan x).buf.length < sendBufSize then [msg.Payload] else []) := by
  obtain ⟨_, ⟨hsp, rfl⟩ | ⟨hsp, rfl⟩⟩ := Hub.deliver_eq_some hs
  · rw [chan_of_send_eq (h := h) rfl c]
    by_cases hc : c = x
    · subst hc
      simp [hsp]
    · simp [hc]
  · rw [chan_of_send_eq (h := h) rfl c]
    by_cases hc : c = x
    · subst hc
      simp [hsp]
    · simp [hc]

theorem Hub.deliverAll_buf (msg : BroadcastMessage) (cs : List Client) :
    ∀ {h h' : HubState}, Hub.deliverAll msg h cs = some h' →
      ∀ c, ∃ ext, (h'.chan c).buf = (h.chan c).buf ++ ext := by
  induction cs with
  | nil =>
    intro h h' hs c
    cases hs
    exact ⟨[], by simp⟩
  | cons x cs ih =>
    intro h h' hs c
    unfold Hub.deliverAll at hs
    split at hs
    · cases hs
    · rename_i h₁ hx
      obtain ⟨ext, hext⟩ := ih hs c
      refine ⟨(if c = x ∧ (h.chan x).buf.length < sendBufSize then [msg.Payload] else []) ++ ext,
        ?_⟩
      rw [hext, Hub.deliver_buf hx c, List.append_assoc]

theorem Hub.deliverAll_buf_of_mem (msg : BroadcastMessage) (cs : List Client) :
    ∀ {h h' : HubState}, Hub.deliverAll msg h cs = some h' →
      ∀ c, c ∈ cs → (h.chan c).buf.length < sendBufSize →
        ∃ ext, (h'.chan c).buf = (h.chan c).buf ++ msg.Payload :: ext := by
  induction cs with
  | nil =>
    intro h h' _ c hc
    cases hc
  | cons x cs ih =>
    intro h h' hs c hc hsp
    unfold Hub.deliverAll at hs
    split at hs
    · cases hs
    · rename_i h₁ hx
      have hb := Hub.deliver_buf hx c
      by_cases hcx : c = x
      · subst hcx
        obtain ⟨ext, hext⟩ := Hub.deliverAll_buf msg cs hs c
        refine ⟨ext, ?_⟩
        rw [hext, hb]
        simp [hsp]
      · have hc' : c ∈ cs := by
          rcases List.mem_cons.mp hc with e | e
          · exact absurd e hcx
          · exact e
        have hb' : (h₁.chan c).buf = (h.chan c).buf := by
          rw [hb]
          simp [hcx]
        obtain ⟨ext, hext⟩ := ih hs c hc' (by rw [hb']; exact hsp)
        exact ⟨ext, by rw [hext, hb']⟩

theorem Hub.step_buf {h h' : HubState} {r : Request} (hs : Hub.step h r = some h') (c : Client) :
    ∃ ext, (h'.chan c).buf = (h.chan c).buf ++ ext := by
  cases r with
  | register x => cases hs; exact ⟨[], by simp [Hub.register, HubState.chan]⟩
  | unregister x =>
    rcases Hub.unregister_eq_some hs with ⟨_, rfl⟩ | ⟨_, _, rfl⟩
    · exact ⟨[], by simp⟩
    · refine ⟨[], ?_⟩
      rw [chan_of_send_eq (h := h) rfl c]
      split
      · rename_i hc
        rw [hc]
        simp
      · simp
  | joinTicket x k => cases hs; exact ⟨[], by simp [Hub.joinTicket, HubState.chan]⟩
  | leaveTicket x k => cases hs; exact ⟨[], by simp [Hub.leaveTicket, HubState.chan]⟩
  | broadcast m => exact Hub.deliverAll_buf m _ hs c
  | shutdown => exact ⟨[], by rw [closeAll_buf _ hs c]; simp⟩

theorem textsOf_append (a b : List (Frame × Bool)) : textsOf (a ++ b) = textsOf a ++ textsOf b := by
  induction a with
  | nil => rfl
  | cons x rest ih =>
    obtain ⟨f, ok⟩ := x
    cases f <;> simp [textsOf, ih]

theorem System.pump_setFor (s : System) (c c' : Client) (st : PumpState) (h' : HubState)
    (r : Bool) :
    System.pump { hub := h', hubRunning := r, pumps := setFor s.pumps c st } c' =
      if c' = c then st else s.pump c' := by
  unfold System.pump
  simp only [lookup_setFor]
  split <;> rfl

theorem System.step_hub (s : System) (r : Request) :
    System.step s (.hub r) =
      if s.hubRunning then
        match Hub.step s.hub r with
        | none => none
        | some h' => some { s with hub := h', hubRunning := decide (r ≠ .shutdown) }
      else none := rfl

theorem System.step_pump (s : System) (c : Client) (e : PumpEvent) :
    System.step s (.pump c e) =
      match Client.WritePump (s.hub.chan c) (s.pump c) e with
      | none => none
      | some (ch, st) =>
        some { s with
          hub := { s.hub with send := setFor s.hub.send c ch }
          pumps := setFor s.pumps c st } := rfl

theorem System.step_reply (s : System) (c : Client) (p : Payload) :
    System.step s (.reply c p) =
      match (s.hub.chan c).trySend p with
      | none => none
      | some none => some s
      | some (some ch) =>
        some { s with hub := { s.hub with send := setFor s.hub.send c ch } } := rfl

theorem System.step_stream {s s' : System} {e : Event} (hs : System.step s e = some s')
    (c : Client) : ∃ ext, s'.stream c = s.stream c ++ ext := by
  cases e with
  | hub r =>
    rw [System.step_hub] at hs
    split at hs
    · split at hs
      · cases hs
      · rename_i h' hstep
        cases hs
        obtain ⟨ext, hext⟩ := Hub.step_buf hstep c
        exact ⟨ext, by simp [System.stream, System.pump, hext]⟩
    · cases hs
  | pump x ev =>
    rw [System.step_pump] at hs
    split at hs
    · cases hs
    · rename_i ch st hp
      cases hs
      refine ⟨[], ?_⟩
      unfold System.stream
      rw [System.pump_setFor, chan_of_send_eq (h := s.hub) rfl c]
      by_cases hc : c = x
      · subst hc
        simp only [if_true, List.append_nil]
        unfold Client.WritePump at hp
        cases ev with
        | recv ok =>
          simp only at hp
          split at hp
          · split at hp
            · rename_i m rest hbuf
              cases hp
              simp [textsOf_append, textsOf, hbuf]
            · split at hp
              · cases hp
                simp [textsOf_append, textsOf]
              · cases hp
          · cases hp
        | tick ok =>
          simp only at hp
          split at hp
          · cases hp
            simp [textsOf_append, textsOf]
          · cases hp
      · simp [hc]
  | reply x p =>
    rw [System.step_reply] at hs
    split at hs
    · cases hs
    · cases hs
      exact ⟨[], by simp⟩
    · rename_i ch hsend
      cases hs
      unfold Chan.trySend at hsend
      split at hsend
      · cases hsend
      · split at hsend
        · cases hsend
          unfold System.stream
          rw [chan_of_send_eq (h := s.hub) rfl c]
          by_cases hc : c = x
          · subst hc
            exact ⟨[p], by simp [System.pump]⟩
          · exact ⟨[], by simp [System.pump, hc]⟩
        · cases hsend

theorem System.run_stream (es : List Event) :
    ∀ {s s' : System}, System.run s es = some s' →
      ∀ c, ∃ ext, s'.stream c = s.stream c ++ ext := by
  induction es with
  | nil =>
    intro s s' hs c
    cases hs
    exact ⟨[], by simp⟩
  | cons e rest ih =>
    intro s s' hs c
    unfold System.run at hs
    split at hs
    · cases hs
    · rename_i s₁ he
      obtain ⟨ext₁, h₁⟩ := System.step_stream he c
      obtain ⟨ext₂, h₂⟩ := ih hs c
      exact ⟨ext₁ ++ ext₂, by rw [h₂, h₁, List.append_assoc]⟩

theorem System.broadcast_stream {s s' : System} {m : BroadcastMessage}
    (hs : System.step s (.hub (.broadcast m)) = some s') {c : Client}
    (hc : c ∈ Hub.targets s.hub m) (hsp : (s.hub.chan c).buf.length < sendBufSize) :
    ∃ ext, s'.stream c = s.stream c ++ m.Payload :: ext := by
  rw [System.step_hub] at hs
  split at hs
  · split at hs
    · cases hs
    · rename_i h' hstep
      cases hs
      obtain ⟨ext, hext⟩ := Hub.deliverAll_buf_of_mem m _ hstep c hc hsp
      exact ⟨ext, by simp [System.stream, System.pump, hext]⟩
  · cases hs

/-! ## Reachable states -/

theorem registryOpen_system_step {s s' : System} (hi : RegistryOpen s.hub) {e : Event}
    (hne : e ≠ .hub .shutdown)
    (hreg : ∀ c, e = .hub (.register c) → (s.hub.chan c).closed = false)
    (hs : System.step s e = some s') : RegistryOpen s'.hub := by
  cases e with
  | hub r =>
    rw [System.step_hub] at hs
    split at hs
    · split at hs
      · cases hs
      · rename_i h' hstep
        cases hs
        exact registryOpen_step hi (fun e => hne (by rw [e]))
          (fun c e => hreg c (by rw [e])) hstep
    · cases hs
  | pump x ev =>
    rw [System.step_pump] at hs
    split at hs
    · cases hs
    · rename_i ch st hp
      cases hs
      refine ⟨hi.nodup, ?_⟩
      intro c hc
      rw [chan_of_send_eq (h := s.hub) rfl c]
      split
      · rename_i hcx
        subst hcx
        have ho := hi.isOpen c hc
        unfold Client.WritePump at hp
        cases ev with
        | recv ok =>
          simp only at hp
          split at hp
          · split at hp
            · cases hp
              exact ho
            · split at hp
              · cases hp
                exact ho
              · cases hp
          · cases hp
        | tick ok =>
          simp only at hp
          split at hp
          · cases hp
            exact ho
          · cases hp
      · exact hi.isOpen c hc
  | reply x p =>
    rw [System.step_reply] at hs
    split at hs
    · cases hs
    · cases hs
      exact hi
    · rename_i ch hsend
      cases hs
      refine ⟨hi.nodup, ?_⟩
      intro c hc
      rw [chan_of_send_eq (h := s.hub) rfl c]
      split
      · unfold Chan.trySend at hsend
        split at hsend
        · cases hsend
        · split at hsend
          · cases hsend
            rfl
          · cases hsend
      · exact hi.isOpen c hc

theorem registryOpen_system_run (evs : List Event) :
    ∀ {s s' : System}, RegistryOpen s.hub → System.admissible s evs = true →
      System.run s evs = some s' → RegistryOpen s'.hub := by
  induction evs with
  | nil =>
    intro s s' hi _ hr
    cases hr
    exact hi
  | cons e rest ih =>
    intro s s' hi ha hr
    simp only [System.admissible, Bool.and_eq_true] at ha
    unfold System.run at hr
    cases hstep : System.step s e with
    | none => simp [hstep] at hr
    | some s₁ =>
      simp only [hstep] at hr ha
      refine ih (registryOpen_system_step hi ?_ ?_ hstep) ha.2 hr
      · rintro rfl
        simp at ha
      · rintro c rfl
        simpa using ha.1

theorem Reachable.registryOpen {h : HubState} (hr : Reachable h) : RegistryOpen h := by
  obtain ⟨evs, s, ha, hrun, rfl⟩ := hr
  exact registryOpen_system_run evs registryOpen_newHub ha hrun

/-! ## What a broadcast does when no member of the room has a closed queue -/

/-- The channel of a member after its iteration of the broadcast loop. -/
theorem Hub.deliver_chan {msg : BroadcastMessage} {h h' : HubState} {x : Client}
    (hs : Hub.deliver msg h x = some h') (c : Client) :
    h'.chan c =
      if c = x then
        (if (h.chan x).buf.length < sendBufSize then
          { buf := (h.chan x).buf ++ [msg.Payload], closed := false }
         else { buf := (h.chan x).buf, closed := true })
      else h.chan c := by
  obtain ⟨_, ⟨hsp, rfl⟩ | ⟨hsp, rfl⟩⟩ := Hub.deliver_eq_some hs
  · rw [chan_of_send_eq (h := h) rfl c]
    simp [hsp]
  · rw [chan_of_send_eq (h := h) rfl c]
    simp [hsp]

theorem Hub.deliver_of_open (msg : BroadcastMessage) (h : HubState) (x : Client)
    (ho : (h.chan x).closed = false) : ∃ h', Hub.deliver msg h x = some h' := by
  unfold Hub.deliver Chan.trySend
  by_cases hsp : (h.chan x).buf.length < sendBufSize
  · simp [ho, hsp]
  · simp only [ho, hsp, Bool.false_eq_true, if_false]
    rw [closeChan_of_open (by exact ho)]
    exact ⟨_, rfl⟩

theorem Hub.deliver_members {msg : BroadcastMessage} {h h' : HubState} {x : Client}
    (hs : Hub.deliver msg h x = some h') :
    h'.tickets = h.tickets ∧
    (∀ c, c ∈ h'.clients ↔
      c ∈ h.clients ∧ ¬ (c = x ∧ ¬ (h.chan x).buf.length < sendBufSize)) ∧
    (∀ t c, c ∈ h'.tenants.members t ↔
      c ∈ h.tenants.members t ∧
        ¬ (c = x ∧ ¬ (h.chan x).buf.length < sendBufSize ∧ x.TenantID = t)) := by
  obtain ⟨_, ⟨hsp, rfl⟩ | ⟨hsp, rfl⟩⟩ := Hub.deliver_eq_some hs
  · refine ⟨rfl, fun c => ?_, fun t c => ?_⟩
    · simp [hsp]
    · simp [hsp]
  · refine ⟨rfl, fun c => ?_, fun t c => ?_⟩
    · simp only [ClientSet.mem_remove]
      simp [hsp]
    · simp only
      cases hg : h.tenants.get x.TenantID with
      | none =>
        simp only
        by_cases ht : x.TenantID = t
        · subst ht
          simp [RoomIndex.members, hg]
        · simp [ht]
      | some room =>
        simp only
        by_cases ht : t = x.TenantID
        · subst ht
          rw [RoomIndex.members_put_self, ClientSet.mem_remove]
          simp [RoomIndex.members, hg, hsp]
        · rw [RoomIndex.members_put_ne _ _ ht]
          have ht' : ¬ x.TenantID = t := fun e => ht e.symm
          simp [ht']

/-- The broadcast loop over members `cs`, none of which has a closed queue: it
completes, every member with room in its queue gains the payload at the tail,
every member with a full queue has its queue closed and is removed from the
registry and from the room of its tenant, the queues of all other connections
and the ticket rooms are unchanged. -/
theorem Hub.deliverAll_of_open (msg : BroadcastMessage) (cs : List Client) :
    ∀ h : HubState, cs.Nodup → (∀ c ∈ cs, (h.chan c).closed = false) →
      ∃ h', Hub.deliverAll msg h cs = some h' ∧ h'.tickets = h.tickets ∧
        (∀ c, h'.chan c =
          if c ∈ cs then
            (if (h.chan c).buf.length < sendBufSize then
              { buf := (h.chan c).buf ++ [msg.Payload], closed := false }
             else { buf := (h.chan c).buf, closed := true })
          else h.chan c) ∧
        (∀ c, c ∈ h'.clients ↔
          c ∈ h.clients ∧ ¬ (c ∈ cs ∧ ¬ (h.chan c).buf.length < sendBufSize)) ∧
        (∀ t c, c ∈ h'.tenants.members t ↔
          c ∈ h.tenants.members t ∧
            ¬ (c ∈ cs ∧ ¬ (h.chan c).buf.length < sendBufSize ∧ c.TenantID = t)) := by
  induction cs with
  | nil =>
    intro h _ _
    exact ⟨h, rfl, rfl, by simp, by simp, by simp⟩
  | cons x cs ih =>
    intro h hnd hopen
    have hnd' := List.nodup_cons.mp hnd
    obtain ⟨h₁, hx⟩ := Hub.deliver_of_open msg h x (hopen x (List.mem_cons_self _ _))
    have hch := Hub.deliver_chan hx
    obtain ⟨htk₁, hcl₁, hten₁⟩ := Hub.deliver_members hx
    have hother : ∀ c ∈ cs, h₁.chan c = h.chan c := by
      intro c hc
      have hne : c ≠ x := fun e => hnd'.1 (e ▸ hc)
      rw [hch c, if_neg hne]
    have hopen₁ : ∀ c ∈ cs, (h₁.chan c).closed = false := by
      intro c hc
      rw [hother c hc]
      exact hopen c (List.mem_cons_of_mem _ hc)
    obtain ⟨h', hrun, htk, hchan, hcl, hten⟩ := ih h₁ hnd'.2 hopen₁
    refine ⟨h', ?_, by rw [htk, htk₁], ?_, ?_, ?_⟩
    · simp only [Hub.deliverAll, hx]
      exact hrun
    · intro c
      rw [hchan c]
      by_cases hc : c ∈ cs
      · have hne : c ≠ x := fun e => hnd'.1 (e ▸ hc)
        simp only [hc, if_true, List.mem_cons, or_true, hother c hc]
      · by_cases hcx : c = x
        · subst hcx
          simp only [hc, if_false, List.mem_cons, true_or, if_true]
          rw [hch c, if_pos rfl]
        · simp only [hc, if_false, List.mem_cons, hcx, or_self]
          rw [hch c, if_neg hcx]
    · intro c
      rw [hcl c, hcl₁ c]
      by_cases hc : c ∈ cs
      · have hne : c ≠ x := fun e => hnd'.1 (e ▸ hc)
        simp [hc, hne, hother c hc]
      · by_cases hcx : c = x
        · subst hcx
          simp [hc]
        · simp [hc, hcx]
    · intro t c
      rw [hten t c, hten₁ t c]
      by_cases hc : c ∈ cs
      · have hne : c ≠ x := fun e => hnd'.1 (e ▸ hc)
        simp [hc, hne, hother c hc]
      · by_cases hcx : c = x
        · subst hcx
          simp [hc]
        · simp [hc, hcx]

/-- A broadcast whose target room holds a connection with a closed queue
panics. -/
theorem Hub.deliverAll_of_closed (msg : BroadcastMessage) (cs : List Client) :
    ∀ h : HubState, cs.Nodup → (∃ c ∈ cs, (h.chan c).closed = true) →
      Hub.deliverAll msg h cs = none := by
  induction cs with
  | nil =>
    intro h _ hex
    obtain ⟨c, hc, _⟩ := hex
    cases hc
  | cons x cs ih =>
    intro h hnd hex
    have hnd' := List.nodup_cons.mp hnd
    unfold Hub.deliverAll
    cases hx : Hub.deliver msg h x with
    | none => rfl
    | some h₁ =>
      simp only
      obtain ⟨c, hc, hclosed⟩ := hex
      have hxo := (Hub.deliver_eq_some hx).1
      rcases List.mem_cons.mp hc with rfl | hc'
      · rw [hxo] at hclosed
        cases hclosed
      · refine ih h₁ hnd'.2 ⟨c, hc', ?_⟩
        have hne : c ≠ x := fun e => hnd'.1 (e ▸ hc')
        rw [Hub.deliver_chan hx c, if_neg hne]
        exact hclosed

/-! ## Entries of a room index -/

theorem RoomIndex.mem_of_get {m : RoomIndex} {k : String} {room : ClientSet}
    (h : m.get k = some room) : (k, room) ∈ m := by
  induction m with
  | nil => simp [RoomIndex.get] at h
  | cons kv rest ih =>
    obtain ⟨k₁, v₁⟩ := kv
    by_cases hk : k = k₁
    · subst hk
      simp [RoomIndex.get, List.lookup] at h
      subst h
      exact List.mem_cons_self _ _
    · have hb : (k == k₁) = false := by simpa using hk
      have : RoomIndex.get rest k = some room := by
        simpa [RoomIndex.get, List.lookup, hb] using h
      exact List.mem_cons_of_mem _ (ih this)

theorem RoomIndex.mem_put {m : RoomIndex} {k : String} {v : ClientSet} {kv : String × ClientSet}
    (h : kv ∈ m.put k v) : kv ∈ m ∨ kv = (k, v) := by
  induction m with
  | nil =>
    simp only [RoomIndex.put, List.mem_singleton] at h
    exact Or.inr h
  | cons e rest ih =>
    obtain ⟨k₁, v₁⟩ := e
    by_cases hk : k₁ = k
    · simp only [RoomIndex.put, hk, if_true, List.mem_cons] at h
      rcases h with h | h
      · exact Or.inr h
      · exact Or.inl (List.mem_cons_of_mem _ h)
    · simp only [RoomIndex.put, hk, if_false, List.mem_cons] at h
      rcases h with h | h
      · exact Or.inl (h ▸ List.mem_cons_self _ _)
      · rcases ih h with h' | h'
        · exact Or.inl (List.mem_cons_of_mem _ h')
        · exact Or.inr h'

theorem RoomIndex.mem_delete {m : RoomIndex} {k : String} {kv : String × ClientSet}
    (h : kv ∈ m.delete k) : kv ∈ m :=
  (List.mem_filter.mp h).1

theorem RoomIndex.mem_leave {m : RoomIndex} {k : String} {c : Client} {kv : String × ClientSet}
    (h : kv ∈ m.leave k c) :
    kv ∈ m ∨ ∃ room, (k, room) ∈ m ∧ kv = (k, room.remove c) ∧ room.remove c ≠ [] := by
  unfold RoomIndex.leave at h
  split at h
  · exact Or.inl h
  · rename_i room hg
    simp only at h
    split at h
    · exact Or.inl (RoomIndex.mem_delete h)
    · rename_i hne
      rcases RoomIndex.mem_put h with h' | h'
      · exact Or.inl h'
      · exact Or.inr ⟨room, RoomIndex.mem_of_get hg, h', fun e => hne (List.isEmpty_iff.mpr e)⟩

theorem mem_sweepTickets {m : RoomIndex} {c : Client} {kv : String × ClientSet}
    (h : kv ∈ sweepTickets m c) :
    ∃ room, (kv.1, room) ∈ m ∧ kv.2 = room.remove c ∧ room.remove c ≠ [] := by
  unfold sweepTickets at h
  rw [List.mem_filterMap] at h
  obtain ⟨e, he, hsome⟩ := h
  simp only at hsome
  split at hsome
  · cases hsome
  · rename_i hne
    cases hsome
    exact ⟨e.2, he, rfl, fun e' => hne (List.isEmpty_iff.mpr e')⟩

theorem RoomIndex.mem_members {m : RoomIndex} {k : String} {c : Client}
    (h : c ∈ m.members k) : ∃ room, (k, room) ∈ m ∧ c ∈ room := by
  unfold RoomIndex.members at h
  cases hg : m.get k with
  | none => simp [hg] at h
  | some room =>
    simp only [hg, Option.getD_some] at h
    exact ⟨room, RoomIndex.mem_of_get hg, h⟩

/-! ## The broadcast loop and the indices -/

theorem Hub.deliverAll_tickets (msg : BroadcastMessage) (cs : List Client) :
    ∀ {h h' : HubState}, Hub.deliverAll msg h cs = some h' → h'.tickets = h.tickets := by
  induction cs with
  | nil =>
    intro h h' hs
    cases hs
    rfl
  | cons x cs ih =>
    intro h h' hs
    unfold Hub.deliverAll at hs
    split at hs
    · cases hs
    · rename_i h₁ hx
      rw [ih hs, (Hub.deliver_members hx).1]

theorem Hub.deliverAll_noEviction (msg : BroadcastMessage) (cs : List Client) :
    ∀ {h h' : HubState}, Hub.deliverAll msg h cs = some h' → Hub.noEviction msg h cs = true →
      h'.clients = h.clients ∧ h'.tenants = h.tenants ∧ h'.tickets = h.tickets := by
  induction cs with
  | nil =>
    intro h h' hs _
    cases hs
    exact ⟨rfl, rfl, rfl⟩
  | cons x cs ih =>
    intro h h' hs hno
    unfold Hub.deliverAll at hs
    split at hs
    · cases hs
    · rename_i h₁ hx
      simp only [Hub.noEviction, hx, Bool.and_eq_true, decide_eq_true_eq] at hno
      obtain ⟨hcl, hten, htk⟩ := ih hs hno.2
      obtain ⟨_, ⟨_, rfl⟩ | ⟨hfull, _⟩⟩ := Hub.deliver_eq_some hx
      · exact ⟨hcl, hten, htk⟩
      · exact absurd hno.1 hfull

theorem tenantsAgree_deliver {h h' : HubState} (hi : TenantsAgree h) {msg : BroadcastMessage}
    {x : Client} (hs : Hub.deliver msg h x = some h') : TenantsAgree h' := by
  obtain ⟨_, hcl, hten⟩ := Hub.deliver_members hs
  constructor
  · intro c
    rw [hten, hcl, hi.mem_iff c]
    constructor
    · rintro ⟨hc, hne⟩
      exact ⟨hc, fun e => hne ⟨e.1, e.2, by rw [e.1]⟩⟩
    · rintro ⟨hc, hne⟩
      exact ⟨hc, fun e => hne ⟨e.1, e.2.1⟩⟩
  · intro t c hc
    rw [hten] at hc
    exact hi.tenant_of t c hc.1

theorem tenantsAgree_deliverAll (msg : BroadcastMessage) (cs : List Client) :
    ∀ {h h' : HubState}, TenantsAgree h → Hub.deliverAll msg h cs = some h' →
      TenantsAgree h' := by
  induction cs with
  | nil =>
    intro h h' hi hs
    cases hs
    exact hi
  | cons x cs ih =>
    intro h h' hi hs
    unfold Hub.deliverAll at hs
    split at hs
    · cases hs
    · rename_i h₁ hx
      exact ih (tenantsAgree_deliver hi hx) hs

theorem tenantsAgree_of_eq {h h' : HubState} (hi : TenantsAgree h)
    (hc : h'.clients = h.clients) (ht : h'.tenants = h.tenants) : TenantsAgree h' :=
  ⟨fun c => by rw [hc, ht]; exact hi.mem_iff c, fun t c => by rw [ht]; exact hi.tenant_of t c⟩

theorem tenantsAgree_step {h h' : HubState} (hi : TenantsAgree h) {r : Request}
    (hne : r ≠ .shutdown) (hs : Hub.step h r = some h') : TenantsAgree h' := by
  cases r with
  | register c => cases hs; exact tenantsAgree_register hi c
  | unregister c => exact tenantsAgree_unregister hi hs
  | joinTicket c k => cases hs; exact tenantsAgree_of_eq hi rfl rfl
  | leaveTicket c k => cases hs; exact tenantsAgree_of_eq hi rfl rfl
  | broadcast m => exact tenantsAgree_deliverAll m _ hi hs
  | shutdown => exact absurd rfl hne

/-! ## Ticket rooms are never empty -/

theorem topicsNonempty_step {h h' : HubState} (hi : TopicsNonempty h) {r : Request}
    (hne : r ≠ .shutdown) (hs : Hub.step h r = some h') : TopicsNonempty h' := by
  cases r with
  | register c => cases hs; exact hi
  | unregister c =>
    rcases Hub.unregister_eq_some hs with ⟨_, rfl⟩ | ⟨_, _, rfl⟩
    · exact hi
    · intro kv hkv
      obtain ⟨room, _, heq, hne'⟩ := mem_sweepTickets hkv
      rw [heq]
      exact hne'
  | joinTicket c k =>
    cases hs
    intro kv hkv
    rcases RoomIndex.mem_put hkv with h' | h'
    · exact hi kv h'
    · rw [h']
      intro e
      have hc : c ∈ ((h.tickets.get k).getD []).add c := ClientSet.mem_add.mpr (Or.inr rfl)
      simp only at e
      rw [e] at hc
      cases hc
  | leaveTicket c k =>
    cases hs
    intro kv hkv
    rcases RoomIndex.mem_leave hkv with h' | ⟨room, _, heq, hne'⟩
    · exact hi kv h'
    · rw [heq]
      exact hne'
  | broadcast m =>
    intro kv hkv
    have ht : h'.tickets = h.tickets := Hub.deliverAll_tickets m _ hs
    rw [ht] at hkv
    exact hi kv hkv
  | shutdown => exact absurd rfl hne

/-! ## Invariants of the maps along the runs of the system -/

/-- A property of the three maps that every request other than `Shutdown`
preserves holds along every admissible run of the system. -/
theorem System.run_maps_invariant (P : HubState → Prop)
    (hsend : ∀ (h : HubState) (send : List (Client × Chan)), P h → P { h with send := send })
    (hstep : ∀ (h h' : HubState) (r : Request), P h → r ≠ .shutdown →
      Hub.step h r = some h' → P h')
    (evs : List Event) :
    ∀ {s s' : System}, P s.hub → System.admissible s evs = true →
      System.run s evs = some s' → P s'.hub := by
  induction evs with
  | nil =>
    intro s s' hp _ hr
    cases hr
    exact hp
  | cons e rest ih =>
    intro s s' hp ha hr
    simp only [System.admissible, Bool.and_eq_true] at ha
    unfold System.run at hr
    cases hstep' : System.step s e with
    | none => simp [hstep'] at hr
    | some s₁ =>
      simp only [hstep'] at hr ha
      refine ih ?_ ha.2 hr
      cases e with
      | hub r =>
        rw [System.step_hub] at hstep'
        split at hstep'
        · split at hstep'
          · cases hstep'
          · rename_i h₁ hs
            cases hstep'
            refine hstep _ _ r hp ?_ hs
            rintro rfl
            simp at ha
        · cases hstep'
      | pump x ev =>
        rw [System.step_pump] at hstep'
        split at hstep'
        · cases hstep'
        · cases hstep'
          exact hsend _ _ hp
      | reply x p =>
        rw [System.step_reply] at hstep'
        split at hstep'
        · cases hstep'
        · cases hstep'
          exact hp
        · cases hstep'
          exact hsend _ _ hp

theorem Reachable.tenantsAgree {h : HubState} (hr : Reachable h) : TenantsAgree h := by
  obtain ⟨evs, s, ha, hrun, rfl⟩ := hr
  exact System.run_maps_invariant TenantsAgree (fun h send hi => tenantsAgree_of_eq hi rfl rfl)
    (fun h h' r hi hne hs => tenantsAgree_step hi hne hs) evs tenantsAgree_newHub ha hrun

theorem Reachable.topicsNonempty {h : HubState} (hr : Reachable h) : TopicsNonempty h := by
  obtain ⟨evs, s, ha, hrun, rfl⟩ := hr
  exact System.run_maps_invariant TopicsNonempty (fun h send hi => hi)
    (fun h h' r hi hne hs => topicsNonempty_step hi hne hs) evs
    (fun kv hkv => by simp [System.start, NewHub] at hkv) ha hrun

/-! ## Members of ticket rooms in orderly runs -/

theorem topicsRegistered_step {h h' : HubState} (hi : TopicsRegistered h) {r : Request}
    (hne : r ≠ .shutdown)
    (hjoin : ∀ c k, r = .joinTicket c k → c ∈ h.clients)
    (hbc : ∀ m, r = .broadcast m → Hub.noEviction m h (Hub.targets h m) = true)
    (hs : Hub.step h r = some h') : TopicsRegistered h' := by
  cases r with
  | register c =>
    cases hs
    intro kv hkv x hx
    exact ClientSet.mem_add.mpr (Or.inl (hi kv hkv x hx))
  | unregister c =>
    rcases Hub.unregister_eq_some hs with ⟨_, rfl⟩ | ⟨_, _, rfl⟩
    · exact hi
    · intro kv hkv x hx
      obtain ⟨room, hroom, heq, _⟩ := mem_sweepTickets hkv
      rw [heq] at hx
      have hx' := ClientSet.mem_remove.mp hx
      exact ClientSet.mem_remove.mpr ⟨hi _ hroom x hx'.1, hx'.2⟩
  | joinTicket c k =>
    cases hs
    intro kv hkv x hx
    rcases RoomIndex.mem_put hkv with h' | h'
    · exact hi kv h' x hx
    · rw [h'] at hx
      rcases ClientSet.mem_add.mp hx with hx' | hx'
      · obtain ⟨room, hroom, hxr⟩ := RoomIndex.mem_members (m := h.tickets) (k := k) hx'
        exact hi _ hroom x hxr
      · rw [hx']
        exact hjoin c k rfl
  | leaveTicket c k =>
    cases hs
    intro kv hkv x hx
    rcases RoomIndex.mem_leave hkv with h' | ⟨room, hroom, heq, _⟩
    · exact hi kv h' x hx
    · rw [heq] at hx
      exact hi _ hroom x (ClientSet.mem_remove.mp hx).1
  | broadcast m =>
    obtain ⟨hcl, _, htk⟩ := Hub.deliverAll_noEviction m _ hs (hbc m rfl)
    intro kv hkv x hx
    rw [htk] at hkv
    rw [hcl]
    exact hi kv hkv x hx
  | shutdown => exact absurd rfl hne

theorem topicsRegistered_run (evs : List Event) :
    ∀ {s s' : System}, TopicsRegistered s.hub → System.orderly s evs = true →
      System.run s evs = some s' → TopicsRegistered s'.hub := by
  induction evs with
  | nil =>
    intro s s' hp _ hr
    cases hr
    exact hp
  | cons e rest ih =>
    intro s s' hp ha hr
    simp only [System.orderly, Bool.and_eq_true] at ha
    unfold System.run at hr
    cases hstep' : System.step s e with
    | none => simp [hstep'] at hr
    | some s₁ =>
      simp only [hstep'] at hr ha
      refine ih ?_ ha.2 hr
      cases e with
      | hub r =>
        rw [System.step_hub] at hstep'
        split at hstep'
        · split at hstep'
          · cases hstep'
          · rename_i h₁ hs
            cases hstep'
            refine topicsRegistered_step hp ?_ ?_ ?_ hs
            · rintro rfl
              simp at ha
            · rintro c k rfl
              simpa using ha.1
            · rintro m rfl
              simpa using ha.1
        · cases hstep'
      | pump x ev =>
        rw [System.step_pump] at hstep'
        split at hstep'
        · cases hstep'
        · cases hstep'
          exact hp
      | reply x p =>
        rw [System.step_reply] at hstep'
        split at hstep'
        · cases hstep'
        · cases hstep'
          exact hp
        · cases hstep'
          exact hp

/-! ## Each channel of the Hub is first in, first out -/

theorem ofKind_append (k : SelectCase) (a b : List Request) :
    ofKind k (a ++ b) = ofKind k a ++ ofKind k b := by
  simp [ofKind, List.filter_append]

theorem ofKind_singleton (k : SelectCase) (r : Request) :
    ofKind k [r] = if r.kind = k then [r] else [] := by
  by_cases h : r.kind = k <;> simp [ofKind, List.filter, h]

theorem Inbox.pending_submit {i i' : Inbox} {r : Request} (hs : i.submit r = some i')
    (k : SelectCase) (hk : k ≠ .shutdown) :
    i'.pending k = i.pending k ++ (if r.kind = k then [r] else []) := by
  cases r with
  | register c =>
    simp only [Inbox.submit] at hs
    split at hs
    · cases hs
      cases k <;> simp [Inbox.pending, Request.kind] at hk ⊢
    · cases hs
  | unregister c =>
    simp only [Inbox.submit] at hs
    split at hs
    · cases hs
      cases k <;> simp [Inbox.pending, Request.kind] at hk ⊢
    · cases hs
  | joinTicket c t =>
    simp only [Inbox.submit] at hs
    split at hs
    · cases hs
      cases k <;> simp [Inbox.pending, Request.kind] at hk ⊢
    · cases hs
  | leaveTicket c t =>
    simp only [Inbox.submit] at hs
    split at hs
    · cases hs
      cases k <;> simp [Inbox.pending, Request.kind] at hk ⊢
    · cases hs
  | broadcast m =>
    simp only [Inbox.submit] at hs
    split at hs
    · cases hs
      cases k <;> simp [Inbox.pending, Request.kind] at hk ⊢
    · cases hs
  | shutdown =>
    simp only [Inbox.submit] at hs
    split at hs
    · cases hs
    · cases hs
      cases k <;> simp [Inbox.pending, Request.kind] at hk ⊢

theorem Inbox.pending_receive {i i' : Inbox} {c : SelectCase} {r : Request}
    (hs : i.receive c = some (r, i')) (k : SelectCase) (hk : k ≠ .shutdown) :
    i.pending k = (if r.kind = k then [r] else []) ++ i'.pending k := by
  cases c with
  | register =>
    simp only [Inbox.receive] at hs
    split at hs
    · rename_i x rest hx
      cases hs
      cases k <;> simp [Inbox.pending, Request.kind, hx] at hk ⊢
    · cases hs
  | unregister =>
    simp only [Inbox.receive] at hs
    split at hs
    · rename_i x rest hx
      cases hs
      cases k <;> simp [Inbox.pending, Request.kind, hx] at hk ⊢
    · cases hs
  | joinTicket =>
    simp only [Inbox.receive] at hs
    split at hs
    · rename_i x rest hx
      cases hs
      cases k <;> simp [Inbox.pending, Request.kind, hx] at hk ⊢
    · cases hs
  | leaveTicket =>
    simp only [Inbox.receive] at hs
    split at hs
    · rename_i x rest hx
      cases hs
      cases k <;> simp [Inbox.pending, Request.kind, hx] at hk ⊢
    · cases hs
  | broadcast =>
    simp only [Inbox.receive] at hs
    split at hs
    · rename_i x rest hx
      cases hs
      cases k <;> simp [Inbox.pending, Request.kind, hx] at hk ⊢
    · cases hs
  | shutdown =>
    simp only [Inbox.receive] at hs
    split at hs
    · cases hs
      cases k <;> simp [Inbox.pending, Request.kind] at hk ⊢
    · cases hs

theorem Traffic.step_fifo {t t' : Traffic} {s : InboxStep} (hs : Traffic.step t s = some t')
    (k : SelectCase) (hk : k ≠ .shutdown)
    (hinv : ofKind k t.processed ++ t.inbox.pending k = ofKind k t.submitted) :
    ofKind k t'.processed ++ t'.inbox.pending k = ofKind k t'.submitted := by
  cases s with
  | submit r =>
    simp only [Traffic.step] at hs
    split at hs
    · cases hs
    · rename_i i' hsub
      cases hs
      simp only
      rw [Inbox.pending_submit hsub k hk, ofKind_append, ofKind_singleton, ← hinv,
        List.append_assoc]
  | select c =>
    simp only [Traffic.step] at hs
    split at hs
    · cases hs
    · rename_i r i' hrec
      cases hs
      simp only
      rw [ofKind_append, ofKind_singleton, ← hinv, Inbox.pending_receive hrec k hk,
        List.append_assoc]

theorem Traffic.run_fifo (steps : List InboxStep) :
    ∀ {t t' : Traffic}, Traffic.run t steps = some t' → ∀ k, k ≠ SelectCase.shutdown →
      ofKind k t.processed ++ t.inbox.pending k = ofKind k t.submitted →
      ofKind k t'.processed ++ t'.inbox.pending k = ofKind k t'.submitted := by
  induction steps with
  | nil =>
    intro t t' hr k _ hinv
    cases hr
    exact hinv
  | cons s rest ih =>
    intro t t' hr k hk hinv
    unfold Traffic.run at hr
    split at hr
    · cases hr
    · rename_i t₁ hs
      exact ih hr k hk (Traffic.step_fifo hs k hk hinv)

/-! ## The event bridge -/

theorem marshalEnvelope_of_plain (event : String) (data : List Char)
    (h : marshalString event = '"' :: event.toList ++ ['"']) :
    marshalEnvelope event data = envelopeText event data := by
  unfold marshalEnvelope envelopeText
  rw [h]
  congr 1
  simp

theorem marshalEnvelope_created (data : List Char) :
    marshalEnvelope "ticket:created" data = envelopeText "ticket:created" data :=
  marshalEnvelope_of_plain _ _ (by decide)

theorem marshalEnvelope_updated (data : List Char) :
    marshalEnvelope "ticket:updated" data = envelopeText "ticket:updated" data :=
  marshalEnvelope_of_plain _ _ (by decide)

theorem marshalEnvelope_merged (data : List Char) :
    marshalEnvelope "ticket:merged" data = envelopeText "ticket:merged" data :=
  marshalEnvelope_of_plain _ _ (by decide)

theorem Subscriber.Listen_append (a b : List String) :
    Subscriber.Listen (a ++ b) = Subscriber.Listen a ++ Subscriber.Listen b := by
  induction a with
  | nil => rfl
  | cons p rest ih => simp [Subscriber.Listen, ih]

theorem Subscriber.handleMessage_of_undecodable {payload : String}
    (h : unmarshalRedisEvent payload = none) : Subscriber.handleMessage payload = [] := by
  unfold Subscriber.handleMessage
  rw [h]

theorem Subscriber.handleMessage_of_unknown {payload : String} {event : RedisEvent}
    (h : unmarshalRedisEvent payload = some event)
    (h₁ : event.Event ≠ "ticket.created") (h₂ : event.Event ≠ "ticket.updated")
    (h₃ : event.Event ≠ "ticket.merged") (h₄ : event.Event ≠ "message.created") :
    Subscriber.handleMessage payload = [] := by
  unfold Subscriber.handleMessage
  rw [h]
  simp [h₁, h₂, h₃, h₄]

theorem Subscriber.handleMessage_updated {payload : String} {event : RedisEvent}
    (h : unmarshalRedisEvent payload = some event) (hev : event.Event = "ticket.updated") :
    Subscriber.handleMessage payload =
      { target := 0, targetID := event.TenantID,
        payload := envelopeText "ticket:updated" (marshalRaw event.Ticket) } ::
        match unmarshalTicketRef event.Ticket with
        | none => []
        | some id =>
          if id ≠ "" then
            [{ target := 1, targetID := id,
               payload := envelopeText "ticket:updated" (marshalRaw event.Ticket) }]
          else [] := by
  unfold Subscriber.handleMessage
  rw [h]
  simp only [hev, marshalEnvelope_updated]
  simp

/-! ### Decoding the id of a ticket snapshot -/

theorem decodeMembers_of_no_match (name : String) (fields : List (String × JSON)) :
    ∀ cur : String,
      (∀ kv ∈ fields, keyMatches (unquote kv.1) name = false) →
      decodeMembers
        (fun (cur : String) key v => if keyMatches key name then decodeString cur v else some cur)
        fields cur = some cur := by
  induction fields with
  | nil => intro cur _; rfl
  | cons kv rest ih =>
    intro cur h
    obtain ⟨k, v⟩ := kv
    have hk : keyMatches (unquote k) name = false := h (k, v) (List.mem_cons_self _ _)
    simp only [decodeMembers, hk, Bool.false_eq_true, if_false]
    exact ih cur (fun kv hkv => h kv (List.mem_cons_of_mem _ hkv))

theorem decodeMembers_of_bad_value (name : String) (fields : List (String × JSON)) :
    ∀ cur : String,
      (∃ kv ∈ fields, keyMatches (unquote kv.1) name = true ∧ kv.2.isString = false ∧
        kv.2.isNull = false) →
      decodeMembers
        (fun (cur : String) key v => if keyMatches key name then decodeString cur v else some cur)
        fields cur = none := by
  induction fields with
  | nil =>
    intro cur h
    obtain ⟨kv, hkv, _⟩ := h
    cases hkv
  | cons e rest ih =>
    intro cur h
    obtain ⟨k, v⟩ := e
    obtain ⟨kv, hkv, hm, hs, hn⟩ := h
    rcases List.mem_cons.mp hkv with rfl | hkv'
    · simp only [decodeMembers, hm, if_true]
      cases v <;> simp [decodeString, JSON.isString, JSON.isNull] at hs hn ⊢
    · simp only [decodeMembers]
      split
      · rfl
      · exact ih _ ⟨kv, hkv', hm, hs, hn⟩

theorem decodeMembers_of_empty_values (name : String) (fields : List (String × JSON)) :
    (∀ kv ∈ fields, keyMatches (unquote kv.1) name = true → kv.2.isEmptyId = true) →
    decodeMembers
      (fun (cur : String) key v => if keyMatches key name then decodeString cur v else some cur)
      fields "" = some "" := by
  induction fields with
  | nil => intro _; rfl
  | cons e rest ih =>
    intro h
    obtain ⟨k, v⟩ := e
    have hrest := ih (fun kv hkv => h kv (List.mem_cons_of_mem _ hkv))
    by_cases hk : keyMatches (unquote k) name = true
    · have hv := h (k, v) (List.mem_cons_self _ _) hk
      simp only [decodeMembers, hk, if_true]
      cases v with
      | null => simpa [decodeString] using hrest
      | str lit =>
        have hl : unquote lit = "" := by simpa [JSON.isEmptyId] using hv
        simpa [decodeString, hl] using hrest
      | bool b => simp [JSON.isEmptyId] at hv
      | num l => simp [JSON.isEmptyId] at hv
      | arr l => simp [JSON.isEmptyId] at hv
      | obj l => simp [JSON.isEmptyId] at hv
    · simp only [decodeMembers, hk, if_false]
      exact hrest

theorem decodeMembers_of_null_values (name : String) (fields : List (String × JSON)) :
    ∀ cur : String,
      (∀ kv ∈ fields, keyMatches (unquote kv.1) name = true → kv.2.isNull = true) →
      decodeMembers
        (fun (cur : String) key v => if keyMatches key name then decodeString cur v else some cur)
        fields cur = some cur := by
  induction fields with
  | nil => intro cur _; rfl
  | cons e rest ih =>
    intro cur h
    obtain ⟨k, v⟩ := e
    have hrest := ih cur (fun kv hkv => h kv (List.mem_cons_of_mem _ hkv))
    by_cases hk : keyMatches (unquote k) name = true
    · have hv := h (k, v) (List.mem_cons_self _ _) hk
      simp only [decodeMembers, hk, if_true]
      cases v <;> simp [JSON.isNull] at hv
      simpa [decodeString] using hrest
    · simp only [decodeMembers, hk, if_false]
      exact hrest

theorem decodeMembers_of_last_string (name : String) (key lit : String)
    (post : List (String × JSON)) (hkey : keyMatches (unquote key) name = true)
    (hpost : ∀ kv ∈ post, keyMatches (unquote kv.1) name = true → kv.2.isNull = true)
    (pre : List (String × JSON)) :
    ∀ cur : String,
      (∀ kv ∈ pre, keyMatches (unquote kv.1) name = true →
        kv.2.isString = true ∨ kv.2.isNull = true) →
      decodeMembers
        (fun (cur : String) key v => if keyMatches key name then decodeString cur v else some cur)
        (pre ++ (key, JSON.str lit) :: post) cur = some (unquote lit) := by
  induction pre with
  | nil =>
    intro cur _
    simp only [List.nil_append, decodeMembers, hkey, if_true, decodeString]
    exact decodeMembers_of_null_values name post (unquote lit) hpost
  | cons e rest ih =>
    intro cur h
    obtain ⟨k, v⟩ := e
    have hrest := fun cur' => ih cur' (fun kv hkv => h kv (List.mem_cons_of_mem _ hkv))
    by_cases hk : keyMatches (unquote k) name = true
    · have hv := h (k, v) (List.mem_cons_self _ _) hk
      simp only [List.cons_append, decodeMembers, hk, if_true]
      cases v <;> simp [JSON.isString, JSON.isNull] at hv
      · simpa [decodeString] using hrest cur
      · simpa [decodeString] using hrest _
    · simp only [List.cons_append, decodeMembers, hk, if_false]
      exact hrest cur

theorem unmarshalTicketRef_obj (fields : List (String × JSON)) :
    unmarshalTicketRef (some (.obj fields)) =
      decodeMembers
        (fun (cur : String) key v => if keyMatches key "id" then decodeString cur v else some cur)
        fields "" := rfl

theorem unmarshalTicketRef_of_not_object {j : JSON} (h : j.isObject = false) :
    unmarshalTicketRef (some j) = none ∨ unmarshalTicketRef (some j) = some "" := by
  cases j with
  | null => exact Or.inr rfl
  | bool b => exact Or.inl rfl
  | num l => exact Or.inl rfl
  | str l => exact Or.inl rfl
  | arr l => exact Or.inl rfl
  | obj l => simp [JSON.isObject] at h


/-! ## The presence store: splitting a key -/

/-- The search for a one-character separator passes the characters that differ
from it and stops at its first instance. -/
theorem strings.Index_of_not_mem (ch : Char) (pre rest : List Char) (hpre : ch ∉ pre) :
    strings.Index (pre ++ ch :: rest) [ch] = some pre.length := by
  induction pre with
  | nil => simp [strings.Index, List.isPrefixOf]
  | cons a pre ih =>
    have ha : ch ≠ a := fun h => hpre (by simp [h])
    have hp : ch ∉ pre := fun h => hpre (by simp [h])
    simp [strings.Index, List.isPrefixOf, ha, ih hp]

/-- A string without the separator is not cut. -/
theorem strings.Index_eq_none (ch : Char) (s : List Char) (hs : ch ∉ s) :
    strings.Index s [ch] = none := by
  induction s with
  | nil => simp [strings.Index]
  | cons a s ih =>
    have ha : ch ≠ a := fun h => hs (by simp [h])
    have hp : ch ∉ s := fun h => hs (by simp [h])
    simp [strings.Index, List.isPrefixOf, ha, ih hp]

/-- A string counts at least as many bytes as characters. -/
theorem strings.length_le_len (s : List Char) : s.length ≤ strings.len s := by
  induction s with
  | nil => simp [strings.len]
  | cons a s ih =>
    have := Char.utf8Size_pos a
    simp only [strings.len, String.utf8Len_cons, List.length_cons] at ih ⊢
    omega

/-- A string with two separators, none in its first two fields, is cut by
`genSplit(s, sep, 0, 3)` into its three fields; the third keeps its separators. -/
theorem strings.genSplit_three (ch : Char) (a b c : List Char) (ha : ch ∉ a) (hb : ch ∉ b) :
    strings.genSplit (a ++ ch :: (b ++ ch :: c)) [ch] 3 = [a, b, c] := by
  have hlen : 2 ≤ strings.len (a ++ ch :: (b ++ ch :: c)) := by
    have := strings.length_le_len (a ++ ch :: (b ++ ch :: c))
    simp only [List.length_append, List.length_cons] at this
    omega
  have hclamp : ¬ ((3 : Int) > (strings.len (a ++ ch :: (b ++ ch :: c)) : Int) + 1) := by
    omega
  have hloop : strings.genSplit.loop [ch] 2 (a ++ ch :: (b ++ ch :: c)) = [a, b, c] := by
    simp [strings.genSplit.loop, strings.Index_of_not_mem ch a _ ha,
      strings.Index_of_not_mem ch b _ hb]
  unfold strings.genSplit
  rw [if_neg (by decide), if_neg (by simp)]
  simp only [show ¬ ((3 : Int) < 0) by decide, if_false, if_neg hclamp]
  exact hloop

/-! ## The presence store: keys and listing -/

/-- The characters of the key that `SetPresence` and `RemovePresence` build. -/
theorem presenceKey_toList (tenantID userID : String) :
    ("presence:" ++ tenantID ++ ":" ++ userID).toList =
      "presence".toList ++ ':' :: (tenantID.toList ++ ':' :: userID.toList) := by
  simp only [String.toList, String.data_append]
  simp

/-- `SplitN(key, ":", 3)` of a presence key whose tenant id has no `:`. -/
theorem strings.SplitN_presenceKey (tenantID userID : String) (hT : ':' ∉ tenantID.toList) :
    strings.SplitN ("presence:" ++ tenantID ++ ":" ++ userID) ":" 3 =
      ["presence", tenantID, userID] := by
  unfold strings.SplitN
  rw [presenceKey_toList, show (":" : String).toList = [':'] from rfl,
    strings.genSplit_three ':' _ _ _ (by decide) hT]
  rfl

/-- The loop body of `ListPresence` appends the user id of such a key. -/
theorem redis.Client.ListPresence.visit_presenceKey (agentIDs : List String)
    (tenantID userID : String) (hT : ':' ∉ tenantID.toList) :
    redis.Client.ListPresence.visit agentIDs ("presence:" ++ tenantID ++ ":" ++ userID) =
      agentIDs ++ [userID] := by
  unfold redis.Client.ListPresence.visit
  simp [strings.SplitN_presenceKey tenantID userID hT]

/-- A page of such keys appends its user ids, in the order of the page. -/
theorem redis.Client.ListPresence.foldl_visit_presenceKeys (tenantID : String)
    (hT : ':' ∉ tenantID.toList) (users agentIDs : List String) :
    (users.map (fun u => "presence:" ++ tenantID ++ ":" ++ u)).foldl
        redis.Client.ListPresence.visit agentIDs = agentIDs ++ users := by
  induction users generalizing agentIDs with
  | nil => simp
  | cons u users ih =>
    simp only [List.map_cons, List.foldl_cons]
    rw [redis.Client.ListPresence.visit_presenceKey agentIDs tenantID u hT, ih]
    simp

/-- `ListPresence` against a server that answers with `pages`, page after
page: the loop ends within as many `Scan` calls as pages are left and has
visited every key of them, in order. -/
theorem redis.Client.ListPresence.loop_of_pages (RDB : ScanServer) (pattern : String)
    (pages : List (List String))
    (hRDB : ∀ i, i < pages.length →
      RDB i pattern 100 =
        .ok (pages.getD i [], if i + 1 < pages.length then i + 1 else 0))
    (left : Nat) (cursor fuel : Nat) (agentIDs : List String)
    (hleft : cursor + left = pages.length) (hpos : 0 < left) (hfuel : left ≤ fuel) :
    redis.Client.ListPresence.loop RDB pattern fuel cursor agentIDs =
      some (.ok ((pages.drop cursor).flatten.foldl redis.Client.ListPresence.visit agentIDs)) := by
  induction left generalizing cursor fuel agentIDs with
  | zero => omega
  | succ left ih =>
    obtain ⟨fuel, rfl⟩ : ∃ f, fuel = f + 1 := ⟨fuel - 1, by omega⟩
    have hcur : cursor < pages.length := by omega
    have hdrop : pages.drop cursor = pages.getD cursor [] :: pages.drop (cursor + 1) := by
      rw [List.getD_eq_getElem _ _ hcur]
      exact List.drop_eq_getElem_cons hcur
    unfold redis.Client.ListPresence.loop
    rw [hRDB cursor hcur]
    simp only
    by_cases hlast : cursor + 1 < pages.length
    · rw [if_pos hlast, if_neg (by omega)]
      rw [ih (cursor + 1) fuel _ (by omega) (by omega) (by omega), hdrop]
      simp
    · rw [if_neg hlast, if_pos rfl, hdrop]
      have : pages.drop (cursor + 1) = [] := List.drop_eq_nil_of_le (by omega)
      simp [this]

/-! ## Connections the Hub has not been told of -/

theorem closeAll_maps (cs : List Client) :
    ∀ {h h' : HubState}, closeAll h cs = some h' →
      h'.clients = h.clients ∧ h'.tenants = h.tenants ∧ h'.tickets = h.tickets := by
  induction cs with
  | nil =>
    intro h h' hs
    cases hs
    exact ⟨rfl, rfl, rfl⟩
  | cons c cs ih =>
    intro h h' hs
    unfold closeAll at hs
    split at hs
    · cases hs
    · rename_i h₁ hc
      obtain ⟨_, rfl⟩ := closeChan_eq_some hc
      exact ih (h := { h with send := setFor h.send c { buf := (h.chan c).buf, closed := true } })
        hs

/-- An invariant of the three maps that every case of `Hub.Run` keeps holds
along every run of the system. -/
theorem System.run_maps_invariant_all (P : HubState → Prop)
    (hsend : ∀ (h : HubState) (send : List (Client × Chan)), P h → P { h with send := send })
    (hstep : ∀ (h h' : HubState) (r : Request), P h → Hub.step h r = some h' → P h')
    (evs : List Event) :
    ∀ {s s' : System}, P s.hub → System.run s evs = some s' → P s'.hub := by
  induction evs with
  | nil =>
    intro s s' hp hrun
    cases hrun
    exact hp
  | cons e rest ih =>
    intro s s' hp hrun
    unfold System.run at hrun
    split at hrun
    · cases hrun
    · rename_i s₁ hs
      refine ih ?_ hrun
      cases e with
      | hub r =>
        rw [System.step_hub] at hs
        split at hs
        · split at hs
          · cases hs
          · rename_i h' hstep'
            cases hs
            exact hstep _ _ r hp hstep'
        · cases hs
      | pump d pe =>
        rw [System.step_pump] at hs
        split at hs
        · cases hs
        · cases hs
          exact hsend _ _ hp
      | reply d p =>
        rw [System.step_reply] at hs
        split at hs
        · cases hs
        · cases hs
          exact hp
        · cases hs
          exact hsend _ _ hp

theorem tenantsAgree_step_all {h h' : HubState} (hi : TenantsAgree h) {r : Request}
    (hs : Hub.step h r = some h') : TenantsAgree h' := by
  by_cases hne : r = .shutdown
  · subst hne
    obtain ⟨hc, ht, _⟩ := closeAll_maps _ hs
    exact tenantsAgree_of_eq hi hc ht
  · exact tenantsAgree_step hi hne hs

theorem tenantsAgree_run (evs : List Event) {s : System}
    (hrun : System.run System.start evs = some s) : TenantsAgree s.hub :=
  System.run_maps_invariant_all TenantsAgree (fun _ _ hp => ⟨hp.mem_iff, hp.tenant_of⟩)
    (fun _ _ _ hp hs => tenantsAgree_step_all hp hs) evs tenantsAgree_newHub hrun

/-! ## A connection that joins while registered and is not evicted -/

theorem Hub.deliverAll_keeps (msg : BroadcastMessage) (c : Client) (cs : List Client) :
    ∀ {h h' : HubState}, Hub.deliverAll msg h cs = some h' → Hub.evicts msg c h cs = false →
      c ∈ h.clients → c ∈ h'.clients := by
  induction cs with
  | nil =>
    intro h h' hs _ hc
    cases hs
    exact hc
  | cons x cs ih =>
    intro h h' hs hev hc
    unfold Hub.deliverAll at hs
    split at hs
    · cases hs
    · rename_i h₁ hd
      unfold Hub.evicts at hev
      rw [hd, Bool.or_eq_false_iff] at hev
      obtain ⟨hx, hrest⟩ := hev
      refine ih hs hrest ?_
      rw [(Hub.deliver_members hd).2.1 c]
      refine ⟨hc, ?_⟩
      rintro ⟨rfl, hfull⟩
      have hopen := (Hub.deliver_eq_some hd).1
      have : (h.chan c).trySend msg.Payload = some none := by
        simp [Chan.trySend, hopen, hfull]
      simp [this] at hx

theorem memberRegistered_step {h h' : HubState} {c : Client} (hi : MemberRegistered h c)
    {r : Request}
    (hjoin : ∀ k, r = .joinTicket c k → c ∈ h.clients)
    (hbc : ∀ m, r = .broadcast m → Hub.evicts m c h (Hub.targets h m) = false)
    (hs : Hub.step h r = some h') : MemberRegistered h' c := by
  cases r with
  | register d =>
    cases hs
    intro kv hkv hc
    exact ClientSet.mem_add.mpr (Or.inl (hi kv hkv hc))
  | unregister d =>
    rcases Hub.unregister_eq_some hs with ⟨_, rfl⟩ | ⟨_, _, rfl⟩
    · exact hi
    · intro kv hkv hc
      obtain ⟨room, hroom, he, _⟩ := mem_sweepTickets hkv
      rw [he] at hc
      obtain ⟨hcr, hcd⟩ := ClientSet.mem_remove.mp hc
      exact ClientSet.mem_remove.mpr ⟨hi _ hroom hcr, hcd⟩
  | joinTicket d k =>
    cases hs
    intro kv hkv hc
    rcases RoomIndex.mem_put hkv with hold | rfl
    · exact hi kv hold hc
    · rcases ClientSet.mem_add.mp hc with hc | hc
      · cases hg : h.tickets.get k with
        | none => simp [hg] at hc
        | some room =>
          rw [hg] at hc
          exact hi _ (RoomIndex.mem_of_get hg) hc
      · subst hc
        exact hjoin k rfl
  | leaveTicket d k =>
    cases hs
    intro kv hkv hc
    rcases RoomIndex.mem_leave hkv with hold | ⟨room, hroom, rfl, _⟩
    · exact hi kv hold hc
    · exact hi _ hroom (ClientSet.mem_remove.mp hc).1
  | broadcast msg =>
    intro kv hkv hc
    have ht : h'.tickets = h.tickets := Hub.deliverAll_tickets msg _ hs
    rw [ht] at hkv
    exact Hub.deliverAll_keeps msg c _ hs (hbc msg rfl) (hi kv hkv hc)
  | shutdown =>
    obtain ⟨hc, _, hk⟩ := closeAll_maps _ hs
    intro kv hkv hm
    rw [hk] at hkv
    rw [hc]
    exact hi kv hkv hm

theorem memberRegistered_run (c : Client) (evs : List Event) :
    ∀ {s s' : System}, MemberRegistered s.hub c → System.keeps c s evs = true →
      System.run s evs = some s' → MemberRegistered s'.hub c := by
  induction evs with
  | nil =>
    intro s s' hi _ hrun
    cases hrun
    exact hi
  | cons e rest ih =>
    intro s s' hi hk hrun
    unfold System.keeps at hk
    rw [Bool.and_eq_true] at hk
    obtain ⟨he, hrest⟩ := hk
    unfold System.run at hrun
    split at hrun
    · cases hrun
    · rename_i s₁ hs
      rw [hs] at hrest
      refine ih ?_ hrest hrun
      cases e with
      | hub r =>
        rw [System.step_hub] at hs
        split at hs
        · split at hs
          · cases hs
          · rename_i h' hstep
            cases hs
            refine memberRegistered_step hi ?_ ?_ hstep
            · intro k hr
              subst hr
              simpa using he
            · intro m hr
              subst hr
              simpa using he
        · cases hs
      | pump d pe =>
        rw [System.step_pump] at hs
        split at hs
        · cases hs
        · cases hs
          exact hi
      | reply d p =>
        rw [System.step_reply] at hs
        split at hs
        · cases hs
        · cases hs
          exact hi
        · cases hs
          exact hi

/-! ## The scanner on string literals and numbers -/

theorem scanString_quote (rest acc : List Char) :
    scanString ('"' :: rest) acc = some (acc, rest) := by
  simp [scanString]

theorem scanString_uni (a b c d : Char) (rest acc : List Char) :
    scanString ('\\' :: 'u' :: a :: b :: c :: d :: rest) acc =
      if isHex a && isHex b && isHex c && isHex d then
        scanString rest (acc ++ ['\\', 'u', a, b, c, d])
      else none := by
  simp [scanString]

theorem scanString_esc (e : Char) (rest acc : List Char) (he : isEscape e = true) :
    scanString ('\\' :: e :: rest) acc = scanString rest (acc ++ ['\\', e]) := by
  have h : e = '"' ∨ e = '\\' ∨ e = '/' ∨ e = 'b' ∨ e = 'f' ∨ e = 'n' ∨ e = 'r' ∨ e = 't' := by
    simpa [isEscape, or_assoc] using he
  rcases h with rfl | rfl | rfl | rfl | rfl | rfl | rfl | rfl <;> simp [scanString]

theorem scanString_plain (c : Char) (rest acc : List Char) (hq : c ≠ '"') (hb : c ≠ '\\')
    (hc : ¬ c.toNat < 0x20) :
    scanString (c :: rest) acc = scanString rest (acc ++ [c]) := by
  conv_lhs => unfold scanString
  split
  · rename_i h; cases h
  · rename_i h
    injection h with h _
    exact absurd h hq
  · rename_i h
    injection h with h _
    exact absurd h hb
  · rename_i h
    injection h with h _
    exact absurd h hb
  · rename_i h
    injection h with h1 h2
    subst h1 h2
    simp [hb, hc]

theorem StrLit.scanString_eq {body : List Char} (h : StrLit body) :
    ∀ r acc, scanString (body ++ '"' :: r) acc = some (acc ++ body, r) := by
  induction h with
  | nil =>
    intro r acc
    simp [scanString_quote]
  | plain c rest hq hb hc _ ih =>
    intro r acc
    rw [List.cons_append, scanString_plain c _ _ hq hb hc, ih]
    simp
  | esc e rest he _ ih =>
    intro r acc
    rw [List.cons_append, List.cons_append, scanString_esc e _ _ he, ih]
    simp
  | uni a b c d rest hx _ ih =>
    intro r acc
    simp only [List.cons_append]
    rw [scanString_uni, if_pos hx, ih]
    simp

theorem StrLit.of_scanString (cs acc : List Char) :
    ∀ lit rest, scanString cs acc = some (lit, rest) →
      ∃ body, StrLit body ∧ lit = acc ++ body ∧ cs = body ++ '"' :: rest := by
  induction cs, acc using scanString.induct with
  | case1 acc =>
    intro lit rest h
    simp [scanString] at h
  | case2 rest acc =>
    intro lit rest' h
    rw [scanString_quote] at h
    cases h
    exact ⟨[], .nil, by simp, by simp⟩
  | case3 a b c d rest acc hx ih =>
    intro lit rest' h
    rw [scanString_uni, if_pos hx] at h
    obtain ⟨body, hb, hl, hc⟩ := ih lit rest' h
    exact ⟨'\\' :: 'u' :: a :: b :: c :: d :: body, .uni a b c d body hx hb, by simp [hl],
      by simp [hc]⟩
  | case4 a b c d rest acc hx =>
    intro lit rest' h
    rw [scanString_uni, if_neg hx] at h
    cases h
  | case5 e rest acc hne he ih =>
    intro lit rest' h
    rw [scanString_esc e rest acc he] at h
    obtain ⟨body, hb, hl, hc⟩ := ih lit rest' h
    exact ⟨'\\' :: e :: body, .esc e body he hb, by simp [hl], by simp [hc]⟩
  | case6 e rest acc hne he =>
    intro lit rest' h
    exfalso
    unfold scanString at h
    split at h
    · rename_i h'; cases h'
    · rename_i h'; cases h'
    · rename_i h'
      injection h' with _ h'
      injection h' with h1 h2
      exact hne _ _ _ _ _ h1 h2
    · rename_i h'
      injection h' with _ h'
      injection h' with h1 h2
      subst h1 h2
      simp [he] at h
    · rename_i h'
      injection h' with h1 h2
      subst h1 h2
      simp at h
  | case7 c rest acc hq h1 h2 hbad =>
    intro lit rest' h
    exfalso
    unfold scanString at h
    split at h
    · rename_i h'; cases h'
    · rename_i h'
      injection h' with h' _
      exact hq h'
    · rename_i h'
      injection h' with h1' h2'
      exact h1 _ _ _ _ _ h1' h2'
    · rename_i h'
      injection h' with h1' h2'
      exact h2 _ _ h1' h2'
    · rename_i h'
      injection h' with h1' h2'
      subst h1' h2'
      simp [hbad] at h
  | case8 c rest acc hq h1 h2 hgood ih =>
    intro lit rest' h
    have hb : c ≠ '\\' := by
      intro hc
      simp [hc] at hgood
    have hc : ¬ c.toNat < 0x20 := by
      intro hc
      simp [hc] at hgood
    rw [scanString_plain c rest acc hq hb hc] at h
    obtain ⟨body, hbody, hl, hcs⟩ := ih lit rest' h
    exact ⟨c :: body, .plain c body hq hb hc hbody, by simp [hl], by simp [hcs]⟩

theorem takeDigits_fst_digits (cs : List Char) : ∀ c ∈ (takeDigits cs).1, isDigit c = true := by
  induction cs with
  | nil => simp [takeDigits]
  | cons a cs ih =>
    unfold takeDigits
    split
    · rename_i ha
      intro c hc
      simp only [List.cons_eq_cons, List.mem_cons] at hc
      rcases hc with rfl | hc
      · exact ha
      · exact ih c hc
    · simp

theorem takeDigits_append_of (ds r : List Char) (hd : ∀ c ∈ ds, isDigit c = true)
    (hr : ∀ c t, r = c :: t → isDigit c = false) : takeDigits (ds ++ r) = (ds, r) := by
  induction ds with
  | nil =>
    cases r with
    | nil => rfl
    | cons c r =>
      have hc : isDigit c = false := hr c r rfl
      simp [takeDigits, hc]
  | cons a ds ih =>
    have ha := hd a (List.mem_cons_self _ _)
    have := ih (fun c hc => hd c (List.mem_cons_of_mem _ hc))
    simp [takeDigits, ha, this]

theorem isTerm_head {r : List Char} (hr : isTerm r = true) :
    ∀ c t, r = c :: t → c = ',' ∨ c = ']' ∨ c = '\x7d' := by
  intro c t h
  subst h
  simpa [isTerm, or_assoc] using hr

theorem takeDigits_append (ds r : List Char) (hd : ∀ c ∈ ds, isDigit c = true)
    (hr : isTerm r = true) : takeDigits (ds ++ r) = (ds, r) := by
  refine takeDigits_append_of ds r hd ?_
  intro c t h
  rcases isTerm_head hr c t h with rfl | rfl | rfl <;> decide

theorem scanExponent_spec (acc cs lit rest : List Char)
    (h : scanExponent acc cs = some (lit, rest)) :
    ∃ ex, lit = acc ++ ex ∧ (ex = [] ∨ ∃ e t, ex = e :: t ∧ (e = 'e' ∨ e = 'E')) ∧
      ∀ acc' r, isTerm r = true → scanExponent acc' (ex ++ r) = some (acc' ++ ex, r) := by
  have hnil : ∀ acc' r, isTerm r = true → scanExponent acc' ([] ++ r) = some (acc' ++ [], r) := by
    intro acc' r hr
    cases r with
    | nil => simp [scanExponent]
    | cons c r =>
      simp only [isTerm, Bool.or_eq_true, decide_eq_true_eq] at hr
      rcases hr with (rfl | rfl) | rfl <;> simp [scanExponent]
  unfold scanExponent at h
  split at h
  · rename_i e rest₀
    split at h
    · rename_i he
      split at h
      · rename_i s rest'
        split at h
        · rename_i hs
          simp only at h
          split at h
          · cases h
          · rename_i hne
            cases h
            refine ⟨e :: s :: (takeDigits rest').1, rfl, Or.inr ⟨e, _, rfl, by simpa using he⟩, ?_⟩
            intro acc' r hr
            have htd := takeDigits_append _ r (takeDigits_fst_digits rest') hr
            simp only [List.cons_append, scanExponent, he, hs, if_true, htd]
            simp [hne]
        · rename_i hs
          simp only at h
          split at h
          · cases h
          · rename_i hne
            cases h
            refine ⟨e :: (takeDigits (s :: rest')).1, rfl, Or.inr ⟨e, _, rfl, by simpa using he⟩, ?_⟩
            intro acc' r hr
            have hdig := takeDigits_fst_digits (s :: rest')
            have htd := takeDigits_append _ r hdig hr
            cases hds : (takeDigits (s :: rest')).1 with
            | nil => simp [hds] at hne
            | cons d ds =>
              rw [hds] at htd hdig
              have hd : isDigit d = true := hdig d (List.mem_cons_self _ _)
              have hsign : ¬ (d = '+' ∨ d = '-') := by
                rintro (rfl | rfl) <;> simp [isDigit] at hd
              simp only [List.cons_append] at htd
              simp only [List.cons_append, scanExponent, he, if_true]
              simp [hsign, htd]
      · cases h
    · cases h
      exact ⟨[], by simp, Or.inl rfl, hnil⟩
  · cases h
    exact ⟨[], by simp, Or.inl rfl, hnil⟩

theorem exponent_head {ex r : List Char}
    (hex : ex = [] ∨ ∃ e t, ex = e :: t ∧ (e = 'e' ∨ e = 'E')) (hr : isTerm r = true) :
    ∀ c t, ex ++ r = c :: t → isDigit c = false ∧ c ≠ '.' := by
  intro c t h
  rcases hex with rfl | ⟨e, t', rfl, he⟩
  · rcases isTerm_head hr c t h with rfl | rfl | rfl <;> exact ⟨by decide, by decide⟩
  · simp only [List.cons_append, List.cons.injEq] at h
    obtain ⟨rfl, _⟩ := h
    rcases he with rfl | rfl <;> exact ⟨by decide, by decide⟩

theorem scanFraction_spec (acc cs lit rest : List Char)
    (h : scanFraction acc cs = some (lit, rest)) :
    ∃ fr, lit = acc ++ fr ∧
      (fr = [] ∨ ∃ e t, fr = e :: t ∧ (e = 'e' ∨ e = 'E' ∨ e = '.')) ∧
      ∀ acc' r, isTerm r = true → scanFraction acc' (fr ++ r) = some (acc' ++ fr, r) := by
  unfold scanFraction at h
  split at h
  · rename_i rest₀
    simp only at h
    split at h
    · cases h
    · rename_i hne
      obtain ⟨ex, hl, hhead, hex⟩ := scanExponent_spec _ _ _ _ h
      refine ⟨'.' :: (takeDigits rest₀).1 ++ ex, by simp [hl], Or.inr ⟨'.', _, rfl, by simp⟩, ?_⟩
      intro acc' r hr
      have hdig := takeDigits_fst_digits rest₀
      have htd : takeDigits ((takeDigits rest₀).1 ++ (ex ++ r)) =
          ((takeDigits rest₀).1, ex ++ r) :=
        takeDigits_append_of _ _ hdig (fun c t hc => (exponent_head hhead hr c t hc).1)
      simp only [List.cons_append, List.append_assoc, scanFraction, htd]
      simp [hne, hex _ r hr]
  · rename_i hdot
    obtain ⟨ex, hl, hhead, hex⟩ := scanExponent_spec _ _ _ _ h
    refine ⟨ex, hl, ?_, ?_⟩
    · rcases hhead with h0 | ⟨e, t, h1, h2⟩
      · exact Or.inl h0
      · exact Or.inr ⟨e, t, h1, by tauto⟩
    · intro acc' r hr
      unfold scanFraction
      split
      · rename_i rest₁ hc
        exact absurd rfl (exponent_head hhead hr _ _ hc).2
      · exact hex acc' r hr

theorem scanNumber_nil : scanNumber [] = none := by
  simp [scanNumber]

theorem scanNumber_neg_nil : scanNumber ['-'] = none := by
  simp [scanNumber]

theorem scanNumber_neg (d : Char) (rest : List Char) :
    scanNumber ('-' :: d :: rest) =
      if d = '0' then scanFraction (['-'] ++ ['0']) rest
      else if '1' ≤ d && d ≤ '9' then
        scanFraction (['-'] ++ d :: (takeDigits rest).1) (takeDigits rest).2
      else none := by
  simp [scanNumber]

theorem scanNumber_pos (d : Char) (rest : List Char) (hd : d ≠ '-') :
    scanNumber (d :: rest) =
      if d = '0' then scanFraction ([] ++ ['0']) rest
      else if '1' ≤ d && d ≤ '9' then
        scanFraction ([] ++ d :: (takeDigits rest).1) (takeDigits rest).2
      else none := by
  unfold scanNumber
  split
  · rename_i h
    injection h with h _
    exact absurd h hd
  · simp

theorem fraction_head {fr r : List Char}
    (hfr : fr = [] ∨ ∃ e t, fr = e :: t ∧ (e = 'e' ∨ e = 'E' ∨ e = '.')) (hr : isTerm r = true) :
    ∀ c t, fr ++ r = c :: t → isDigit c = false := by
  intro c t h
  rcases hfr with rfl | ⟨e, t', rfl, he⟩
  · rcases isTerm_head hr c t h with rfl | rfl | rfl <;> decide
  · simp only [List.cons_append, List.cons.injEq] at h
    obtain ⟨rfl, _⟩ := h
    rcases he with rfl | rfl | rfl <;> decide

theorem digits_spec (sign : List Char) (d : Char) (rest lit rest' : List Char)
    (h : (if d = '0' then scanFraction (sign ++ ['0']) rest
      else if '1' ≤ d && d ≤ '9' then
        scanFraction (sign ++ d :: (takeDigits rest).1) (takeDigits rest).2
      else none) = some (lit, rest')) :
    isDigit d = true ∧
    ∃ body, lit = sign ++ d :: body ∧
      ∀ sign' r, isTerm r = true →
        (if d = '0' then scanFraction (sign' ++ ['0']) (body ++ r)
         else if '1' ≤ d && d ≤ '9' then
          scanFraction (sign' ++ d :: (takeDigits (body ++ r)).1) (takeDigits (body ++ r)).2
         else none) = some (sign' ++ d :: body, r) := by
  split at h
  · rename_i h0
    subst h0
    obtain ⟨fr, hl, _, hfr⟩ := scanFraction_spec _ _ _ _ h
    refine ⟨by decide, fr, by simp [hl], ?_⟩
    intro sign' r hr
    simp [hfr _ r hr]
  · rename_i h0
    split at h
    · rename_i h19
      obtain ⟨fr, hl, hhead, hfr⟩ := scanFraction_spec _ _ _ _ h
      have hd : isDigit d = true := by
        simp only [Bool.and_eq_true, decide_eq_true_eq] at h19
        simp only [isDigit, Bool.and_eq_true, decide_eq_true_eq]
        exact ⟨le_trans (by decide) h19.1, h19.2⟩
      refine ⟨hd, (takeDigits rest).1 ++ fr, by simp [hl], ?_⟩
      intro sign' r hr
      have htd : takeDigits ((takeDigits rest).1 ++ fr ++ r) = ((takeDigits rest).1, fr ++ r) := by
        rw [List.append_assoc]
        exact takeDigits_append_of _ _ (takeDigits_fst_digits rest) (fraction_head hhead hr)
      rw [if_neg h0, if_pos h19, htd]
      simp only
      rw [hfr _ r hr]
      simp
    · cases h

theorem NumLit.of_scanNumber (cs lit rest : List Char) (h : scanNumber cs = some (lit, rest)) :
    NumLit lit := by
  cases cs with
  | nil => simp [scanNumber_nil] at h
  | cons c cs =>
    by_cases hc : c = '-'
    · subst hc
      cases cs with
      | nil => simp [scanNumber_neg_nil] at h
      | cons d rest₀ =>
        rw [scanNumber_neg] at h
        obtain ⟨hd, body, hl, hre⟩ := digits_spec ['-'] d rest₀ lit rest h
        refine ⟨⟨'-', d :: body, by simp [hl], Or.inl rfl⟩, ?_⟩
        intro r hr
        rw [hl]
        simp only [List.cons_append, List.nil_append, List.singleton_append]
        rw [scanNumber_neg]
        have := hre ['-'] r hr
        simpa using this
    · rw [scanNumber_pos c cs hc] at h
      obtain ⟨hd, body, hl, hre⟩ := digits_spec [] c cs lit rest h
      refine ⟨⟨c, body, by simp [hl], Or.inr hd⟩, ?_⟩
      intro r hr
      rw [hl]
      simp only [List.cons_append, List.nil_append]
      rw [scanNumber_pos c _ hc]
      have := hre [] r hr
      simpa using this

/-! ## Escaping keeps a string literal a string literal -/

theorem escapeHTMLChar_of_kept {c : Char} (h : keptByCompact c = true) :
    escapeHTMLChar c = [c] := by
  simp only [keptByCompact, Bool.not_eq_true', Bool.or_eq_false_iff, decide_eq_false_iff_not] at h
  obtain ⟨⟨⟨⟨h1, h2⟩, h3⟩, h4⟩, h5⟩ := h
  simp [escapeHTMLChar, h1, h2, h3, h4, h5]

theorem keptByCompact_of_toNat_lt {c : Char} (h : c.toNat < 0x2028)
    (h1 : c ≠ '<') (h2 : c ≠ '>') (h3 : c ≠ '&') : keptByCompact c = true := by
  have h4 : c.toNat ≠ 0x2028 := by omega
  have h5 : c.toNat ≠ 0x2029 := by omega
  simp [keptByCompact, h1, h2, h3, h4, h5]

theorem isHex_toNat {c : Char} (h : isHex c = true) : c.toNat < 128 := by
  simp only [isHex, isDigit, Bool.or_eq_true, Bool.and_eq_true, decide_eq_true_eq] at h
  have e9 : ('9' : Char).toNat = 57 := rfl
  have ef : ('f' : Char).toNat = 102 := rfl
  have eF : ('F' : Char).toNat = 70 := rfl
  rcases h with (⟨_, h⟩ | ⟨_, h⟩) | ⟨_, h⟩
  · have : c.toNat ≤ ('9' : Char).toNat := h
    omega
  · have : c.toNat ≤ ('f' : Char).toNat := h
    omega
  · have : c.toNat ≤ ('F' : Char).toNat := h
    omega

theorem keptByCompact_of_isHex {c : Char} (h : isHex c = true) : keptByCompact c = true := by
  refine keptByCompact_of_toNat_lt (by have := isHex_toNat h; omega) ?_ ?_ ?_ <;>
    (intro hc; subst hc; simp [isHex, isDigit] at h)

theorem keptByCompact_of_isEscape {e : Char} (h : isEscape e = true) :
    keptByCompact e = true := by
  have h' : e = '"' ∨ e = '\\' ∨ e = '/' ∨ e = 'b' ∨ e = 'f' ∨ e = 'n' ∨ e = 'r' ∨ e = 't' := by
    simpa [isEscape, or_assoc] using h
  rcases h' with rfl | rfl | rfl | rfl | rfl | rfl | rfl | rfl <;> decide

theorem StrLit.cons_escaped (c : Char) (rest : List Char) (hq : c ≠ '"') (hb : c ≠ '\\')
    (hc : ¬ c.toNat < 0x20) (h : StrLit rest) : StrLit (TicketHacker.escapeHTMLChar c ++ rest) := by
  unfold TicketHacker.escapeHTMLChar
  split
  · rename_i hs
    simp only [Bool.or_eq_true, decide_eq_true_eq] at hs
    rcases hs with (rfl | rfl) | rfl <;> exact .uni _ _ _ _ rest (by decide) h
  · split
    · rename_i hs
      simp only [Bool.or_eq_true, decide_eq_true_eq] at hs
      rcases hs with hs | hs <;> rw [hs] <;> exact .uni _ _ _ _ rest (by decide) h
    · exact .plain c rest hq hb hc h

theorem StrLit.flatMap_escaped {body : List Char} (h : StrLit body) :
    StrLit (body.flatMap TicketHacker.escapeHTMLChar) := by
  induction h with
  | nil => exact .nil
  | plain c rest hq hb hc _ ih =>
    rw [List.flatMap_cons]
    exact StrLit.cons_escaped c _ hq hb hc ih
  | esc e rest he _ ih =>
    rw [List.flatMap_cons, List.flatMap_cons,
      escapeHTMLChar_of_kept (show keptByCompact '\\' = true by decide),
      escapeHTMLChar_of_kept (keptByCompact_of_isEscape he)]
    exact .esc e _ he ih
  | uni a b c d rest hx _ ih =>
    simp only [Bool.and_eq_true] at hx
    obtain ⟨⟨⟨ha, hb⟩, hc⟩, hd⟩ := hx
    simp only [List.flatMap_cons,
      escapeHTMLChar_of_kept (show keptByCompact '\\' = true by decide),
      escapeHTMLChar_of_kept (show keptByCompact 'u' = true by decide),
      escapeHTMLChar_of_kept (keptByCompact_of_isHex ha),
      escapeHTMLChar_of_kept (keptByCompact_of_isHex hb),
      escapeHTMLChar_of_kept (keptByCompact_of_isHex hc),
      escapeHTMLChar_of_kept (keptByCompact_of_isHex hd)]
    exact .uni a b c d _ (by simp [ha, hb, hc, hd]) ih

theorem flatMap_escapeHTMLChar_of_kept (cs : List Char) (h : cs.all keptByCompact = true) :
    cs.flatMap escapeHTMLChar = cs := by
  induction cs with
  | nil => rfl
  | cons c cs ih =>
    simp only [List.all_cons, Bool.and_eq_true] at h
    rw [List.flatMap_cons, escapeHTMLChar_of_kept h.1, ih h.2]
    rfl

/-! ## One step of the parser -/

theorem skipSpace_cons_of_not_space {c : Char} (t : List Char) (h : isSpace c = false) :
    skipSpace (c :: t) = c :: t := by
  simp [skipSpace, h]

set_option maxHeartbeats 4000000 in
theorem parseValue_str (f d : Nat) (rest lit rest' : List Char)
    (h : scanString rest [] = some (lit, rest')) :
    parseValue (f + 1) d ('"' :: rest) = some (.str (String.mk lit), rest') := by
  unfold parseValue
  simp only [h]

theorem parseValue_null (f d : Nat) (r : List Char) :
    parseValue (f + 1) d ('n' :: 'u' :: 'l' :: 'l' :: r) = some (.null, r) := by
  unfold parseValue
  rfl

theorem parseValue_true (f d : Nat) (r : List Char) :
    parseValue (f + 1) d ('t' :: 'r' :: 'u' :: 'e' :: r) = some (.bool true, r) := by
  unfold parseValue
  rfl

theorem parseValue_false (f d : Nat) (r : List Char) :
    parseValue (f + 1) d ('f' :: 'a' :: 'l' :: 's' :: 'e' :: r) = some (.bool false, r) := by
  unfold parseValue
  rfl

theorem parseValue_arr_nil (f d : Nat) (r : List Char) (hd : d < maxNestingDepth) :
    parseValue (f + 1) d ('[' :: ']' :: r) = some (.arr [], r) := by
  have : ¬ d ≥ maxNestingDepth := by omega
  unfold parseValue
  simp only [this, if_false, skipSpace_cons_of_not_space r (show isSpace ']' = false by decide)]

theorem parseValue_arr_cons (f d : Nat) (c : Char) (t : List Char) (hd : d < maxNestingDepth)
    (hs : isSpace c = false) (hc : c ≠ ']') :
    parseValue (f + 1) d ('[' :: c :: t) = parseElems f (d + 1) (c :: t) [] := by
  have : ¬ d ≥ maxNestingDepth := by omega
  unfold parseValue
  simp only [this, if_false, skipSpace_cons_of_not_space t hs]
  split
  · rename_i h
    injection h with h _
    exact absurd h hc
  · rfl

theorem parseValue_obj_nil (f d : Nat) (r : List Char) (hd : d < maxNestingDepth) :
    parseValue (f + 1) d ('\x7b' :: '\x7d' :: r) = some (.obj [], r) := by
  have : ¬ d ≥ maxNestingDepth := by omega
  unfold parseValue
  simp only [this, if_false, skipSpace_cons_of_not_space r (show isSpace '\x7d' = false by decide)]

theorem parseValue_obj_cons (f d : Nat) (c : Char) (t : List Char) (hd : d < maxNestingDepth)
    (hs : isSpace c = false) (hc : c ≠ '\x7d') :
    parseValue (f + 1) d ('\x7b' :: c :: t) = parseMembers f (d + 1) (c :: t) [] := by
  have : ¬ d ≥ maxNestingDepth := by omega
  unfold parseValue
  simp only [this, if_false, skipSpace_cons_of_not_space t hs]
  split
  · rename_i h
    injection h with h _
    exact absurd h hc
  · rfl

theorem parseValue_num (f d : Nat) (c : Char) (t lit rest : List Char)
    (hc : c = '-' ∨ isDigit c = true) (h : scanNumber (c :: t) = some (lit, rest)) :
    parseValue (f + 1) d (c :: t) = some (.num (String.mk lit), rest) := by
  have hne : ∀ x : Char, x ≠ '-' → isDigit x = false → c ≠ x := by
    intro x h1 h2 h
    subst h
    rcases hc with hc | hc
    · exact h1 hc
    · rw [h2] at hc
      cases hc
  unfold parseValue
  split
  · rename_i h; injection h with h _; exact absurd h (hne _ (by decide) (by decide))
  · rename_i h; injection h with h _; exact absurd h (hne _ (by decide) (by decide))
  · rename_i h; injection h with h _; exact absurd h (hne _ (by decide) (by decide))
  · rename_i h; injection h with h _; exact absurd h (hne _ (by decide) (by decide))
  · rename_i h; injection h with h _; exact absurd h (hne _ (by decide) (by decide))
  · rename_i h; injection h with h _; exact absurd h (hne _ (by decide) (by decide))
  · simp only [h]

theorem parseElems_last (f d : Nat) (acc : List JSON) (txt r : List Char) (v : JSON)
    (h : parseValue f d txt = some (v, ']' :: r)) :
    parseElems (f + 1) d txt acc = some (.arr (acc ++ [v]), r) := by
  rw [parseElems.eq_2]
  simp only [h, skipSpace_cons_of_not_space r (show isSpace ']' = false by decide)]

theorem parseElems_more (f d : Nat) (acc : List JSON) (txt t : List Char) (c : Char) (v : JSON)
    (h : parseValue f d txt = some (v, ',' :: c :: t)) (hs : isSpace c = false) :
    parseElems (f + 1) d txt acc = parseElems f d (c :: t) (acc ++ [v]) := by
  rw [parseElems.eq_2]
  simp only [h, skipSpace_cons_of_not_space _ (show isSpace ',' = false by decide),
    skipSpace_cons_of_not_space t hs]

theorem parseMembers_last (f d : Nat) (acc : List (String × JSON)) (rest key txt r : List Char)
    (c : Char) (v : JSON)
    (hk : scanString rest [] = some (key, ':' :: c :: txt)) (hs : isSpace c = false)
    (h : parseValue f d (c :: txt) = some (v, '\x7d' :: r)) :
    parseMembers (f + 1) d ('"' :: rest) acc = some (.obj (acc ++ [(String.mk key, v)]), r) := by
  rw [parseMembers.eq_2]
  simp only [hk, skipSpace_cons_of_not_space _ (show isSpace ':' = false by decide),
    skipSpace_cons_of_not_space txt hs, h,
    skipSpace_cons_of_not_space r (show isSpace '\x7d' = false by decide)]

theorem parseMembers_more (f d : Nat) (acc : List (String × JSON)) (rest key txt t : List Char)
    (c c' : Char) (v : JSON)
    (hk : scanString rest [] = some (key, ':' :: c :: txt)) (hs : isSpace c = false)
    (h : parseValue f d (c :: txt) = some (v, ',' :: c' :: t)) (hs' : isSpace c' = false) :
    parseMembers (f + 1) d ('"' :: rest) acc =
      parseMembers f d (c' :: t) (acc ++ [(String.mk key, v)]) := by
  rw [parseMembers.eq_2]
  simp only [hk, skipSpace_cons_of_not_space _ (show isSpace ':' = false by decide),
    skipSpace_cons_of_not_space txt hs, h,
    skipSpace_cons_of_not_space _ (show isSpace ',' = false by decide),
    skipSpace_cons_of_not_space t hs']

/-! ## The parser reads compact text back -/

theorem JSON.compactElems_single (v : JSON) : JSON.compactElems [v] = v.compact := by
  rw [JSON.compactElems]

theorem JSON.compactElems_cons (v w : JSON) (ws : List JSON) :
    JSON.compactElems (v :: w :: ws) = v.compact ++ ',' :: JSON.compactElems (w :: ws) := by
  rw [JSON.compactElems]
  intro h
  cases h

theorem JSON.compactFields_single (k : String) (v : JSON) :
    JSON.compactFields [(k, v)] = '"' :: escapeHTML k ++ '"' :: ':' :: v.compact := by
  rw [JSON.compactFields]

theorem JSON.compactFields_cons (k : String) (v : JSON) (kw : String × JSON)
    (ws : List (String × JSON)) :
    JSON.compactFields ((k, v) :: kw :: ws) =
      '"' :: escapeHTML k ++ '"' :: ':' :: v.compact ++ ',' :: JSON.compactFields (kw :: ws) := by
  rw [JSON.compactFields]
  intro h
  cases h

theorem JSON.WF.compact_head {v : JSON} (h : v.WF) :
    ∃ c t, v.compact = c :: t ∧ isSpace c = false ∧ c ≠ ']' ∧ c ≠ '\x7d' := by
  cases h with
  | null => exact ⟨'n', _, by rw [JSON.compact]; rfl, by decide, by decide, by decide⟩
  | bool b =>
    cases b
    · exact ⟨'f', _, by rw [JSON.compact]; rfl, by decide, by decide, by decide⟩
    · exact ⟨'t', _, by rw [JSON.compact]; rfl, by decide, by decide, by decide⟩
  | num lit hn =>
    obtain ⟨⟨c, t, hl, hc⟩, _⟩ := hn
    refine ⟨c, t, by rw [JSON.compact]; exact hl, ?_, ?_, ?_⟩
    · rcases hc with rfl | hc
      · decide
      · cases hs : isSpace c
        · rfl
        · simp only [isSpace, Bool.or_eq_true, decide_eq_true_eq] at hs
          rcases hs with ((rfl | rfl) | rfl) | rfl <;> simp [isDigit] at hc
    · rintro rfl
      rcases hc with hc | hc
      · cases hc
      · simp [isDigit] at hc
    · rintro rfl
      rcases hc with hc | hc
      · cases hc
      · simp [isDigit] at hc
  | str lit _ =>
    exact ⟨'"', _, by rw [JSON.compact]; rfl, by decide, by decide, by decide⟩
  | arr elems _ =>
    exact ⟨'[', _, by rw [JSON.compact]; rfl, by decide, by decide, by decide⟩
  | obj fields _ _ =>
    exact ⟨'\x7b', _, by rw [JSON.compact]; rfl, by decide, by decide, by decide⟩


theorem JSON.escapedElems_eq_map (elems : List JSON) :
    JSON.escapedElems elems = elems.map JSON.escaped := by
  induction elems with
  | nil => rw [JSON.escapedElems]; rfl
  | cons v rest ih => rw [JSON.escapedElems, ih]; rfl

theorem JSON.compactElems_head {w : JSON} (ws : List JSON) (hw : w.WF) :
    ∃ c t, JSON.compactElems (w :: ws) = c :: t ∧ isSpace c = false ∧ c ≠ ']' ∧ c ≠ '\x7d' := by
  obtain ⟨c, t, hc, h1, h2, h3⟩ := hw.compact_head
  cases ws with
  | nil => exact ⟨c, t, by rw [JSON.compactElems_single, hc], h1, h2, h3⟩
  | cons x xs => exact ⟨c, _, by rw [JSON.compactElems_cons, hc]; rfl, h1, h2, h3⟩

/-- The elements of an array that the parser reads back, one after the other. -/
theorem parseElems_compact (elems : List JSON) :
    ∀ (d : Nat) (r : List Char) (acc : List JSON) (f : Nat), elems ≠ [] →
      (∀ e ∈ elems, e.WF) →
      (∀ e ∈ elems, ∀ (r : List Char) (f : Nat), isTerm r = true → e.need ≤ f →
        parseValue f d (e.compact ++ r) = some (e.escaped, r)) →
      JSON.needElems elems ≤ f →
      parseElems f d (JSON.compactElems elems ++ ']' :: r) acc =
        some (.arr (acc ++ JSON.escapedElems elems), r) := by
  induction elems with
  | nil => intro d r acc f h; exact absurd rfl h
  | cons v rest ih =>
    intro d r acc f _ hwf hp hf
    rw [JSON.needElems] at hf
    obtain ⟨f, rfl⟩ : ∃ f', f = f' + 1 := ⟨f - 1, by omega⟩
    have hv := hp v (List.mem_cons_self _ _)
    cases rest with
    | nil =>
      rw [JSON.compactElems_single, JSON.escapedElems, JSON.escapedElems]
      exact parseElems_last f d acc _ r _ (hv (']' :: r) f rfl (by omega))
    | cons w ws =>
      obtain ⟨c, t, hc, hs, _, _⟩ := JSON.compactElems_head ws (hwf w (by simp))
      have hrest := ih d r (acc ++ [v.escaped]) f (by simp)
        (fun e he => hwf e (List.mem_cons_of_mem _ he))
        (fun e he => hp e (List.mem_cons_of_mem _ he)) (by omega)
      rw [hc] at hrest
      rw [JSON.compactElems_cons, hc, JSON.escapedElems]
      have hpv := hv (',' :: c :: (t ++ ']' :: r)) f rfl (by omega)
      rw [List.append_assoc]
      simp only [List.cons_append] at hpv hrest ⊢
      rw [parseElems_more f d acc _ _ c _ hpv hs, hrest]
      simp

theorem isTerm_comma (r : List Char) : isTerm (',' :: r) = true := rfl

theorem isTerm_bracket (r : List Char) : isTerm (']' :: r) = true := rfl

theorem isTerm_brace (r : List Char) : isTerm ('\x7d' :: r) = true := rfl

theorem scanString_key {k : String} (hk : StrLit k.toList) (r : List Char) :
    scanString (escapeHTML k ++ '"' :: r) [] = some (escapeHTML k, r) := by
  have := (StrLit.flatMap_escaped hk).scanString_eq r []
  simpa [escapeHTML] using this

/-- The members of an object that the parser reads back, one after the other. -/
theorem parseMembers_compact (fields : List (String × JSON)) :
    ∀ (d : Nat) (r : List Char) (acc : List (String × JSON)) (f : Nat), fields ≠ [] →
      (∀ kv ∈ fields, StrLit kv.1.toList) →
      (∀ kv ∈ fields, kv.2.WF) →
      (∀ kv ∈ fields, ∀ (r : List Char) (f : Nat), isTerm r = true → kv.2.need ≤ f →
        parseValue f d (kv.2.compact ++ r) = some (kv.2.escaped, r)) →
      JSON.needFields fields ≤ f →
      parseMembers f d (JSON.compactFields fields ++ '\x7d' :: r) acc =
        some (.obj (acc ++ JSON.escapedFields fields), r) := by
  induction fields with
  | nil => intro d r acc f h; exact absurd rfl h
  | cons kv rest ih =>
    obtain ⟨k, v⟩ := kv
    intro d r acc f _ hkeys hwf hp hf
    rw [JSON.needFields] at hf
    obtain ⟨f, rfl⟩ : ∃ f', f = f' + 1 := ⟨f - 1, by omega⟩
    have hk : StrLit k.toList := hkeys (k, v) (List.mem_cons_self _ _)
    have hv := hp (k, v) (List.mem_cons_self _ _)
    obtain ⟨c, t, hc, hs, _, _⟩ := (hwf (k, v) (List.mem_cons_self _ _)).compact_head
    simp only at hv hc
    cases rest with
    | nil =>
      rw [JSON.compactFields_single, JSON.escapedFields, JSON.escapedFields]
      have hpv := hv ('\x7d' :: r) f rfl (by omega)
      rw [hc] at hpv ⊢
      simp only [List.cons_append, List.append_assoc] at hpv ⊢
      exact parseMembers_last f d acc _ _ _ r c _ (scanString_key hk _) hs hpv
    | cons kw ws =>
      obtain ⟨k', w⟩ := kw
      have hrest := ih d r (acc ++ [(String.mk (escapeHTML k), v.escaped)]) f (by simp)
        (fun e he => hkeys e (List.mem_cons_of_mem _ he))
        (fun e he => hwf e (List.mem_cons_of_mem _ he))
        (fun e he => hp e (List.mem_cons_of_mem _ he)) (by omega)
      have hhead : ∃ t', JSON.compactFields ((k', w) :: ws) = '"' :: t' := by
        cases ws with
        | nil => exact ⟨_, by rw [JSON.compactFields_single]; rfl⟩
        | cons x xs =>
          obtain ⟨k'', x'⟩ := x
          exact ⟨_, by rw [JSON.compactFields_cons]; rfl⟩
      obtain ⟨t', ht'⟩ := hhead
      rw [ht'] at hrest
      rw [JSON.compactFields_cons, ht', JSON.escapedFields]
      have hpv := hv (',' :: '"' :: (t' ++ '\x7d' :: r)) f rfl (by omega)
      rw [hc] at hpv ⊢
      simp only [List.cons_append, List.append_assoc] at hpv hrest ⊢
      rw [parseMembers_more f d acc _ _ _ _ c '"' _ (scanString_key hk _) hs hpv (by decide),
        hrest]
      simp

theorem JSON.nesting_le_nestingElems (elems : List JSON) :
    ∀ e ∈ elems, e.nesting ≤ JSON.nestingElems elems := by
  induction elems with
  | nil => intro e he; cases he
  | cons v rest ih =>
    intro e he
    rw [JSON.nestingElems]
    rcases List.mem_cons.mp he with rfl | he
    · exact Nat.le_max_left _ _
    · exact le_trans (ih e he) (Nat.le_max_right _ _)

theorem JSON.nesting_le_nestingFields (fields : List (String × JSON)) :
    ∀ kv ∈ fields, kv.2.nesting ≤ JSON.nestingFields fields := by
  induction fields with
  | nil => intro e he; cases he
  | cons kv rest ih =>
    obtain ⟨k, v⟩ := kv
    intro e he
    rw [JSON.nestingFields]
    rcases List.mem_cons.mp he with rfl | he
    · exact Nat.le_max_left _ _
    · exact le_trans (ih e he) (Nat.le_max_right _ _)

theorem JSON.one_le_need (v : JSON) : 1 ≤ v.need := by
  cases v <;> simp [JSON.need]

/-- The parser reads the compact text of a value back: the value it returns is
the value with its string literals escaped. -/
theorem JSON.WF.parse_compact {v : JSON} (h : v.WF) :
    ∀ (d : Nat) (r : List Char) (f : Nat), d + v.nesting ≤ maxNestingDepth →
      isTerm r = true → v.need ≤ f →
      parseValue f d (v.compact ++ r) = some (v.escaped, r) := by
  induction h with
  | null =>
    intro d r f _ _ hf
    have := JSON.one_le_need .null
    obtain ⟨f, rfl⟩ : ∃ f', f = f' + 1 := ⟨f - 1, by omega⟩
    rw [JSON.compact, JSON.escaped]
    exact parseValue_null f d r
  | bool b =>
    intro d r f _ _ hf
    have := JSON.one_le_need (.bool b)
    obtain ⟨f, rfl⟩ : ∃ f', f = f' + 1 := ⟨f - 1, by omega⟩
    rw [JSON.compact, JSON.escaped]
    cases b
    · exact parseValue_false f d r
    · exact parseValue_true f d r
  | num lit hn =>
    intro d r f _ hr hf
    have := JSON.one_le_need (.num lit)
    obtain ⟨f, rfl⟩ : ∃ f', f = f' + 1 := ⟨f - 1, by omega⟩
    obtain ⟨⟨c, t, hl, hc⟩, hscan⟩ := hn
    have hs := hscan r hr
    rw [JSON.compact, JSON.escaped]
    have hlit : String.mk (c :: t) = lit := (congrArg String.mk hl).symm
    rw [hl] at hs ⊢
    rw [List.cons_append] at hs ⊢
    rw [parseValue_num f d c _ _ _ hc hs, hlit]
  | str lit hs =>
    intro d r f _ _ hf
    have := JSON.one_le_need (.str lit)
    obtain ⟨f, rfl⟩ : ∃ f', f = f' + 1 := ⟨f - 1, by omega⟩
    rw [JSON.compact, JSON.escaped]
    simp only [List.cons_append, List.append_assoc, List.nil_append]
    exact parseValue_str f d _ _ _ (scanString_key hs r)
  | arr elems hwf ih =>
    intro d r f hd _ hf
    rw [JSON.need] at hf
    rw [JSON.nesting] at hd
    obtain ⟨f, rfl⟩ : ∃ f', f = f' + 1 := ⟨f - 1, by omega⟩
    rw [JSON.compact, JSON.escaped]
    cases elems with
    | nil =>
      rw [JSON.compactElems, JSON.escapedElems]
      exact parseValue_arr_nil f d r (by omega)
    | cons w ws =>
      obtain ⟨c, t, hc, hs, hb, _⟩ := JSON.compactElems_head ws (hwf w (List.mem_cons_self _ _))
      have hp := parseElems_compact (w :: ws) (d + 1) r [] f (by simp) hwf
        (fun e he r f hr hf' =>
          ih e he (d + 1) r f
            (by have := JSON.nesting_le_nestingElems _ e he; omega) hr hf')
        (by omega)
      rw [hc] at hp ⊢
      simp only [List.cons_append, List.append_assoc, List.nil_append] at hp ⊢
      rw [parseValue_arr_cons f d c _ (by omega) hs hb, hp]
  | obj fields hk hwf ih =>
    intro d r f hd _ hf
    rw [JSON.need] at hf
    rw [JSON.nesting] at hd
    obtain ⟨f, rfl⟩ : ∃ f', f = f' + 1 := ⟨f - 1, by omega⟩
    rw [JSON.compact, JSON.escaped]
    cases fields with
    | nil =>
      rw [JSON.compactFields, JSON.escapedFields]
      exact parseValue_obj_nil f d r (by omega)
    | cons kv ws =>
      obtain ⟨k, w⟩ := kv
      have hhead : ∃ t', JSON.compactFields ((k, w) :: ws) = '"' :: t' := by
        cases ws with
        | nil => exact ⟨_, by rw [JSON.compactFields_single]; rfl⟩
        | cons x xs =>
          obtain ⟨k'', x'⟩ := x
          exact ⟨_, by rw [JSON.compactFields_cons]; rfl⟩
      obtain ⟨t', ht'⟩ := hhead
      have hp := parseMembers_compact ((k, w) :: ws) (d + 1) r [] f (by simp) hk hwf
        (fun e he r f hr hf' =>
          ih e he (d + 1) r f
            (by have := JSON.nesting_le_nestingFields _ e he; omega) hr hf')
        (by omega)
      rw [ht'] at hp ⊢
      simp only [List.cons_append, List.append_assoc, List.nil_append] at hp ⊢
      rw [parseValue_obj_cons f d '"' _ (by omega) (by decide) (by decide), hp]

theorem JSON.needElems_le (elems : List JSON)
    (h : ∀ e ∈ elems, e.need ≤ 2 * e.compact.length + 1) :
    JSON.needElems elems ≤ 2 * (JSON.compactElems elems).length + 2 := by
  induction elems with
  | nil => rw [JSON.needElems]; omega
  | cons v rest ih =>
    have hv := h v (List.mem_cons_self _ _)
    have hr := ih (fun e he => h e (List.mem_cons_of_mem _ he))
    rw [JSON.needElems]
    cases rest with
    | nil =>
      rw [JSON.compactElems_single, JSON.needElems]
      omega
    | cons w ws =>
      rw [JSON.compactElems_cons]
      simp only [List.length_append, List.length_cons]
      omega

theorem JSON.needFields_le (fields : List (String × JSON))
    (h : ∀ kv ∈ fields, kv.2.need ≤ 2 * kv.2.compact.length + 1) :
    JSON.needFields fields ≤ 2 * (JSON.compactFields fields).length + 2 := by
  induction fields with
  | nil => rw [JSON.needFields]; omega
  | cons kv rest ih =>
    obtain ⟨k, v⟩ := kv
    have hv := h (k, v) (List.mem_cons_self _ _)
    have hr := ih (fun e he => h e (List.mem_cons_of_mem _ he))
    simp only at hv
    rw [JSON.needFields]
    cases rest with
    | nil =>
      rw [JSON.compactFields_single, JSON.needFields]
      simp only [List.length_append, List.length_cons]
      omega
    | cons w ws =>
      obtain ⟨k', w'⟩ := w
      rw [JSON.compactFields_cons]
      simp only [List.length_append, List.length_cons]
      omega

theorem JSON.WF.need_le {v : JSON} (h : v.WF) : v.need ≤ 2 * v.compact.length + 1 := by
  induction h with
  | null => simp [JSON.need]
  | bool b => simp [JSON.need]
  | num lit _ => simp [JSON.need]
  | str lit _ => simp [JSON.need]
  | arr elems _ ih =>
    have := JSON.needElems_le elems ih
    rw [JSON.need, JSON.compact]
    simp only [List.length_append, List.length_cons, List.length_nil]
    omega
  | obj fields _ _ ih =>
    have := JSON.needFields_le fields ih
    rw [JSON.need, JSON.compact]
    simp only [List.length_append, List.length_cons, List.length_nil]
    omega

/-- `parseJSON` reads the compact text of a value back. -/
theorem JSON.WF.parseJSON_compact {v : JSON} (h : v.WF) (hd : v.nesting ≤ maxNestingDepth) :
    parseJSON (String.mk v.compact) = some v.escaped := by
  obtain ⟨c, t, hc, hs, _, _⟩ := h.compact_head
  have hskip : skipSpace v.compact = v.compact := by
    rw [hc]
    exact skipSpace_cons_of_not_space t hs
  have hp := h.parse_compact 0 [] (2 * v.compact.length + 2) (by omega) rfl
    (by have := h.need_le; omega)
  rw [List.append_nil] at hp
  unfold parseJSON
  simp only [String.toList, hskip, hp]
  rfl

/-! ## What the parser returns -/

theorem JSON.nestingElems_le (elems : List JSON) (n : Nat) (h : ∀ e ∈ elems, e.nesting ≤ n) :
    JSON.nestingElems elems ≤ n := by
  induction elems with
  | nil => rw [JSON.nestingElems]; omega
  | cons v rest ih =>
    rw [JSON.nestingElems]
    exact max_le (h v (List.mem_cons_self _ _)) (ih (fun e he => h e (List.mem_cons_of_mem _ he)))

theorem JSON.nestingFields_le (fields : List (String × JSON)) (n : Nat)
    (h : ∀ kv ∈ fields, kv.2.nesting ≤ n) : JSON.nestingFields fields ≤ n := by
  induction fields with
  | nil => rw [JSON.nestingFields]; omega
  | cons kv rest ih =>
    obtain ⟨k, v⟩ := kv
    rw [JSON.nestingFields]
    exact max_le (h (k, v) (List.mem_cons_self _ _))
      (ih (fun e he => h e (List.mem_cons_of_mem _ he)))

set_option maxHeartbeats 4000000 in
/-- What the three functions of the parser return is a JSON text as the scanner
accepts it, nested no deeper than the scanner allows. -/
theorem parse_wf (fuel : Nat) :
    (∀ d cs v rest, d ≤ maxNestingDepth → parseValue fuel d cs = some (v, rest) →
      v.WF ∧ d + v.nesting ≤ maxNestingDepth) ∧
    (∀ d cs acc v rest, d ≤ maxNestingDepth → parseElems fuel d cs acc = some (v, rest) →
      ∃ more, v = .arr (acc ++ more) ∧
        ∀ e ∈ more, e.WF ∧ d + e.nesting ≤ maxNestingDepth) ∧
    (∀ d cs acc v rest, d ≤ maxNestingDepth → parseMembers fuel d cs acc = some (v, rest) →
      ∃ more, v = .obj (acc ++ more) ∧
        ∀ kv ∈ more, StrLit kv.1.toList ∧ kv.2.WF ∧ d + kv.2.nesting ≤ maxNestingDepth) := by
  induction fuel with
  | zero =>
    refine ⟨?_, ?_, ?_⟩
    · intro d cs v rest _ h
      rw [parseValue] at h
      cases h
    · intro d cs acc v rest _ h
      rw [parseElems] at h
      cases h
    · intro d cs acc v rest _ h
      rw [parseMembers] at h
      cases h
  | succ fuel ih =>
    obtain ⟨ihv, ihe, ihm⟩ := ih
    refine ⟨?_, ?_, ?_⟩
    · intro d cs v rest hd h
      unfold parseValue at h
      split at h
      · rename_i rest₀
        split at h
        · rename_i lit rest' hs
          cases h
          obtain ⟨body, hb, hl, _⟩ := StrLit.of_scanString _ _ _ _ hs
          rw [List.nil_append] at hl
          subst hl
          exact ⟨.str _ hb, by simp [JSON.nesting]; omega⟩
        · cases h
      · rename_i rest₀
        split at h
        · cases h
        · rename_i hlt
          split at h
          · cases h
            refine ⟨.arr [] (fun e he => by cases he), ?_⟩
            rw [JSON.nesting, JSON.nestingElems]
            omega
          · obtain ⟨more, hm, hall⟩ := ihe (d + 1) _ _ v rest (by omega) h
            rw [List.nil_append] at hm
            subst hm
            refine ⟨.arr more (fun e he => (hall e he).1), ?_⟩
            rw [JSON.nesting]
            have := JSON.nestingElems_le more (maxNestingDepth - (d + 1))
              (fun e he => by have := (hall e he).2; omega)
            omega
      · rename_i rest₀
        split at h
        · cases h
        · rename_i hlt
          split at h
          · cases h
            refine ⟨.obj [] (fun e he => by cases he) (fun e he => by cases he), ?_⟩
            rw [JSON.nesting, JSON.nestingFields]
            omega
          · obtain ⟨more, hm, hall⟩ := ihm (d + 1) _ _ v rest (by omega) h
            rw [List.nil_append] at hm
            subst hm
            refine ⟨.obj more (fun e he => (hall e he).1) (fun e he => (hall e he).2.1), ?_⟩
            rw [JSON.nesting]
            have := JSON.nestingFields_le more (maxNestingDepth - (d + 1))
              (fun e he => by have := (hall e he).2.2; omega)
            omega
      · cases h
        exact ⟨.bool true, by simp [JSON.nesting]; omega⟩
      · cases h
        exact ⟨.bool false, by simp [JSON.nesting]; omega⟩
      · cases h
        exact ⟨.null, by simp [JSON.nesting]; omega⟩
      · split at h
        · rename_i lit rest' hs
          cases h
          exact ⟨.num _ (NumLit.of_scanNumber _ _ _ hs), by simp [JSON.nesting]; omega⟩
        · cases h
    · intro d cs acc v rest hd h
      rw [parseElems.eq_2] at h
      split at h
      · cases h
      · rename_i v₁ rest₁ hv
        obtain ⟨hwf, hn⟩ := ihv d cs v₁ rest₁ hd hv
        split at h
        · rename_i rest'
          obtain ⟨more, hm, hall⟩ := ihe d _ _ v rest hd h
          refine ⟨v₁ :: more, by simp [hm], ?_⟩
          intro e he
          rcases List.mem_cons.mp he with rfl | he
          · exact ⟨hwf, hn⟩
          · exact hall e he
        · cases h
          refine ⟨[v₁], rfl, ?_⟩
          intro e he
          rw [List.mem_singleton] at he
          subst he
          exact ⟨hwf, hn⟩
        · cases h
    · intro d cs acc v rest hd h
      unfold parseMembers at h
      split at h
      · rename_i rest₀
        split at h
        · cases h
        · rename_i key rest₁ hk
          obtain ⟨body, hb, hl, _⟩ := StrLit.of_scanString _ _ _ _ hk
          rw [List.nil_append] at hl
          subst hl
          split at h
          · rename_i rest₂
            split at h
            · cases h
            · rename_i v₁ rest₃ hv
              obtain ⟨hwf, hn⟩ := ihv d _ v₁ rest₃ hd hv
              split at h
              · obtain ⟨more, hm, hall⟩ := ihm d _ _ v rest hd h
                refine ⟨(String.mk key, v₁) :: more, by simp [hm], ?_⟩
                intro e he
                rcases List.mem_cons.mp he with rfl | he
                · exact ⟨hb, hwf, hn⟩
                · exact hall e he
              · cases h
                refine ⟨[(String.mk key, v₁)], rfl, ?_⟩
                intro e he
                rw [List.mem_singleton] at he
                subst he
                exact ⟨hb, hwf, hn⟩
              · cases h
          · cases h
      · cases h

theorem JSON.escapedElems_of_isPlain (elems : List JSON)
    (ih : ∀ e ∈ elems, e.isPlain = true → e.escaped = e) :
    JSON.isPlainElems elems = true → JSON.escapedElems elems = elems := by
  induction elems with
  | nil => intro _; rw [JSON.escapedElems]
  | cons v rest ihl =>
    intro h
    rw [JSON.isPlainElems, Bool.and_eq_true] at h
    rw [JSON.escapedElems, ih v (List.mem_cons_self _ _) h.1,
      ihl (fun e he => ih e (List.mem_cons_of_mem _ he)) h.2]

theorem escapeHTML_of_kept (k : String) (h : k.toList.all keptByCompact = true) :
    String.mk (escapeHTML k) = k := by
  unfold escapeHTML
  rw [flatMap_escapeHTMLChar_of_kept _ h]
  rfl

theorem JSON.escapedFields_of_isPlain (fields : List (String × JSON))
    (ih : ∀ kv ∈ fields, kv.2.isPlain = true → kv.2.escaped = kv.2) :
    JSON.isPlainFields fields = true → JSON.escapedFields fields = fields := by
  induction fields with
  | nil => intro _; rw [JSON.escapedFields]
  | cons kv rest ihl =>
    obtain ⟨k, v⟩ := kv
    intro h
    rw [JSON.isPlainFields, Bool.and_eq_true, Bool.and_eq_true] at h
    rw [JSON.escapedFields, ih (k, v) (List.mem_cons_self _ _) h.1.2,
      ihl (fun e he => ih e (List.mem_cons_of_mem _ he)) h.2, escapeHTML_of_kept k h.1.1]

/-- A text without `<`, `>`, `&`, U+2028 and U+2029 in its string literals is
written by `JSON.compact` with the literals it has. -/
theorem JSON.WF.escaped_of_isPlain {v : JSON} (h : v.WF) : v.isPlain = true → v.escaped = v := by
  induction h with
  | null => intro _; rw [JSON.escaped]
  | bool b => intro _; rw [JSON.escaped]
  | num lit _ => intro _; rw [JSON.escaped]
  | str lit _ =>
    intro hp
    rw [JSON.isPlain] at hp
    rw [JSON.escaped, escapeHTML_of_kept lit hp]
  | arr elems _ ih =>
    intro hp
    rw [JSON.isPlain] at hp
    rw [JSON.escaped, JSON.escapedElems_of_isPlain elems ih hp]
  | obj fields _ _ ih =>
    intro hp
    rw [JSON.isPlain] at hp
    rw [JSON.escaped, JSON.escapedFields_of_isPlain fields ih hp]

set_option maxHeartbeats 4000000 in
/-- What `parseJSON` returns is a JSON text as the scanner accepts it. -/
theorem parseJSON_wf {input : String} {j : JSON} (h : parseJSON input = some j) :
    j.WF ∧ j.nesting ≤ maxNestingDepth := by
  unfold parseJSON at h
  simp only at h
  split at h
  · cases h
  · rename_i v rest hv
    split at h
    · cases h
      have := (parse_wf _).1 0 _ _ _ (Nat.zero_le _) hv
      simpa using this
    · cases h

/-- A `json.RawMessage` field of a decoded envelope holds one of the member
values of the payload. -/
theorem RedisEvent.raw_of_decodeMembers (fields : List (String × JSON)) :
    ∀ (ev ev' : RedisEvent), decodeMembers RedisEvent.set fields ev = some ev' →
      (ev'.Ticket = ev.Ticket ∨ ∃ kv ∈ fields, ev'.Ticket = some kv.2) ∧
      (ev'.Message = ev.Message ∨ ∃ kv ∈ fields, ev'.Message = some kv.2) := by
  induction fields with
  | nil =>
    intro ev ev' h
    rw [decodeMembers] at h
    cases h
    exact ⟨Or.inl rfl, Or.inl rfl⟩
  | cons kv rest ih =>
    obtain ⟨k, v⟩ := kv
    intro ev ev' h
    rw [decodeMembers] at h
    split at h
    · cases h
    · rename_i ev₁ hset
      obtain ⟨ht, hm⟩ := ih ev₁ ev' h
      have hstep : (ev₁.Ticket = ev.Ticket ∨ ev₁.Ticket = some v) ∧
          (ev₁.Message = ev.Message ∨ ev₁.Message = some v) := by
        unfold RedisEvent.set at hset
        split at hset
        · cases hd : decodeString ev.Event v with
          | none => simp [hd] at hset
          | some s => simp [hd] at hset; subst hset; exact ⟨Or.inl rfl, Or.inl rfl⟩
        · split at hset
          · cases hd : decodeString ev.TenantID v with
            | none => simp [hd] at hset
            | some s => simp [hd] at hset; subst hset; exact ⟨Or.inl rfl, Or.inl rfl⟩
          · split at hset
            · cases hset
              exact ⟨Or.inr rfl, Or.inl rfl⟩
            · split at hset
              · cases hd : decodeString ev.TicketID v with
                | none => simp [hd] at hset
                | some s => simp [hd] at hset; subst hset; exact ⟨Or.inl rfl, Or.inl rfl⟩
              · split at hset
                · cases hset
                  exact ⟨Or.inl rfl, Or.inr rfl⟩
                · split at hset
                  · cases hd : decodeString ev.SourceID v with
                    | none => simp [hd] at hset
                    | some s => simp [hd] at hset; subst hset; exact ⟨Or.inl rfl, Or.inl rfl⟩
                  · split at hset
                    · cases hd : decodeString ev.TargetID v with
                      | none => simp [hd] at hset
                      | some s =>
                        simp [hd] at hset; subst hset; exact ⟨Or.inl rfl, Or.inl rfl⟩
                    · cases hset
                      exact ⟨Or.inl rfl, Or.inl rfl⟩
      refine ⟨?_, ?_⟩
      · rcases ht with ht | ⟨kv, hkv, ht⟩
        · rcases hstep.1 with h1 | h1
          · exact Or.inl (ht.trans h1)
          · exact Or.inr ⟨(k, v), List.mem_cons_self _ _, ht.trans h1⟩
        · exact Or.inr ⟨kv, List.mem_cons_of_mem _ hkv, ht⟩
      · rcases hm with hm | ⟨kv, hkv, hm⟩
        · rcases hstep.2 with h1 | h1
          · exact Or.inl (hm.trans h1)
          · exact Or.inr ⟨(k, v), List.mem_cons_self _ _, hm.trans h1⟩
        · exact Or.inr ⟨kv, List.mem_cons_of_mem _ hkv, hm⟩

/-- The snapshots of a decoded envelope are JSON texts as the scanner accepts
them, nested one level below the envelope. -/
theorem unmarshalRedisEvent_wf {payload : String} {event : RedisEvent}
    (h : unmarshalRedisEvent payload = some event) :
    (∀ snapshot, event.Ticket = some snapshot →
      snapshot.WF ∧ snapshot.nesting + 1 ≤ maxNestingDepth) ∧
    (∀ snapshot, event.Message = some snapshot →
      snapshot.WF ∧ snapshot.nesting + 1 ≤ maxNestingDepth) := by
  unfold unmarshalRedisEvent at h
  split at h
  · cases h
  · rename_i j hj
    obtain ⟨hwf, hn⟩ := parseJSON_wf hj
    cases j with
    | obj fields =>
      simp only [decodeStruct] at h
      obtain ⟨ht, hm⟩ := RedisEvent.raw_of_decodeMembers fields _ _ h
      cases hwf with
      | obj _ hk hv =>
        rw [JSON.nesting] at hn
        have hmem : ∀ kv ∈ fields, kv.2.WF ∧ kv.2.nesting + 1 ≤ maxNestingDepth := by
          intro kv hkv
          have := JSON.nesting_le_nestingFields fields kv hkv
          exact ⟨hv kv hkv, by omega⟩
        refine ⟨?_, ?_⟩
        · intro snapshot hs
          rcases ht with ht | ⟨kv, hkv, ht⟩
          · rw [ht] at hs
            cases hs
          · rw [ht] at hs
            cases hs
            exact hmem kv hkv
        · intro snapshot hs
          rcases hm with hm | ⟨kv, hkv, hm⟩
          · rw [hm] at hs
            cases hs
          · rw [hm] at hs
            cases hs
            exact hmem kv hkv
    | null =>
      simp only [decodeStruct, Option.some.injEq] at h
      subst h
      exact ⟨fun _ hs => by simp [RedisEvent.zero] at hs,
        fun _ hs => by simp [RedisEvent.zero] at hs⟩
    | bool b => simp [decodeStruct] at h
    | num l => simp [decodeStruct] at h
    | str l => simp [decodeStruct] at h
    | arr l => simp [decodeStruct] at h

/-! ## Payloads read back -/

theorem StrLit.of_plain (cs : List Char)
    (h : cs.all (fun c => decide (c ≠ '"') && decide (c ≠ '\\') && decide (¬ c.toNat < 0x20)) =
      true) : StrLit cs := by
  induction cs with
  | nil => exact .nil
  | cons c cs ih =>
    simp only [List.all_cons, Bool.and_eq_true, decide_eq_true_eq] at h
    exact .plain c cs h.1.1.1 h.1.1.2 h.1.2 (ih (by simpa using h.2))

/-- `parseJSON` reads the compact text of a value without `<`, `>`, `&`, U+2028
and U+2029 in its string literals back as that value. -/
theorem JSON.WF.parseJSON_compact_of_isPlain {v : JSON} (h : v.WF)
    (hd : v.nesting ≤ maxNestingDepth) (hp : v.isPlain = true) :
    parseJSON (String.mk v.compact) = some v := by
  rw [h.parseJSON_compact hd, h.escaped_of_isPlain hp]

/-- The object `{"data": data, "event": event}` that the event bridge sends,
read back by `parseJSON`: its `data` member is the value `data`, with `<`, `>`,
`&`, U+2028 and U+2029 in string literals written as `\u` escapes. -/
theorem parseJSON_envelopeText (event : String) (data : JSON)
    (he : StrLit event.toList) (hk : event.toList.all keptByCompact = true)
    (hw : data.WF) (hn : data.nesting + 1 ≤ maxNestingDepth) :
    parseJSON (envelopeText event data.compact) =
      some (.obj [("data", data.escaped), ("event", .str event)]) := by
  have htext : envelopeText event data.compact =
      String.mk (JSON.compact (.obj [("data", data), ("event", .str event)])) := by
    unfold envelopeText
    rw [JSON.compact, JSON.compactFields_cons, JSON.compactFields_single, JSON.compact]
    have h1 : escapeHTML "data" = "data".toList := by decide
    have h2 : escapeHTML "event" = "event".toList := by decide
    have h3 : escapeHTML event = event.toList := by
      unfold escapeHTML
      exact flatMap_escapeHTMLChar_of_kept _ hk
    rw [h1, h2, h3]
    congr 1
    simp
  have hwf : JSON.WF (.obj [("data", data), ("event", .str event)]) := by
    refine .obj _ ?_ ?_
    · intro kv hkv
      simp only [List.mem_cons, List.mem_singleton, List.not_mem_nil, or_false] at hkv
      rcases hkv with rfl | rfl
      · exact StrLit.of_plain "data".toList (by decide)
      · exact StrLit.of_plain "event".toList (by decide)
    · intro kv hkv
      simp only [List.mem_cons, List.mem_singleton, List.not_mem_nil, or_false] at hkv
      rcases hkv with rfl | rfl
      · exact hw
      · exact .str _ he
  have hnest : JSON.nesting (.obj [("data", data), ("event", .str event)]) ≤
      maxNestingDepth := by
    rw [JSON.nesting, JSON.nestingFields, JSON.nestingFields, JSON.nestingFields]
    have : JSON.nesting (.str event) = 0 := by simp [JSON.nesting]
    rw [this]
    simp only [Nat.max_zero, Nat.zero_max] 
    omega
  rw [htext, hwf.parseJSON_compact hnest]
  rw [JSON.escaped, JSON.escapedFields, JSON.escapedFields, JSON.escapedFields, JSON.escaped,
    escapeHTML_of_kept event hk]
  rfl

/-! ## The string literals that `json.Marshal` writes -/

theorem hexDigit_lt (n : Nat) (h : n < 16) :
    isHex (hexDigit n) = true ∧ hexValue (hexDigit n) = n ∧ keptByCompact (hexDigit n) = true := by
  interval_cases n <;> decide

theorem encodeChar_cases (c : Char) :
    (isEscape c = true ∧ (c = '"' ∨ c = '\\') ∧ encodeChar c = ['\\', c]) ∨
    (∃ e, isEscape e = true ∧ e ≠ '"' ∧ e ≠ '\\' ∧ e ≠ '/' ∧ encodeChar c = ['\\', e] ∧
      c = (if e = 'b' then Char.ofNat 8 else if e = 'f' then Char.ofNat 12
        else if e = 'n' then '\n' else if e = 'r' then '\r' else '\t')) ∨
    (c.toNat < 128 ∧
      encodeChar c = ['\\', 'u', '0', '0', hexDigit (c.toNat / 16), hexDigit (c.toNat % 16)]) ∨
    ((c.toNat = 0x2028 ∨ c.toNat = 0x2029) ∧
      encodeChar c = ['\\', 'u', '2', '0', '2', hexDigit (c.toNat % 16)]) ∨
    (c ≠ '"' ∧ c ≠ '\\' ∧ ¬ c.toNat < 0x20 ∧ keptByCompact c = true ∧ encodeChar c = [c]) := by
  unfold encodeChar
  split
  · rename_i h
    simp only [Bool.or_eq_true, decide_eq_true_eq] at h
    left
    rcases h with rfl | rfl <;> exact ⟨by decide, by simp, rfl⟩
  · rename_i h0
    simp only [Bool.or_eq_true, decide_eq_true_eq, not_or] at h0
    split
    · rename_i h
      right; left
      exact ⟨'b', by decide, by decide, by decide, by decide, rfl, by
        rw [← Char.ofNat_toNat c, h]; rfl⟩
    · split
      · rename_i h
        right; left
        exact ⟨'f', by decide, by decide, by decide, by decide, rfl, by
          rw [← Char.ofNat_toNat c, h]; rfl⟩
      · split
        · rename_i h
          right; left
          exact ⟨'n', by decide, by decide, by decide, by decide, rfl, by rw [h]; rfl⟩
        · split
          · rename_i h
            right; left
            exact ⟨'r', by decide, by decide, by decide, by decide, rfl, by rw [h]; rfl⟩
          · split
            · rename_i h
              right; left
              exact ⟨'t', by decide, by decide, by decide, by decide, rfl, by rw [h]; rfl⟩
            · split
              · rename_i h
                right; right; left
                refine ⟨?_, rfl⟩
                simp only [Bool.or_eq_true, decide_eq_true_eq] at h
                rcases h with ((h | rfl) | rfl) | rfl
                · omega
                · decide
                · decide
                · decide
              · rename_i h
                simp only [Bool.or_eq_true, decide_eq_true_eq, not_or] at h
                split
                · rename_i h'
                  right; right; right; left
                  simp only [Bool.or_eq_true, decide_eq_true_eq] at h'
                  exact ⟨h', rfl⟩
                · rename_i h'
                  simp only [Bool.or_eq_true, decide_eq_true_eq, not_or] at h'
                  right; right; right; right
                  refine ⟨h0.1, h0.2, h.1.1.1, ?_, rfl⟩
                  simp [keptByCompact, h.1.1.2, h.1.2, h.2, h'.1, h'.2]

theorem StrLit.encodeChar_append (c : Char) (rest : List Char) (h : StrLit rest) :
    StrLit (encodeChar c ++ rest) := by
  rcases encodeChar_cases c with ⟨he, _, hc⟩ | ⟨e, he, _, _, _, hc, _⟩ | ⟨hlt, hc⟩ | ⟨_, hc⟩ |
    ⟨hq, hb, hctl, _, hc⟩
  · rw [hc]
    exact .esc c rest he h
  · rw [hc]
    exact .esc e rest he h
  · rw [hc]
    refine .uni _ _ _ _ rest ?_ h
    have h1 := (hexDigit_lt (c.toNat / 16) (by omega)).1
    have h2 := (hexDigit_lt (c.toNat % 16) (by omega)).1
    rw [h1, h2]
    rfl
  · rw [hc]
    refine .uni _ _ _ _ rest ?_ h
    have h2 := (hexDigit_lt (c.toNat % 16) (by omega)).1
    rw [h2]
    rfl
  · rw [hc]
    exact .plain c rest hq hb hctl h

theorem StrLit.flatMap_encodeChar (cs : List Char) : StrLit (cs.flatMap encodeChar) := by
  induction cs with
  | nil => exact .nil
  | cons c cs ih =>
    rw [List.flatMap_cons]
    exact StrLit.encodeChar_append c _ ih

theorem keptByCompact_encodeChar (c : Char) : (encodeChar c).all keptByCompact = true := by
  rcases encodeChar_cases c with ⟨_, hcc, hc⟩ | ⟨e, he, _, _, _, hc, _⟩ | ⟨hlt, hc⟩ | ⟨_, hc⟩ |
    ⟨_, _, _, hk, hc⟩
  · rw [hc]
    rcases hcc with rfl | rfl <;> decide
  · rw [hc]
    simp [keptByCompact_of_isEscape he, show keptByCompact '\\' = true by decide]
  · rw [hc]
    have h1 := (hexDigit_lt (c.toNat / 16) (by omega)).2.2
    have h2 := (hexDigit_lt (c.toNat % 16) (by omega)).2.2
    simp [h1, h2, show keptByCompact '\\' = true by decide,
      show keptByCompact 'u' = true by decide, show keptByCompact '0' = true by decide]
  · rw [hc]
    have h2 := (hexDigit_lt (c.toNat % 16) (by omega)).2.2
    simp [h2, show keptByCompact '\\' = true by decide,
      show keptByCompact 'u' = true by decide, show keptByCompact '0' = true by decide,
      show keptByCompact '2' = true by decide]
  · rw [hc]
    simp [hk]

theorem keptByCompact_flatMap_encodeChar (cs : List Char) :
    (cs.flatMap encodeChar).all keptByCompact = true := by
  induction cs with
  | nil => rfl
  | cons c cs ih =>
    rw [List.flatMap_cons, List.all_append, keptByCompact_encodeChar c, ih]
    rfl

theorem unquoteChars_esc (n : Nat) (e : Char) (rest : List Char) (he : e ≠ 'u') :
    unquoteChars (n + 1) ('\\' :: e :: rest) =
      (if e = 'b' then Char.ofNat 8
       else if e = 'f' then Char.ofNat 12
       else if e = 'n' then '\n'
       else if e = 'r' then '\r'
       else if e = 't' then '\t'
       else e) :: unquoteChars n rest := by
  conv_lhs => unfold unquoteChars
  split
  case h_1 => simp_all
  case h_2 => simp_all
  case h_3 => simp_all
  case h_4 =>
    rename_i h1 h2
    injection h1 with h1
    injection h2 with _ h2
    injection h2 with h2 h3
    subst h1 h2 h3
    rfl
  case h_5 =>
    rename_i c' rest' hno h1 h2
    injection h2 with h2 h3
    exact absurd h3.symm (hno e rest h2.symm)

theorem unquoteChars_plain (n : Nat) (c : Char) (rest : List Char) (hc : c ≠ '\\') :
    unquoteChars (n + 1) (c :: rest) = c :: unquoteChars n rest := by
  conv_lhs => unfold unquoteChars
  split
  case h_1 => simp_all
  case h_2 => simp_all
  case h_3 => simp_all
  case h_4 => simp_all
  case h_5 =>
    rename_i h1 h2
    injection h1 with h1
    injection h2 with h2 h3
    subst h1 h2 h3
    rfl

theorem unquoteChars_uni (n : Nat) (a b c d : Char) (rest : List Char)
    (h : hex4 a b c d < 0xD800) :
    unquoteChars (n + 1) ('\\' :: 'u' :: a :: b :: c :: d :: rest) =
      Char.ofNat (hex4 a b c d) :: unquoteChars n rest := by
  have : ¬ (0xD800 ≤ hex4 a b c d ∧ hex4 a b c d < 0xE000) := by omega
  conv_lhs => unfold unquoteChars
  simp only [this, if_false]

theorem unquoteChars_nil (n : Nat) : unquoteChars n [] = [] := by
  cases n <;> simp [unquoteChars]

theorem unquoteChars_encodeChar (n : Nat) (c : Char) (rest : List Char) :
    unquoteChars (n + 1) (encodeChar c ++ rest) = c :: unquoteChars n rest := by
  rcases encodeChar_cases c with ⟨_, hcc, hc⟩ | ⟨e, he, h1, h2, h3, hc, hce⟩ | ⟨hlt, hc⟩ |
    ⟨h28, hc⟩ | ⟨_, hb, _, _, hc⟩
  · rw [hc]
    rcases hcc with rfl | rfl
    · rw [List.cons_append, List.cons_append, unquoteChars_esc n _ _ (by decide)]
      rfl
    · rw [List.cons_append, List.cons_append, unquoteChars_esc n _ _ (by decide)]
      rfl
  · rw [hc, hce]
    have h : e = 'b' ∨ e = 'f' ∨ e = 'n' ∨ e = 'r' ∨ e = 't' := by
      have : e = '"' ∨ e = '\\' ∨ e = '/' ∨ e = 'b' ∨ e = 'f' ∨ e = 'n' ∨ e = 'r' ∨ e = 't' := by
        simpa [isEscape, or_assoc] using he
      rcases this with h | h | h | h
      · exact absurd h h1
      · exact absurd h h2
      · exact absurd h h3
      · exact h
    rcases h with rfl | rfl | rfl | rfl | rfl <;>
      (rw [List.cons_append, List.cons_append, unquoteChars_esc n _ _ (by decide)]; rfl)
  · rw [hc]
    have hx := (hexDigit_lt (c.toNat / 16) (by omega)).2.1
    have hy := (hexDigit_lt (c.toNat % 16) (by omega)).2.1
    have h0 : hexValue '0' = 0 := by decide
    have hval : hex4 '0' '0' (hexDigit (c.toNat / 16)) (hexDigit (c.toNat % 16)) = c.toNat := by
      simp only [hex4, hx, hy, h0]
      omega
    simp only [List.cons_append, List.nil_append]
    rw [unquoteChars_uni n _ _ _ _ _ (by rw [hval]; omega), hval, Char.ofNat_toNat]
  · rw [hc]
    have hy := (hexDigit_lt (c.toNat % 16) (by omega)).2.1
    have h0 : hexValue '0' = 0 := by decide
    have h2 : hexValue '2' = 2 := by decide
    have hval : hex4 '2' '0' '2' (hexDigit (c.toNat % 16)) = c.toNat := by
      simp only [hex4, hy, h0, h2]
      omega
    simp only [List.cons_append, List.nil_append]
    rw [unquoteChars_uni n _ _ _ _ _ (by rw [hval]; omega), hval, Char.ofNat_toNat]
  · rw [hc, List.cons_append, List.nil_append, unquoteChars_plain n c _ hb]

theorem unquoteChars_flatMap_encodeChar (cs : List Char) :
    ∀ n, cs.length ≤ n → unquoteChars n (cs.flatMap encodeChar) = cs := by
  induction cs with
  | nil => intro n _; exact unquoteChars_nil n
  | cons c cs ih =>
    intro n hn
    obtain ⟨n, rfl⟩ : ∃ m, n = m + 1 := ⟨n - 1, by simp at hn; omega⟩
    rw [List.flatMap_cons, unquoteChars_encodeChar, ih n (by simpa using hn)]

theorem length_le_flatMap_encodeChar (cs : List Char) :
    cs.length ≤ (cs.flatMap encodeChar).length := by
  induction cs with
  | nil => simp
  | cons c cs ih =>
    have : 1 ≤ (encodeChar c).length := by
      rcases encodeChar_cases c with ⟨_, _, hc⟩ | ⟨e, _, _, _, _, hc, _⟩ | ⟨_, hc⟩ | ⟨_, hc⟩ |
        ⟨_, _, _, _, hc⟩ <;> rw [hc] <;> simp
    rw [List.flatMap_cons, List.length_append, List.length_cons]
    omega

/-- The string literal that `json.Marshal` writes for a Go string denotes that
string. -/
theorem unquote_marshalString (s : String) :
    unquote (String.mk (s.toList.flatMap encodeChar)) = s := by
  unfold unquote
  show String.mk (unquoteChars (s.toList.flatMap encodeChar).length
    (s.toList.flatMap encodeChar)) = s
  rw [unquoteChars_flatMap_encodeChar _ _ (length_le_flatMap_encodeChar _)]
  rfl

/-! ## The payloads of the bridge and of the session, read back -/

theorem JSON.compact_quoted (s : String) :
    JSON.compact (.str (String.mk (s.toList.flatMap encodeChar))) = marshalString s := by
  rw [JSON.compact]
  unfold escapeHTML marshalString
  rw [show (String.mk (s.toList.flatMap encodeChar)).toList = s.toList.flatMap encodeChar from rfl,
    flatMap_escapeHTMLChar_of_kept _ (keptByCompact_flatMap_encodeChar _)]

theorem JSON.WF.quoted (s : String) : JSON.WF (.str (String.mk (s.toList.flatMap encodeChar))) :=
  .str _ (StrLit.flatMap_encodeChar _)

theorem JSON.isPlain_quoted (s : String) :
    JSON.isPlain (.str (String.mk (s.toList.flatMap encodeChar))) = true := by
  rw [JSON.isPlain]
  exact keptByCompact_flatMap_encodeChar _

/-- The payload for `ticket.merged`, read back by `parseJSON`: its `data`
member is an object with the members `sourceId` and `targetId`, two string
literals that denote the source id and the target id. -/
theorem parseJSON_merged (source target : String) :
    ∃ qs qt, parseJSON (envelopeText "ticket:merged"
        ("\x7b\"sourceId\":".toList ++ marshalString source ++
          ",\"targetId\":".toList ++ marshalString target ++ "\x7d".toList)) =
      some (.obj [("data", .obj [("sourceId", .str qs), ("targetId", .str qt)]),
        ("event", .str "ticket:merged")]) ∧
      unquote qs = source ∧ unquote qt = target := by
  refine ⟨String.mk (source.toList.flatMap encodeChar),
    String.mk (target.toList.flatMap encodeChar), ?_, unquote_marshalString source,
    unquote_marshalString target⟩
  have hdata : JSON.compact (.obj
      [("sourceId", .str (String.mk (source.toList.flatMap encodeChar))),
       ("targetId", .str (String.mk (target.toList.flatMap encodeChar)))]) =
      "\x7b\"sourceId\":".toList ++ marshalString source ++
        ",\"targetId\":".toList ++ marshalString target ++ "\x7d".toList := by
    rw [JSON.compact, JSON.compactFields_cons, JSON.compactFields_single, JSON.compact_quoted,
      JSON.compact_quoted]
    have h1 : escapeHTML "sourceId" = "sourceId".toList := by decide
    have h2 : escapeHTML "targetId" = "targetId".toList := by decide
    rw [h1, h2]
    simp
  have hwf : JSON.WF (.obj
      [("sourceId", .str (String.mk (source.toList.flatMap encodeChar))),
       ("targetId", .str (String.mk (target.toList.flatMap encodeChar)))]) := by
    refine .obj _ ?_ ?_
    · intro kv hkv
      simp only [List.mem_cons, List.mem_singleton, List.not_mem_nil, or_false] at hkv
      rcases hkv with rfl | rfl
      · exact StrLit.of_plain "sourceId".toList (by decide)
      · exact StrLit.of_plain "targetId".toList (by decide)
    · intro kv hkv
      simp only [List.mem_cons, List.mem_singleton, List.not_mem_nil, or_false] at hkv
      rcases hkv with rfl | rfl
      · exact JSON.WF.quoted source
      · exact JSON.WF.quoted target
  have hplain : JSON.isPlain (.obj
      [("sourceId", .str (String.mk (source.toList.flatMap encodeChar))),
       ("targetId", .str (String.mk (target.toList.flatMap encodeChar)))]) = true := by
    rw [JSON.isPlain, JSON.isPlainFields, JSON.isPlainFields, JSON.isPlainFields,
      JSON.isPlain_quoted, JSON.isPlain_quoted]
    decide
  have hnest : JSON.nesting (.obj
      [("sourceId", .str (String.mk (source.toList.flatMap encodeChar))),
       ("targetId", .str (String.mk (target.toList.flatMap encodeChar)))]) + 1 ≤
      maxNestingDepth := by
    rw [JSON.nesting, JSON.nestingFields, JSON.nestingFields, JSON.nestingFields]
    simp [JSON.nesting, maxNestingDepth]
  rw [← hdata, parseJSON_envelopeText "ticket:merged" _
    (StrLit.of_plain "ticket:merged".toList (by decide)) (by decide) hwf hnest,
    hwf.escaped_of_isPlain hplain]

theorem marshalStrings_eq_compactElems (vs : List String) :
    marshalStrings vs =
      JSON.compactElems (vs.map (fun s => JSON.str (String.mk (s.toList.flatMap encodeChar)))) := by
  induction vs with
  | nil => rw [marshalStrings, List.map_nil, JSON.compactElems]
  | cons s rest ih =>
    cases rest with
    | nil =>
      rw [marshalStrings, List.map_cons, List.map_nil, JSON.compactElems_single,
        JSON.compact_quoted]
    | cons t ts =>
      rw [marshalStrings, ih]
      · simp only [List.map_cons]
        rw [JSON.compactElems_cons, JSON.compact_quoted]
      · intro h
        cases h

theorem JSON.isPlainElems_quoted (vs : List String) :
    JSON.isPlainElems
      (vs.map (fun s => JSON.str (String.mk (s.toList.flatMap encodeChar)))) = true := by
  induction vs with
  | nil => rw [List.map_nil, JSON.isPlainElems]
  | cons s rest ih =>
    rw [List.map_cons, JSON.isPlainElems, ih, JSON.isPlain_quoted]
    rfl

theorem JSON.nestingElems_quoted (vs : List String) :
    JSON.nestingElems
      (vs.map (fun s => JSON.str (String.mk (s.toList.flatMap encodeChar)))) = 0 := by
  induction vs with
  | nil => rw [List.map_nil, JSON.nestingElems]
  | cons s rest ih =>
    rw [List.map_cons, JSON.nestingElems, ih]
    simp [JSON.nesting]

/-- The payload of a `ticket:viewers` broadcast, read back by `parseJSON`: its
`data` member is an object whose member `viewers` is an array of string
literals that denote, in order, the user ids. -/
theorem parseJSON_viewersText (vs : List String) :
    ∃ lits : List String, parseJSON (viewersText vs) =
      some (.obj [("event", .str "ticket:viewers"),
        ("data", .obj [("viewers", .arr (lits.map JSON.str))])]) ∧
      lits.map unquote = vs := by
  refine ⟨vs.map (fun s => String.mk (s.toList.flatMap encodeChar)), ?_, ?_⟩
  · have hmap : (vs.map (fun s => String.mk (s.toList.flatMap encodeChar))).map JSON.str =
        vs.map (fun s => JSON.str (String.mk (s.toList.flatMap encodeChar))) := by
      rw [List.map_map]
      rfl
    rw [hmap]
    have htext : viewersText vs =
        String.mk (JSON.compact (.obj [("event", .str "ticket:viewers"),
          ("data", .obj [("viewers",
            .arr (vs.map (fun s => JSON.str (String.mk (s.toList.flatMap encodeChar)))))])])) := by
      unfold viewersText
      rw [JSON.compact, JSON.compactFields_cons, JSON.compactFields_single, JSON.compact,
        JSON.compact, JSON.compactFields_single, JSON.compact, ← marshalStrings_eq_compactElems]
      have h1 : escapeHTML "event" = "event".toList := by decide
      have h2 : escapeHTML "data" = "data".toList := by decide
      have h3 : escapeHTML "viewers" = "viewers".toList := by decide
      have h4 : escapeHTML "ticket:viewers" = "ticket:viewers".toList := by decide
      rw [h1, h2, h3, h4]
      congr 1
      simp
    have hwf : JSON.WF (.obj [("event", .str "ticket:viewers"),
        ("data", .obj [("viewers",
          .arr (vs.map (fun s => JSON.str (String.mk (s.toList.flatMap encodeChar)))))])]) := by
      refine .obj _ ?_ ?_
      · intro kv hkv
        simp only [List.mem_cons, List.mem_singleton, List.not_mem_nil, or_false] at hkv
        rcases hkv with rfl | rfl
        · exact StrLit.of_plain "event".toList (by decide)
        · exact StrLit.of_plain "data".toList (by decide)
      · intro kv hkv
        simp only [List.mem_cons, List.mem_singleton, List.not_mem_nil, or_false] at hkv
        rcases hkv with rfl | rfl
        · exact .str _ (StrLit.of_plain "ticket:viewers".toList (by decide))
        · refine .obj _ ?_ ?_
          · intro kv hkv
            rw [List.mem_singleton] at hkv
            subst hkv
            exact StrLit.of_plain "viewers".toList (by decide)
          · intro kv hkv
            rw [List.mem_singleton] at hkv
            subst hkv
            refine .arr _ ?_
            intro e he
            obtain ⟨s, _, rfl⟩ := List.mem_map.mp he
            exact JSON.WF.quoted s
    have hplain : JSON.isPlain (.obj [("event", .str "ticket:viewers"),
        ("data", .obj [("viewers",
          .arr (vs.map (fun s => JSON.str (String.mk (s.toList.flatMap encodeChar)))))])]) =
        true := by
      rw [JSON.isPlain, JSON.isPlainFields, JSON.isPlainFields, JSON.isPlainFields,
        JSON.isPlain, JSON.isPlain, JSON.isPlainFields, JSON.isPlainFields, JSON.isPlain,
        JSON.isPlainElems_quoted]
      decide
    have hnest : JSON.nesting (.obj [("event", .str "ticket:viewers"),
        ("data", .obj [("viewers",
          .arr (vs.map (fun s => JSON.str (String.mk (s.toList.flatMap encodeChar)))))])]) ≤
        maxNestingDepth := by
      rw [JSON.nesting, JSON.nestingFields, JSON.nestingFields, JSON.nestingFields,
        JSON.nesting, JSON.nestingFields, JSON.nestingFields, JSON.nesting,
        JSON.nestingElems_quoted]
      simp [JSON.nesting, maxNestingDepth]
    rw [htext, hwf.parseJSON_compact_of_isPlain hnest hplain]
  · rw [List.map_map]
    conv_rhs => rw [← List.map_id vs]
    apply List.map_congr_left
    intro s _
    exact unquote_marshalString s
/-! ## Escaping keeps what a string literal denotes -/

theorem escapeHTMLChar_cases (c : Char) :
    (keptByCompact c = true ∧ escapeHTMLChar c = [c]) ∨
    (∃ x y z w, escapeHTMLChar c = ['\\', 'u', x, y, z, w] ∧ hex4 x y z w < 0xD800 ∧
      Char.ofNat (hex4 x y z w) = c ∧ c ≠ '\\') := by
  by_cases hk : keptByCompact c = true
  · exact .inl ⟨hk, escapeHTMLChar_of_kept hk⟩
  · right
    have h' : c = '<' ∨ c = '>' ∨ c = '&' ∨ c.toNat = 0x2028 ∨ c.toNat = 0x2029 := by
      simp only [keptByCompact, Bool.not_eq_true', Bool.not_eq_false, Bool.or_eq_true, 
        decide_eq_true_eq, Bool.not_eq_true] at hk
      tauto
    rcases h' with rfl | rfl | rfl | h | h
    · exact ⟨'0', '0', '3', 'c', by decide, by decide, by decide, by decide⟩
    · exact ⟨'0', '0', '3', 'e', by decide, by decide, by decide, by decide⟩
    · exact ⟨'0', '0', '2', '6', by decide, by decide, by decide, by decide⟩
    · have hc : c = Char.ofNat 0x2028 := by rw [← h, Char.ofNat_toNat]
      subst hc
      exact ⟨'2', '0', '2', '8', by decide, by decide, by decide, by decide⟩
    · have hc : c = Char.ofNat 0x2029 := by rw [← h, Char.ofNat_toNat]
      subst hc
      exact ⟨'2', '0', '2', '9', by decide, by decide, by decide, by decide⟩

theorem unquoteChars_pair (n : Nat) (a b c d a' b' c' d' : Char) (rest : List Char)
    (h : 0xD800 ≤ hex4 a b c d ∧ hex4 a b c d < 0xE000)
    (hp : (isHex a' && isHex b' && isHex c' && isHex d' && decide (hex4 a b c d < 0xDC00) &&
            decide (0xDC00 ≤ hex4 a' b' c' d') && decide (hex4 a' b' c' d' < 0xE000)) = true) :
    unquoteChars (n + 1) ('\\' :: 'u' :: a :: b :: c :: d :: '\\' :: 'u' :: a' :: b' :: c' :: d' :: rest) =
      Char.ofNat ((hex4 a b c d - 0xD800) * 1024 + (hex4 a' b' c' d' - 0xDC00) + 0x10000) ::
        unquoteChars n rest := by
  conv_lhs => unfold unquoteChars
  simp only [h, hp, and_self, if_true]

theorem unquoteChars_nopair (n : Nat) (a b c d a' b' c' d' : Char) (rest : List Char)
    (h : 0xD800 ≤ hex4 a b c d ∧ hex4 a b c d < 0xE000)
    (hp : (isHex a' && isHex b' && isHex c' && isHex d' && decide (hex4 a b c d < 0xDC00) &&
            decide (0xDC00 ≤ hex4 a' b' c' d') && decide (hex4 a' b' c' d' < 0xE000)) = false) :
    unquoteChars (n + 1) ('\\' :: 'u' :: a :: b :: c :: d :: '\\' :: 'u' :: a' :: b' :: c' :: d' :: rest) =
      Char.ofNat 0xFFFD ::
        unquoteChars n ('\\' :: 'u' :: a' :: b' :: c' :: d' :: rest) := by
  conv_lhs => unfold unquoteChars
  simp only [h, hp, and_self, if_true, Bool.false_eq_true, if_false]

theorem unquoteChars_alone (n : Nat) (a b c d : Char) (rest : List Char)
    (h : 0xD800 ≤ hex4 a b c d ∧ hex4 a b c d < 0xE000)
    (hr : ∀ a' b' c' d' rest', rest ≠ '\\' :: 'u' :: a' :: b' :: c' :: d' :: rest') :
    unquoteChars (n + 1) ('\\' :: 'u' :: a :: b :: c :: d :: rest) =
      Char.ofNat 0xFFFD :: unquoteChars n rest := by
  conv_lhs => unfold unquoteChars
  simp only [h, and_self, if_true]


theorem StrLit.tail_of_uni {a b c d : Char} {rest : List Char}
    (h : StrLit ('\\' :: 'u' :: a :: b :: c :: d :: rest)) :
    (isHex a && isHex b && isHex c && isHex d) = true ∧ StrLit rest := by
  cases h with
  | plain _ _ _ hb _ _ => exact absurd rfl hb
  | esc _ _ he _ => simp [isEscape] at he
  | uni _ _ _ _ _ hx h => exact ⟨hx, h⟩

theorem flatMap_escapeHTMLChar_uni (a b c d : Char) (rest : List Char)
    (hx : (isHex a && isHex b && isHex c && isHex d) = true) :
    ('\\' :: 'u' :: a :: b :: c :: d :: rest).flatMap escapeHTMLChar =
      '\\' :: 'u' :: a :: b :: c :: d :: rest.flatMap escapeHTMLChar := by
  simp only [Bool.and_eq_true] at hx
  obtain ⟨⟨⟨ha, hb⟩, hc⟩, hd⟩ := hx
  simp only [List.flatMap_cons, escapeHTMLChar_of_kept (keptByCompact_of_isHex ha),
    escapeHTMLChar_of_kept (keptByCompact_of_isHex hb),
    escapeHTMLChar_of_kept (keptByCompact_of_isHex hc),
    escapeHTMLChar_of_kept (keptByCompact_of_isHex hd),
    escapeHTMLChar_of_kept (show keptByCompact '\\' = true by decide),
    escapeHTMLChar_of_kept (show keptByCompact 'u' = true by decide)]
  rfl

/-- Writing `<`, `>`, `&`, U+2028 and U+2029 of a string literal as `\u` escapes
does not change the string the literal denotes. -/
theorem unquoteChars_escapeHTML (k : Nat) :
    ∀ l : List Char, l.length ≤ k → StrLit l →
      ∀ n m, (l.flatMap escapeHTMLChar).length ≤ n → l.length ≤ m →
        unquoteChars n (l.flatMap escapeHTMLChar) = unquoteChars m l := by
  induction k with
  | zero =>
    intro l hl _ n m _ _
    have : l = [] := List.eq_nil_of_length_eq_zero (by omega)
    subst this
    rw [List.flatMap_nil, unquoteChars_nil, unquoteChars_nil]
  | succ k ih =>
    intro l hl hs n m hn hm
    cases hs with
    | nil => rw [List.flatMap_nil, unquoteChars_nil, unquoteChars_nil]
    | plain c rest hq hb hc h =>
      simp only [List.length_cons] at hl hm
      obtain ⟨m, rfl⟩ : ∃ m', m = m' + 1 := ⟨m - 1, by omega⟩
      rw [unquoteChars_plain m c rest hb]
      rw [List.flatMap_cons] at hn ⊢
      rcases escapeHTMLChar_cases c with ⟨_, hk⟩ | ⟨x, y, z, w, hk, hlt, hch, _⟩
      · rw [hk] at hn ⊢
        simp only [List.singleton_append, List.length_cons] at hn ⊢
        obtain ⟨n, rfl⟩ : ∃ n', n = n' + 1 := ⟨n - 1, by omega⟩
        rw [unquoteChars_plain n c _ hb, ih rest (by omega) h n m (by omega) (by omega)]
      · rw [hk] at hn ⊢
        simp only [List.cons_append, List.nil_append, List.length_cons] at hn ⊢
        obtain ⟨n, rfl⟩ : ∃ n', n = n' + 1 := ⟨n - 1, by omega⟩
        rw [unquoteChars_uni n x y z w _ hlt, hch,
          ih rest (by omega) h n m (by omega) (by omega)]
    | esc e rest he h =>
      simp only [List.length_cons] at hl hm
      obtain ⟨m, rfl⟩ : ∃ m', m = m' + 1 := ⟨m - 1, by omega⟩
      have heu : e ≠ 'u' := by
        intro hu
        subst hu
        simp [isEscape] at he
      rw [unquoteChars_esc m e rest heu]
      rw [List.flatMap_cons, List.flatMap_cons,
        escapeHTMLChar_of_kept (show keptByCompact '\\' = true by decide),
        escapeHTMLChar_of_kept (keptByCompact_of_isEscape he)] at hn ⊢
      simp only [List.singleton_append, List.length_cons] at hn ⊢
      obtain ⟨n, rfl⟩ : ∃ n', n = n' + 1 := ⟨n - 1, by omega⟩
      rw [unquoteChars_esc n e _ heu, ih rest (by omega) h n m (by omega) (by omega)]
    | uni a b c d rest hx h =>
      simp only [List.length_cons] at hl hm
      obtain ⟨m, rfl⟩ : ∃ m', m = m' + 1 := ⟨m - 1, by omega⟩
      rw [flatMap_escapeHTMLChar_uni a b c d rest hx] at hn ⊢
      simp only [List.length_cons] at hn
      obtain ⟨n, rfl⟩ : ∃ n', n = n' + 1 := ⟨n - 1, by omega⟩
      by_cases hsur : 0xD800 ≤ hex4 a b c d ∧ hex4 a b c d < 0xE000
      · cases h with
        | nil =>
          rw [List.flatMap_nil,
            unquoteChars_alone n a b c d [] hsur (by intro _ _ _ _ _ hh; cases hh),
            unquoteChars_alone m a b c d [] hsur (by intro _ _ _ _ _ hh; cases hh),
            unquoteChars_nil, unquoteChars_nil]
        | plain c0 rest0 hq0 hb0 hc0 h0 =>
          have hrest : StrLit (c0 :: rest0) := .plain c0 rest0 hq0 hb0 hc0 h0
          rw [unquoteChars_alone m a b c d (c0 :: rest0) hsur
            (by intro _ _ _ _ _ hh; injection hh with hh _; exact hb0 hh)]
          have hih := ih (c0 :: rest0) (by simp only [List.length_cons] at hl ⊢; omega) hrest
          rw [List.flatMap_cons] at hn hih ⊢
          rcases escapeHTMLChar_cases c0 with ⟨_, hk⟩ | ⟨x, y, z, w, hk, hlt, hch, _⟩
          · rw [hk] at hn hih ⊢
            simp only [List.singleton_append] at hn hih ⊢
            rw [unquoteChars_alone n a b c d _ hsur
              (by intro _ _ _ _ _ hh; injection hh with hh _; exact hb0 hh)]
            rw [hih n m (by simp only [List.length_cons] at hn ⊢; omega)
              (by simp only [List.length_cons] at hm ⊢; omega)]
          · rw [hk] at hn hih ⊢
            simp only [List.cons_append, List.nil_append] at hn hih ⊢
            rw [unquoteChars_nopair n a b c d x y z w _ hsur
              (by
                have : ¬ 0xDC00 ≤ hex4 x y z w := by omega
                simp [this])]
            rw [hih n m (by simp only [List.length_cons] at hn ⊢; omega)
              (by simp only [List.length_cons] at hm ⊢; omega)]
        | esc e0 rest0 he0 h0 =>
          have hrest : StrLit ('\\' :: e0 :: rest0) := .esc e0 rest0 he0 h0
          have heu : e0 ≠ 'u' := by
            intro hu
            subst hu
            simp [isEscape] at he0
          rw [unquoteChars_alone m a b c d _ hsur
            (by intro _ _ _ _ _ hh; injection hh with _ hh; injection hh with hh _;
                exact heu hh)]
          have hih := ih ('\\' :: e0 :: rest0) (by simp only [List.length_cons] at hl ⊢; omega)
            hrest
          rw [List.flatMap_cons, List.flatMap_cons,
            escapeHTMLChar_of_kept (show keptByCompact '\\' = true by decide),
            escapeHTMLChar_of_kept (keptByCompact_of_isEscape he0)] at hn hih ⊢
          simp only [List.singleton_append] at hn hih ⊢
          rw [unquoteChars_alone n a b c d _ hsur
            (by intro _ _ _ _ _ hh; injection hh with _ hh; injection hh with hh _;
                exact heu hh)]
          rw [hih n m (by simp only [List.length_cons] at hn ⊢; omega)
            (by simp only [List.length_cons] at hm ⊢; omega)]
        | uni a0 b0 c0 d0 rest0 hx0 h0 =>
          have hrest : StrLit ('\\' :: 'u' :: a0 :: b0 :: c0 :: d0 :: rest0) :=
            .uni a0 b0 c0 d0 rest0 hx0 h0
          rw [flatMap_escapeHTMLChar_uni a0 b0 c0 d0 rest0 hx0] at hn ⊢
          simp only [List.length_cons] at hn hl hm
          cases hp : (isHex a0 && isHex b0 && isHex c0 && isHex d0 &&
              decide (hex4 a b c d < 0xDC00) && decide (0xDC00 ≤ hex4 a0 b0 c0 d0) &&
              decide (hex4 a0 b0 c0 d0 < 0xE000))
          · rw [unquoteChars_nopair n a b c d a0 b0 c0 d0 _ hsur hp,
              unquoteChars_nopair m a b c d a0 b0 c0 d0 _ hsur hp]
            have hih := ih _ (by simp only [List.length_cons]; omega) hrest n m
            rw [flatMap_escapeHTMLChar_uni a0 b0 c0 d0 rest0 hx0] at hih
            rw [hih (by simp only [List.length_cons]; omega)
              (by simp only [List.length_cons]; omega)]
          · rw [unquoteChars_pair n a b c d a0 b0 c0 d0 _ hsur hp,
              unquoteChars_pair m a b c d a0 b0 c0 d0 _ hsur hp,
              ih rest0 (by omega) h0 n m (by omega) (by omega)]
      · have hlt : hex4 a b c d < 0xD800 ∨ 0xE000 ≤ hex4 a b c d := by omega
        have hstep : ∀ f r, unquoteChars (f + 1) ('\\' :: 'u' :: a :: b :: c :: d :: r) =
            Char.ofNat (hex4 a b c d) :: unquoteChars f r := by
          intro f r
          conv_lhs => unfold unquoteChars
          simp only [hsur, if_false]
        rw [hstep, hstep, ih rest (by omega) h n m (by omega) (by omega)]

/-- The same for the literal as a string. -/
theorem unquote_escapeHTML (lit : String) (h : StrLit lit.toList) :
    unquote (String.mk (escapeHTML lit)) = unquote lit := by
  unfold unquote escapeHTML
  show String.mk (unquoteChars (lit.toList.flatMap escapeHTMLChar).length
    (lit.toList.flatMap escapeHTMLChar)) = String.mk (unquoteChars lit.toList.length lit.toList)
  rw [unquoteChars_escapeHTML lit.toList.length lit.toList (Nat.le_refl _) h _ _
    (Nat.le_refl _) (Nat.le_refl _)]


theorem JSON.decodedElems_escaped (elems : List JSON)
    (ih : ∀ e ∈ elems, e.escaped.decoded = e.decoded) :
    JSON.decodedElems (JSON.escapedElems elems) = JSON.decodedElems elems := by
  induction elems with
  | nil => rw [JSON.escapedElems]
  | cons v rest ihl =>
    rw [JSON.escapedElems, JSON.decodedElems, JSON.decodedElems,
      ih v (List.mem_cons_self _ _), ihl (fun e he => ih e (List.mem_cons_of_mem _ he))]

theorem JSON.decodedFields_escaped (fields : List (String × JSON))
    (hk : ∀ kv ∈ fields, StrLit kv.1.toList)
    (ih : ∀ kv ∈ fields, kv.2.escaped.decoded = kv.2.decoded) :
    JSON.decodedFields (JSON.escapedFields fields) = JSON.decodedFields fields := by
  induction fields with
  | nil => rw [JSON.escapedFields]
  | cons kv rest ihl =>
    obtain ⟨k, v⟩ := kv
    rw [JSON.escapedFields, JSON.decodedFields, JSON.decodedFields,
      ih (k, v) (List.mem_cons_self _ _),
      ihl (fun e he => hk e (List.mem_cons_of_mem _ he))
        (fun e he => ih e (List.mem_cons_of_mem _ he)),
      unquote_escapeHTML k (hk (k, v) (List.mem_cons_self _ _))]

/-- What `JSON.compact` writes denotes the value of the text it was given. -/
theorem JSON.WF.decoded_escaped {v : JSON} (h : v.WF) : v.escaped.decoded = v.decoded := by
  induction h with
  | null => rw [JSON.escaped]
  | bool b => rw [JSON.escaped]
  | num lit _ => rw [JSON.escaped]
  | str lit hl => rw [JSON.escaped, JSON.decoded, JSON.decoded, unquote_escapeHTML lit hl]
  | arr elems _ ih =>
    rw [JSON.escaped, JSON.decoded, JSON.decoded, JSON.decodedElems_escaped elems ih]
  | obj fields hk _ ih =>
    rw [JSON.escaped, JSON.decoded, JSON.decoded, JSON.decodedFields_escaped fields hk ih]

/-! ## Claims about the Hub -/

set_option maxRecDepth 100000 in
theorem stalledState_reachable : Reachable stalledState :=
  ⟨hubEvents stalledRequests, ⟨stalledState, true, []⟩, by decide, by decide, rfl⟩

set_option maxRecDepth 100000 in
theorem evictedState_reachable : Reachable evictedState :=
  ⟨hubEvents (stalledRequests ++ [.broadcast tenantMsg]), ⟨evictedState, true, []⟩,
    by decide, by decide, rfl⟩

set_option maxRecDepth 100000 in
/-- C1 (evaluation at the failing input): `stalledState` is reachable, `agentA`
is a member of the tenant room `T1` with a full queue, and processing one more
broadcast to `T1` takes the `default` branch for it: it leaves the registry and
its tenant room and its queue is closed, but it is still a member of the ticket
room `K9`, which the `unregister` case would have swept. -/
theorem evicted_member_stays_in_ticket_room :
    Reachable stalledState ∧
    agentA ∈ Hub.targets stalledState tenantMsg ∧
    (stalledState.chan agentA).buf.length = sendBufSize ∧
    Hub.Run stalledState [.broadcast tenantMsg] = .waiting evictedState ∧
    agentA ∉ evictedState.clients ∧
    agentA ∉ evictedState.tenants.members agentA.TenantID ∧
    (evictedState.chan agentA).closed = true ∧
    agentA ∈ evictedState.tickets.members "K9" ∧
    Hub.unregister stalledState agentA =
      some { evictedState with tenants := [], tickets := [] } :=
  ⟨stalledState_reachable, by decide, by decide, by decide, by decide, by decide, by decide,
    by decide, by decide⟩

set_option maxRecDepth 100000 in
/-- C4 (evaluation at the failing input): in the reachable state `evictedState`
the ticket room `K9` still holds the evicted `agentA`, whose queue is closed.
After `agentB` registers and joins `K9` the room has two members, and
processing a broadcast to `K9` panics on the send to the closed queue: the
loop does not complete its two enqueue attempts and the control loop is gone,
whether or not `agentB` is in the room. -/
theorem broadcast_to_room_with_evicted_member_panics :
    Reachable evictedState ∧
    Hub.Run evictedState [.register agentB, .joinTicket agentB "K9"] =
      .waiting
        { evictedState with
          clients := [agentB]
          tenants := [("T1", [agentB])]
          tickets := [("K9", [agentA, agentB])] } ∧
    Hub.Run evictedState [.register agentB, .joinTicket agentB "K9", .broadcast ticketMsg] =
      .panicked ∧
    Hub.Run evictedState [.broadcast ticketMsg] = .panicked :=
  ⟨evictedState_reachable, by decide, by decide, by decide⟩

/-- C2: after any sequence of `Register` and `Unregister` requests processed by
`Hub.Run` from `NewHub()`, a connection is a member of the room of its tenant
exactly when it is in the registry; and when the last request processed was
`Unregister(c)`, `c` is in the registry, in no tenant room and in no ticket
room. -/
theorem tenant_room_iff_registered (reqs : List Request)
    (hk : ∀ r ∈ reqs, r.isRegistration = true)
    (h : HubState) (hrun : Hub.Run NewHub reqs = .waiting h) :
    (∀ c, c ∈ h.tenants.members c.TenantID ↔ c ∈ h.clients) ∧
    (∀ pre c, reqs = pre ++ [.unregister c] →
      c ∉ h.clients ∧ ∀ k, c ∉ h.tenants.members k ∧ c ∉ h.tickets.members k) := by
  obtain ⟨hi, ht⟩ := registerOnly_run reqs hk tenantsAgree_newHub rfl hrun
  refine ⟨hi.mem_iff, ?_⟩
  rintro pre c rfl
  obtain ⟨h₁, _, _, hstep⟩ := Hub.Run_snoc_waiting hrun
  have hc : c ∉ h.clients := Hub.not_mem_clients_of_unregister hstep
  refine ⟨hc, fun k => ⟨?_, ?_⟩⟩
  · intro hm
    have hk' := hi.tenant_of k c hm
    subst hk'
    exact hc ((hi.mem_iff c).mp hm)
  · simp [ht, RoomIndex.members, RoomIndex.get]

/-- C2 at a concrete sequence: two agents register and one unregisters. -/
theorem tenant_room_iff_registered_witness :
    (∀ c, c ∈ RoomIndex.members [("T1", [agentB])] c.TenantID ↔ c ∈ [agentB]) ∧
    (∀ pre c, [Request.register agentA, .register agentB, .unregister agentA] =
        pre ++ [.unregister c] →
      c ∉ [agentB] ∧
        ∀ k, c ∉ RoomIndex.members [("T1", [agentB])] k ∧ c ∉ RoomIndex.members [] k) :=
  tenant_room_iff_registered [.register agentA, .register agentB, .unregister agentA]
    (by decide)
    { clients := [agentB]
      tenants := [("T1", [agentB])]
      tickets := []
      send := [(agentA, { buf := [], closed := true })] }
    (by decide)

/-- C3, refuted as worded: `agentA` connects, joins `K9` and disconnects, and
the `select` of `Hub.Run` takes its `JoinTopic` and its `Unregister` before its
`Register`.  The `Unregister` finds `agentA` absent from the registry and takes
the `continue`, so `agentA` is still a member of ticket room `K9`, although its
most recent membership-affecting request for `K9` is an `Unregister`. -/
theorem unregister_of_unregistered_keeps_topic_member :
    (∀ r ∈ [Request.joinTicket agentA "K9", .unregister agentA, .register agentA],
      r.isMembership = true) ∧
    Hub.Run NewHub [.joinTicket agentA "K9", .unregister agentA, .register agentA] =
      .waiting
        { clients := [agentA], tenants := [("T1", [agentA])], tickets := [("K9", [agentA])],
          send := [] } ∧
    agentA ∈ RoomIndex.members [("K9", [agentA])] "K9" ∧
    specTopicMember agentA "K9"
      [.joinTicket agentA "K9", .unregister agentA, .register agentA] = false := by
  decide

/-- C3, amended: after any sequence of `Register`, `Unregister`, `JoinTopic`
and `LeaveTopic` requests processed by `Hub.Run` from `NewHub()`, the members
of ticket room `k` are exactly the connections that joined `k` and have not
since left `k` nor been unregistered while registered (`specTopicState`); the
registry holds exactly the connections the amended specification counts as
registered; and `k` is absent from `tickets` when no connection is a member. -/
theorem topic_room_members_eq_spec (reqs : List Request)
    (hk : ∀ r ∈ reqs, r.isMembership = true)
    (h : HubState) (hrun : Hub.Run NewHub reqs = .waiting h) (k : String) :
    (∀ c, c ∈ h.tickets.members k ↔ (specTopicState c k reqs).2 = true) ∧
    (∀ c, c ∈ h.clients ↔ (specTopicState c k reqs).1 = true) ∧
    ((∀ c, (specTopicState c k reqs).2 = false) → h.tickets.get k = none) := by
  have hi := topicsAgree_run reqs hk h hrun
  refine ⟨fun c => hi.mem c k, fun c => hi.reg c k, ?_⟩
  intro hnone
  cases hg : h.tickets.get k with
  | none => rfl
  | some room =>
    exfalso
    have hne := hi.nonempty k room hg
    obtain ⟨c, hc⟩ := List.exists_mem_of_ne_nil room hne
    have hm : c ∈ h.tickets.members k := by
      simpa [RoomIndex.members, hg] using hc
    have := (hi.mem c k).mp hm
    rw [hnone c] at this
    cases this

/-- C3, amended, at a concrete sequence: `agentA` and `agentB` register and
join `K9`, then `agentA` leaves `K9` and is unregistered. -/
theorem topic_room_members_eq_spec_witness :
    (∀ c, c ∈ RoomIndex.members [("K9", [agentB])] "K9" ↔
      (specTopicState c "K9"
        [.register agentA, .register agentB, .joinTicket agentA "K9", .joinTicket agentB "K9",
         .leaveTicket agentA "K9", .unregister agentA]).2 = true) ∧
    (∀ c, c ∈ [agentB] ↔
      (specTopicState c "K9"
        [.register agentA, .register agentB, .joinTicket agentA "K9", .joinTicket agentB "K9",
         .leaveTicket agentA "K9", .unregister agentA]).1 = true) ∧
    ((∀ c, (specTopicState c "K9"
        [.register agentA, .register agentB, .joinTicket agentA "K9", .joinTicket agentB "K9",
         .leaveTicket agentA "K9", .unregister agentA]).2 = false) →
      RoomIndex.get [("K9", [agentB])] "K9" = none) :=
  topic_room_members_eq_spec
    [.register agentA, .register agentB, .joinTicket agentA "K9", .joinTicket agentB "K9",
     .leaveTicket agentA "K9", .unregister agentA]
    (by decide)
    { clients := [agentB]
      tenants := [("T1", [agentB])]
      tickets := [("K9", [agentB])]
      send := [(agentA, { buf := [], closed := true })] }
    (by decide) "K9"

/-- C5: let the Hub process broadcast `m1` and later broadcast `m2`, with any
steps of the Hub, of the outbound loops and of `presence:list` replies in
between and after, and let connection `c` be a member of the target room of
both, each time with room in its queue (it is not evicted).  Then `m1` occupies
an earlier place than `m2` in the sequence of frames sent to `c` (the frames
its `WritePump` has taken from the head of the queue and written, followed by
the frames still queued), and once the `WritePump` has written the frame of
`m2` it has written the frame of `m1` at that earlier place. -/
theorem broadcasts_reach_connection_in_processing_order
    (c : Client) (m1 m2 : BroadcastMessage) (e2 e3 : List Event)
    (s₁ s₁' s₂ s₂' s' : System)
    (hm1 : System.step s₁ (.hub (.broadcast m1)) = some s₁')
    (h2 : System.run s₁' e2 = some s₂)
    (hm2 : System.step s₂ (.hub (.broadcast m2)) = some s₂')
    (h3 : System.run s₂' e3 = some s')
    (hc1 : c ∈ Hub.targets s₁.hub m1) (hsp1 : (s₁.hub.chan c).buf.length < sendBufSize)
    (hc2 : c ∈ Hub.targets s₂.hub m2) (hsp2 : (s₂.hub.chan c).buf.length < sendBufSize) :
    (s₁.stream c).length < (s₂.stream c).length ∧
    (s₂'.stream c)[(s₁.stream c).length]? = some m1.Payload ∧
    (s₂'.stream c)[(s₂.stream c).length]? = some m2.Payload ∧
    (s'.stream c)[(s₁.stream c).length]? = some m1.Payload ∧
    (s'.stream c)[(s₂.stream c).length]? = some m2.Payload ∧
    ((s₂.stream c).length < (textsOf (s'.pump c).writes).length →
      (textsOf (s'.pump c).writes)[(s₁.stream c).length]? = some m1.Payload ∧
      (textsOf (s'.pump c).writes)[(s₂.stream c).length]? = some m2.Payload) := by
  obtain ⟨x₁, hx₁⟩ := System.broadcast_stream hm1 hc1 hsp1
  obtain ⟨x₂, hx₂⟩ := System.run_stream e2 h2 c
  obtain ⟨x₃, hx₃⟩ := System.broadcast_stream hm2 hc2 hsp2
  obtain ⟨x₄, hx₄⟩ := System.run_stream e3 h3 c
  have hlen : (s₁.stream c).length < (s₂.stream c).length := by
    rw [hx₂, hx₁]
    simp only [List.length_append, List.length_cons]
    omega
  have e₂' : s₂'.stream c = s₁.stream c ++ m1.Payload :: (x₁ ++ x₂ ++ m2.Payload :: x₃) := by
    rw [hx₃, hx₂, hx₁]
    simp
  have e' : s'.stream c = s₁.stream c ++ m1.Payload :: (x₁ ++ x₂ ++ m2.Payload :: x₃ ++ x₄) := by
    rw [hx₄, e₂']
    simp
  have f' : s'.stream c = s₂.stream c ++ m2.Payload :: (x₃ ++ x₄) := by
    rw [hx₄, hx₃]
    simp
  have g₁ : (s'.stream c)[(s₁.stream c).length]? = some m1.Payload := by
    rw [e', List.getElem?_append_right (le_refl _)]
    simp
  have g₂ : (s'.stream c)[(s₂.stream c).length]? = some m2.Payload := by
    rw [f', List.getElem?_append_right (le_refl _)]
    simp
  refine ⟨hlen, ?_, ?_, g₁, g₂, ?_⟩
  · rw [e₂', List.getElem?_append_right (le_refl _)]
    simp
  · rw [hx₃, List.getElem?_append_right (le_refl _)]
    simp
  · intro hw
    have hst : s'.stream c = textsOf (s'.pump c).writes ++ (s'.hub.chan c).buf := rfl
    rw [hst] at g₁ g₂
    rw [List.getElem?_append_left (lt_trans hlen hw)] at g₁
    rw [List.getElem?_append_left hw] at g₂
    exact ⟨g₁, g₂⟩

/-- C5 at a concrete run: `agentA`, registered and in ticket room `K9`, is
sent a tenant frame, its `WritePump` writes it, then a frame for `K9` is
broadcast, written as well, and the Hub shuts down. -/
theorem broadcasts_reach_connection_in_processing_order_witness :
    ((joinedSystem [] true []).stream agentA).length <
      ((joinedSystem [(agentA, ⟨[], false⟩)] true
          [(agentA, ⟨[(.text tenantMsg.Payload, true)], true⟩)]).stream agentA).length ∧
    ((joinedSystem [(agentA, ⟨[ticketMsg.Payload], false⟩)] true
        [(agentA, ⟨[(.text tenantMsg.Payload, true)], true⟩)]).stream agentA)[
      ((joinedSystem [] true []).stream agentA).length]? = some tenantMsg.Payload ∧
    ((joinedSystem [(agentA, ⟨[ticketMsg.Payload], false⟩)] true
        [(agentA, ⟨[(.text tenantMsg.Payload, true)], true⟩)]).stream agentA)[
      ((joinedSystem [(agentA, ⟨[], false⟩)] true
          [(agentA, ⟨[(.text tenantMsg.Payload, true)], true⟩)]).stream agentA).length]? =
        some ticketMsg.Payload ∧
    ((joinedSystem [(agentA, ⟨[], true⟩)] false
        [(agentA, ⟨[(.text tenantMsg.Payload, true), (.text ticketMsg.Payload, true)],
          true⟩)]).stream agentA)[
      ((joinedSystem [] true []).stream agentA).length]? = some tenantMsg.Payload ∧
    ((joinedSystem [(agentA, ⟨[], true⟩)] false
        [(agentA, ⟨[(.text tenantMsg.Payload, true), (.text ticketMsg.Payload, true)],
          true⟩)]).stream agentA)[
      ((joinedSystem [(agentA, ⟨[], false⟩)] true
          [(agentA, ⟨[(.text tenantMsg.Payload, true)], true⟩)]).stream agentA).length]? =
        some ticketMsg.Payload ∧
    (((joinedSystem [(agentA, ⟨[], false⟩)] true
          [(agentA, ⟨[(.text tenantMsg.Payload, true)], true⟩)]).stream agentA).length <
        (textsOf ((joinedSystem [(agentA, ⟨[], true⟩)] false
          [(agentA, ⟨[(.text tenantMsg.Payload, true), (.text ticketMsg.Payload, true)],
            true⟩)]).pump agentA).writes).length →
      (textsOf ((joinedSystem [(agentA, ⟨[], true⟩)] false
          [(agentA, ⟨[(.text tenantMsg.Payload, true), (.text ticketMsg.Payload, true)],
            true⟩)]).pump agentA).writes)[
        ((joinedSystem [] true []).stream agentA).length]? = some tenantMsg.Payload ∧
      (textsOf ((joinedSystem [(agentA, ⟨[], true⟩)] false
          [(agentA, ⟨[(.text tenantMsg.Payload, true), (.text ticketMsg.Payload, true)],
            true⟩)]).pump agentA).writes)[
        ((joinedSystem [(agentA, ⟨[], false⟩)] true
          [(agentA, ⟨[(.text tenantMsg.Payload, true)], true⟩)]).stream agentA).length]? =
          some ticketMsg.Payload) :=
  broadcasts_reach_connection_in_processing_order agentA tenantMsg ticketMsg
    [.pump agentA (.recv true)] [.pump agentA (.recv true), .hub .shutdown]
    (joinedSystem [] true [])
    (joinedSystem [(agentA, ⟨[tenantMsg.Payload], false⟩)] true [])
    (joinedSystem [(agentA, ⟨[], false⟩)] true
      [(agentA, ⟨[(.text tenantMsg.Payload, true)], true⟩)])
    (joinedSystem [(agentA, ⟨[ticketMsg.Payload], false⟩)] true
      [(agentA, ⟨[(.text tenantMsg.Payload, true)], true⟩)])
    (joinedSystem [(agentA, ⟨[], true⟩)] false
      [(agentA, ⟨[(.text tenantMsg.Payload, true), (.text ticketMsg.Payload, true)], true⟩)])
    (by decide) (by decide) (by decide) (by decide) (by decide) (by decide) (by decide)
    (by decide)

/-! ## Claims about the event bridge and the session -/

/-- C6: when the payload decodes to an envelope with event name
`ticket.updated` whose ticket snapshot decodes to a non-empty id `K`,
`Subscriber.handleMessage` calls the `BroadcastFunc` exactly twice: first with
target 0 (`TargetTenant`) and the envelope's tenant id, then with target 1
(`TargetTicket`) and `K`, both with the same payload; through the adapter of
`main` these are two `Broadcast` requests to the Hub.  The payload is the text
`{"data":` snapshot `,"event":"ticket:updated"}`, and read back as JSON it is
the object whose `data` member is the ticket snapshot and whose `event` member
is `"ticket:updated"`: the snapshot itself when its string literals hold none
of `<`, `>`, `&`, U+2028, U+2029, and otherwise the snapshot with these
characters written as `\u` escapes, as `json.Marshal` writes them; in both
cases it denotes the value the snapshot denotes (the same members and elements
in the same order, the same numbers, and keys and string literals that denote
the same strings). -/
theorem ticket_updated_makes_two_broadcasts (payload : String) (event : RedisEvent)
    (snapshot : JSON) (K : String)
    (hdec : unmarshalRedisEvent payload = some event)
    (hev : event.Event = "ticket.updated")
    (hsnap : event.Ticket = some snapshot)
    (hid : unmarshalTicketRef (some snapshot) = some K) (hK : K ≠ "") :
    Subscriber.handleMessage payload =
      [{ target := 0, targetID := event.TenantID,
         payload := String.mk ("\x7b\"data\":".toList ++ snapshot.compact ++
            ",\"event\":\"ticket:updated\"\x7d".toList) },
       { target := 1, targetID := K,
         payload := String.mk ("\x7b\"data\":".toList ++ snapshot.compact ++
            ",\"event\":\"ticket:updated\"\x7d".toList) }] ∧
    (Subscriber.handleMessage payload).map mainBroadcastFunc =
      [.broadcast
        { Target := TargetTenant, TargetID := event.TenantID,
          Payload := String.mk ("\x7b\"data\":".toList ++ snapshot.compact ++
            ",\"event\":\"ticket:updated\"\x7d".toList) },
       .broadcast
        { Target := TargetTicket, TargetID := K,
          Payload := String.mk ("\x7b\"data\":".toList ++ snapshot.compact ++
            ",\"event\":\"ticket:updated\"\x7d".toList) }] ∧
    parseJSON (String.mk ("\x7b\"data\":".toList ++ snapshot.compact ++
        ",\"event\":\"ticket:updated\"\x7d".toList)) =
      some (.obj [("data", snapshot.escaped), ("event", .str "ticket:updated")]) ∧
    (snapshot.isPlain = true → snapshot.escaped = snapshot) ∧
    snapshot.escaped.decoded = snapshot.decoded := by
  have hm : marshalEnvelope "ticket:updated" (marshalRaw (some snapshot)) =
      String.mk ("\x7b\"data\":".toList ++ snapshot.compact ++
        ",\"event\":\"ticket:updated\"\x7d".toList) := by
    have hs : marshalString "ticket:updated" = "\"ticket:updated\"".toList := by decide
    simp only [marshalEnvelope, marshalRaw, hs]
    congr 1
    simp
  have hcalls : Subscriber.handleMessage payload =
      [{ target := 0, targetID := event.TenantID,
         payload := String.mk ("\x7b\"data\":".toList ++ snapshot.compact ++
            ",\"event\":\"ticket:updated\"\x7d".toList) },
       { target := 1, targetID := K,
         payload := String.mk ("\x7b\"data\":".toList ++ snapshot.compact ++
            ",\"event\":\"ticket:updated\"\x7d".toList) }] := by
    unfold Subscriber.handleMessage
    rw [hdec]
    simp only [hev, hsnap, hid, hm]
    simp [hK]
  obtain ⟨hwf, hn⟩ := (unmarshalRedisEvent_wf hdec).1 snapshot hsnap
  have henv : String.mk ("\x7b\"data\":".toList ++ snapshot.compact ++
      ",\"event\":\"ticket:updated\"\x7d".toList) =
      envelopeText "ticket:updated" snapshot.compact := by
    unfold envelopeText
    congr 1
    simp
  refine ⟨hcalls, ?_, ?_, hwf.escaped_of_isPlain, hwf.decoded_escaped⟩
  · rw [hcalls]
    rfl
  · rw [henv]
    exact parseJSON_envelopeText "ticket:updated" snapshot
      (StrLit.of_plain "ticket:updated".toList (by decide)) (by decide) hwf hn

/-- C6 at the payload of the specification,
`{"event":"ticket.updated","tenant_id":"T1","ticket":{"id":"K9"}}`, which
yields one call for tenant room `T1` and one for ticket room `K9` with the
payload `{"data":{"id":"K9"},"event":"ticket:updated"}`, and at the payload
`{"event":"ticket.updated","tenant_id":"T1","ticket":{"title":"a<b", "id":"K9","n":[1,2.5e3,true,null]}}`,
whose snapshot is written without its whitespace and with `<` as a `\u` escape
that denotes `<`. -/
theorem ticket_updated_makes_two_broadcasts_witness :
    Subscriber.handleMessage
        "\x7b\"event\":\"ticket.updated\",\"tenant_id\":\"T1\",\"ticket\":\x7b\"id\":\"K9\"\x7d\x7d" =
      [{ target := 0, targetID := "T1",
         payload := "\x7b\"data\":\x7b\"id\":\"K9\"\x7d,\"event\":\"ticket:updated\"\x7d" },
       { target := 1, targetID := "K9",
         payload := "\x7b\"data\":\x7b\"id\":\"K9\"\x7d,\"event\":\"ticket:updated\"\x7d" }] ∧
    (Subscriber.handleMessage
        "\x7b\"event\":\"ticket.updated\",\"tenant_id\":\"T1\",\"ticket\":\x7b\"id\":\"K9\"\x7d\x7d").map
        mainBroadcastFunc =
      [.broadcast
        { Target := TargetTenant, TargetID := "T1",
          Payload := "\x7b\"data\":\x7b\"id\":\"K9\"\x7d,\"event\":\"ticket:updated\"\x7d" },
       .broadcast
        { Target := TargetTicket, TargetID := "K9",
          Payload := "\x7b\"data\":\x7b\"id\":\"K9\"\x7d,\"event\":\"ticket:updated\"\x7d" }] ∧
    parseJSON "\x7b\"data\":\x7b\"id\":\"K9\"\x7d,\"event\":\"ticket:updated\"\x7d" =
      some (.obj [("data", .obj [("id", .str "K9")]), ("event", .str "ticket:updated")]) ∧
    Subscriber.handleMessage
        "\x7b\"event\":\"ticket.updated\",\"tenant_id\":\"T1\",\"ticket\":\x7b\"title\":\"a<b\", \"id\":\"K9\",\"n\":[1,2.5e3,true,null]\x7d\x7d" =
      [{ target := 0, targetID := "T1",
         payload := "\x7b\"data\":\x7b\"title\":\"a\\u003cb\",\"id\":\"K9\",\"n\":[1,2.5e3,true,null]\x7d,\"event\":\"ticket:updated\"\x7d" },
       { target := 1, targetID := "K9",
         payload := "\x7b\"data\":\x7b\"title\":\"a\\u003cb\",\"id\":\"K9\",\"n\":[1,2.5e3,true,null]\x7d,\"event\":\"ticket:updated\"\x7d" }] ∧
    parseJSON
        "\x7b\"data\":\x7b\"title\":\"a\\u003cb\",\"id\":\"K9\",\"n\":[1,2.5e3,true,null]\x7d,\"event\":\"ticket:updated\"\x7d" =
      some (.obj
        [("data", .obj [("title", .str "a\\u003cb"), ("id", .str "K9"),
          ("n", .arr [.num "1", .num "2.5e3", .bool true, .null])]),
         ("event", .str "ticket:updated")]) ∧
    JSON.decoded (.obj [("title", .str "a\\u003cb"), ("id", .str "K9"),
        ("n", .arr [.num "1", .num "2.5e3", .bool true, .null])]) =
      .obj [("title", .str "a<b"), ("id", .str "K9"),
        ("n", .arr [.num "1", .num "2.5e3", .bool true, .null])] :=
  ⟨(ticket_updated_makes_two_broadcasts
      "\x7b\"event\":\"ticket.updated\",\"tenant_id\":\"T1\",\"ticket\":\x7b\"id\":\"K9\"\x7d\x7d"
      { Event := "ticket.updated", TenantID := "T1", Ticket := some (.obj [("id", .str "K9")]),
        TicketID := "", Message := none, SourceID := "", TargetID := "" }
      (.obj [("id", .str "K9")]) "K9" (by rfl) rfl rfl (by decide) (by decide)).1,
   (ticket_updated_makes_two_broadcasts
      "\x7b\"event\":\"ticket.updated\",\"tenant_id\":\"T1\",\"ticket\":\x7b\"id\":\"K9\"\x7d\x7d"
      { Event := "ticket.updated", TenantID := "T1", Ticket := some (.obj [("id", .str "K9")]),
        TicketID := "", Message := none, SourceID := "", TargetID := "" }
      (.obj [("id", .str "K9")]) "K9" (by rfl) rfl rfl (by decide) (by decide)).2.1,
   (ticket_updated_makes_two_broadcasts
      "\x7b\"event\":\"ticket.updated\",\"tenant_id\":\"T1\",\"ticket\":\x7b\"id\":\"K9\"\x7d\x7d"
      { Event := "ticket.updated", TenantID := "T1", Ticket := some (.obj [("id", .str "K9")]),
        TicketID := "", Message := none, SourceID := "", TargetID := "" }
      (.obj [("id", .str "K9")]) "K9" (by rfl) rfl rfl (by decide) (by decide)).2.2.1,
   (ticket_updated_makes_two_broadcasts
      "\x7b\"event\":\"ticket.updated\",\"tenant_id\":\"T1\",\"ticket\":\x7b\"title\":\"a<b\", \"id\":\"K9\",\"n\":[1,2.5e3,true,null]\x7d\x7d"
      stringIdEvent
      (.obj [("title", .str "a<b"), ("id", .str "K9"),
        ("n", .arr [.num "1", .num "2.5e3", .bool true, .null])])
      "K9" (by rfl) rfl rfl (by decide) (by decide)).1,
   (ticket_updated_makes_two_broadcasts
      "\x7b\"event\":\"ticket.updated\",\"tenant_id\":\"T1\",\"ticket\":\x7b\"title\":\"a<b\", \"id\":\"K9\",\"n\":[1,2.5e3,true,null]\x7d\x7d"
      stringIdEvent
      (.obj [("title", .str "a<b"), ("id", .str "K9"),
        ("n", .arr [.num "1", .num "2.5e3", .bool true, .null])])
      "K9" (by rfl) rfl rfl (by decide) (by decide)).2.2.1,
   (ticket_updated_makes_two_broadcasts
      "\x7b\"event\":\"ticket.updated\",\"tenant_id\":\"T1\",\"ticket\":\x7b\"title\":\"a<b\", \"id\":\"K9\",\"n\":[1,2.5e3,true,null]\x7d\x7d"
      stringIdEvent
      (.obj [("title", .str "a<b"), ("id", .str "K9"),
        ("n", .arr [.num "1", .num "2.5e3", .bool true, .null])])
      "K9" (by rfl) rfl rfl (by decide) (by decide)).2.2.2.2⟩
/-- C7: when the payload decodes to an envelope with event name
`message.created`, `Subscriber.handleMessage` calls the `BroadcastFunc` exactly
once, with target 1 (`TargetTicket`), the envelope's ticket id, and the text
`{"data":` message snapshot `,"event":"message:created"}` (`null` for an
envelope without a message snapshot); no call has the tenant target.  Read
back as JSON the payload is the object whose `data` member is the message
snapshot and whose `event` member is `"message:created"`: the snapshot itself
when its string literals hold none of `<`, `>`, `&`, U+2028, U+2029, and
otherwise the snapshot with these characters written as `\u` escapes, as
`json.Marshal` writes them; in both cases it denotes the value the snapshot
denotes (the same members and elements in the same order, the same numbers, and
keys and string literals that denote the same strings). -/
theorem message_created_makes_one_topic_broadcast (payload : String) (event : RedisEvent)
    (hdec : unmarshalRedisEvent payload = some event)
    (hev : event.Event = "message.created") :
    Subscriber.handleMessage payload =
      [{ target := 1, targetID := event.TicketID,
         payload := String.mk ("\x7b\"data\":".toList ++ marshalRaw event.Message ++
            ",\"event\":\"message:created\"\x7d".toList) }] ∧
    (Subscriber.handleMessage payload).map mainBroadcastFunc =
      [.broadcast
        { Target := TargetTicket, TargetID := event.TicketID,
          Payload := String.mk ("\x7b\"data\":".toList ++ marshalRaw event.Message ++
            ",\"event\":\"message:created\"\x7d".toList) }] ∧
    (∀ call ∈ Subscriber.handleMessage payload, call.target ≠ 0) ∧
    (∀ snapshot, event.Message = some snapshot →
      parseJSON (String.mk ("\x7b\"data\":".toList ++ marshalRaw event.Message ++
          ",\"event\":\"message:created\"\x7d".toList)) =
        some (.obj [("data", snapshot.escaped), ("event", .str "message:created")]) ∧
      (snapshot.isPlain = true → snapshot.escaped = snapshot) ∧
      snapshot.escaped.decoded = snapshot.decoded) ∧
    (event.Message = none →
      parseJSON (String.mk ("\x7b\"data\":".toList ++ marshalRaw event.Message ++
          ",\"event\":\"message:created\"\x7d".toList)) =
        some (.obj [("data", .null), ("event", .str "message:created")])) := by
  have hm : marshalEnvelope "message:created" (marshalRaw event.Message) =
      String.mk ("\x7b\"data\":".toList ++ marshalRaw event.Message ++
        ",\"event\":\"message:created\"\x7d".toList) := by
    have hs : marshalString "message:created" = "\"message:created\"".toList := by decide
    simp only [marshalEnvelope, hs]
    congr 1
    simp
  have hcalls : Subscriber.handleMessage payload =
      [{ target := 1, targetID := event.TicketID,
         payload := String.mk ("\x7b\"data\":".toList ++ marshalRaw event.Message ++
            ",\"event\":\"message:created\"\x7d".toList) }] := by
    unfold Subscriber.handleMessage
    rw [hdec]
    simp only [hev, hm]
    simp
  have henv : ∀ data : List Char, String.mk ("\x7b\"data\":".toList ++ data ++
      ",\"event\":\"message:created\"\x7d".toList) = envelopeText "message:created" data := by
    intro data
    unfold envelopeText
    congr 1
    simp
  refine ⟨hcalls, ?_, ?_, ?_, ?_⟩
  · rw [hcalls]
    rfl
  · rw [hcalls]
    intro call hc
    rw [List.mem_singleton] at hc
    rw [hc]
    show (1 : Int) ≠ 0
    decide
  · intro snapshot hs
    obtain ⟨hwf, hn⟩ := (unmarshalRedisEvent_wf hdec).2 snapshot hs
    refine ⟨?_, hwf.escaped_of_isPlain, hwf.decoded_escaped⟩
    rw [henv, hs]
    exact parseJSON_envelopeText "message:created" snapshot
      (StrLit.of_plain "message:created".toList (by decide)) (by decide) hwf hn
  · intro hnone
    rw [henv, hnone]
    exact parseJSON_envelopeText "message:created" .null
      (StrLit.of_plain "message:created".toList (by decide)) (by decide) .null (by decide)

/-- C7 at the payload of the specification,
`{"event":"message.created","ticket_id":"K9","message":{}}`, and at the payload
`{"event":"message.created","ticket_id":"K9","message":{"body":"R&D > ops", "seq":[7, -0.5]}}`,
whose snapshot is written without its whitespace and with `&` and `>` as
`\u` escapes that denote `&` and `>`. -/
theorem message_created_makes_one_topic_broadcast_witness :
    Subscriber.handleMessage "\x7b\"event\":\"message.created\",\"ticket_id\":\"K9\",\"message\":\x7b\x7d\x7d" =
      [{ target := 1, targetID := "K9",
         payload := "\x7b\"data\":\x7b\x7d,\"event\":\"message:created\"\x7d" }] ∧
    (Subscriber.handleMessage
        "\x7b\"event\":\"message.created\",\"ticket_id\":\"K9\",\"message\":\x7b\x7d\x7d").map
        mainBroadcastFunc =
      [.broadcast
        { Target := TargetTicket, TargetID := "K9",
          Payload := "\x7b\"data\":\x7b\x7d,\"event\":\"message:created\"\x7d" }] ∧
    parseJSON "\x7b\"data\":\x7b\x7d,\"event\":\"message:created\"\x7d" =
      some (.obj [("data", .obj []), ("event", .str "message:created")]) ∧
    Subscriber.handleMessage
        "\x7b\"event\":\"message.created\",\"ticket_id\":\"K9\",\"message\":\x7b\"body\":\"R&D > ops\", \"seq\":[7, -0.5]\x7d\x7d" =
      [{ target := 1, targetID := "K9",
         payload := "\x7b\"data\":\x7b\"body\":\"R\\u0026D \\u003e ops\",\"seq\":[7,-0.5]\x7d,\"event\":\"message:created\"\x7d" }] ∧
    parseJSON
        "\x7b\"data\":\x7b\"body\":\"R\\u0026D \\u003e ops\",\"seq\":[7,-0.5]\x7d,\"event\":\"message:created\"\x7d" =
      some (.obj
        [("data", .obj [("body", .str "R\\u0026D \\u003e ops"),
          ("seq", .arr [.num "7", .num "-0.5"])]),
         ("event", .str "message:created")]) ∧
    JSON.decoded (.obj [("body", .str "R\\u0026D \\u003e ops"),
        ("seq", .arr [.num "7", .num "-0.5"])]) =
      .obj [("body", .str "R&D > ops"), ("seq", .arr [.num "7", .num "-0.5"])] :=
  ⟨(message_created_makes_one_topic_broadcast
      "\x7b\"event\":\"message.created\",\"ticket_id\":\"K9\",\"message\":\x7b\x7d\x7d"
      { Event := "message.created", TenantID := "", Ticket := none, TicketID := "K9",
        Message := some (.obj []), SourceID := "", TargetID := "" }
      (by rfl) rfl).1,
   (message_created_makes_one_topic_broadcast
      "\x7b\"event\":\"message.created\",\"ticket_id\":\"K9\",\"message\":\x7b\x7d\x7d"
      { Event := "message.created", TenantID := "", Ticket := none, TicketID := "K9",
        Message := some (.obj []), SourceID := "", TargetID := "" }
      (by rfl) rfl).2.1,
   ((message_created_makes_one_topic_broadcast
      "\x7b\"event\":\"message.created\",\"ticket_id\":\"K9\",\"message\":\x7b\x7d\x7d"
      { Event := "message.created", TenantID := "", Ticket := none, TicketID := "K9",
        Message := some (.obj []), SourceID := "", TargetID := "" }
      (by rfl) rfl).2.2.2.1 (.obj []) rfl).1,
   (message_created_makes_one_topic_broadcast
      "\x7b\"event\":\"message.created\",\"ticket_id\":\"K9\",\"message\":\x7b\"body\":\"R&D > ops\", \"seq\":[7, -0.5]\x7d\x7d"
      { Event := "message.created", TenantID := "", Ticket := none, TicketID := "K9",
        Message := some (.obj [("body", .str "R&D > ops"),
          ("seq", .arr [.num "7", .num "-0.5"])]),
        SourceID := "", TargetID := "" }
      (by rfl) rfl).1,
   ((message_created_makes_one_topic_broadcast
      "\x7b\"event\":\"message.created\",\"ticket_id\":\"K9\",\"message\":\x7b\"body\":\"R&D > ops\", \"seq\":[7, -0.5]\x7d\x7d"
      { Event := "message.created", TenantID := "", Ticket := none, TicketID := "K9",
        Message := some (.obj [("body", .str "R&D > ops"),
          ("seq", .arr [.num "7", .num "-0.5"])]),
        SourceID := "", TargetID := "" }
      (by rfl) rfl).2.2.2.1
      (.obj [("body", .str "R&D > ops"), ("seq", .arr [.num "7", .num "-0.5"])]) rfl).1,
   ((message_created_makes_one_topic_broadcast
      "\x7b\"event\":\"message.created\",\"ticket_id\":\"K9\",\"message\":\x7b\"body\":\"R&D > ops\", \"seq\":[7, -0.5]\x7d\x7d"
      { Event := "message.created", TenantID := "", Ticket := none, TicketID := "K9",
        Message := some (.obj [("body", .str "R&D > ops"),
          ("seq", .arr [.num "7", .num "-0.5"])]),
        SourceID := "", TargetID := "" }
      (by rfl) rfl).2.2.2.1
      (.obj [("body", .str "R&D > ops"), ("seq", .arr [.num "7", .num "-0.5"])]) rfl).2.2⟩
/-- C8, refuted as worded: `Client.cleanup` has no guard, so running it twice
calls `RemovePresence` twice and submits the `agent:offline` broadcast twice,
which is not what one run does. -/
theorem cleanup_twice_repeats_effects :
    agentA.cleanup ++ agentA.cleanup ≠ agentA.cleanup ∧
    (agentA.cleanup ++ agentA.cleanup).count (.removePresence agentA.TenantID agentA.UserID) = 2 ∧
    (agentA.cleanup ++ agentA.cleanup).count
      (.broadcast
        { Target := TargetTenant, TargetID := agentA.TenantID,
          Payload := "\x7b\"event\":\"agent:offline\",\"data\":\x7b\"userId\":\"u1\"\x7d\x7d" }) = 2 := by
  decide

theorem Client.broadcastViewers_no_teardown (c : Client) (viewers : Option (List String))
    (k : String) :
    ∀ a ∈ c.broadcastViewers viewers k, a.isRemovePresence = false ∧ a.isTenantBroadcast = false := by
  intro a ha
  unfold Client.broadcastViewers at ha
  cases viewers with
  | none =>
    simp only [List.mem_singleton] at ha
    subst ha
    exact ⟨rfl, rfl⟩
  | some vs =>
    simp only [List.mem_cons, List.mem_singleton, List.not_mem_nil, or_false] at ha
    rcases ha with rfl | rfl
    · exact ⟨rfl, rfl⟩
    · exact ⟨rfl, by simp [Action.isTenantBroadcast, TargetTicket, TargetTenant]⟩

theorem Client.handleMessage_no_teardown (c : Client) (reply : Option (List String))
    (msg : IncomingMessage) :
    ∀ a ∈ c.handleMessage reply msg, a.isRemovePresence = false ∧ a.isTenantBroadcast = false := by
  intro a ha
  unfold Client.handleMessage at ha
  split at ha
  · split at ha
    · cases ha
    · split at ha
      · cases ha
      · rcases List.mem_append.mp ha with h | h
        · simp only [List.mem_cons, List.mem_singleton, List.not_mem_nil, or_false] at h
          rcases h with rfl | rfl <;> exact ⟨rfl, rfl⟩
        · exact c.broadcastViewers_no_teardown _ _ a h
  · split at ha
    · split at ha
      · cases ha
      · split at ha
        · cases ha
        · rcases List.mem_append.mp ha with h | h
          · simp only [List.mem_cons, List.mem_singleton, List.not_mem_nil, or_false] at h
            rcases h with rfl | rfl <;> exact ⟨rfl, rfl⟩
          · exact c.broadcastViewers_no_teardown _ _ a h
    · split at ha
      · split at ha
        · cases ha
        · split at ha
          · cases ha
          · simp only [List.mem_singleton] at ha
            subst ha
            exact ⟨rfl, by simp [Action.isTenantBroadcast, TargetTicket, TargetTenant]⟩
      · split at ha
        · simp only [List.mem_singleton] at ha
          subst ha
          exact ⟨rfl, rfl⟩
        · split at ha
          · cases reply with
            | none =>
              simp only [List.mem_singleton] at ha
              subst ha
              exact ⟨rfl, rfl⟩
            | some ids =>
              simp only [List.mem_cons, List.mem_singleton, List.not_mem_nil, or_false] at ha
              rcases ha with rfl | rfl <;> exact ⟨rfl, rfl⟩
          · cases ha

theorem filter_eq_nil_of_forall_false {α : Type} (p : α → Bool) (l : List α)
    (h : ∀ a ∈ l, p a = false) : l.filter p = [] := by
  rw [List.filter_eq_nil_iff]
  intro a ha
  simp [h a ha]

theorem Client.ReadPump_teardown (c : Client) (frames : List (String × Option (List String))) :
    ∃ handled, c.ReadPump frames = handled ++ (c.cleanup ++ [.unregister c, .closeConn c]) ∧
      ∀ a ∈ handled, a.isRemovePresence = false ∧ a.isTenantBroadcast = false := by
  induction frames with
  | nil => exact ⟨[], rfl, fun _ h => by cases h⟩
  | cons f rest ih =>
    obtain ⟨raw, reply⟩ := f
    obtain ⟨handled, hrest, hno⟩ := ih
    unfold Client.ReadPump
    cases hdec : unmarshalIncoming raw with
    | none => exact ⟨handled, by simpa using hrest, hno⟩
    | some msg =>
      refine ⟨c.handleMessage reply msg ++ handled, by simp [hrest], ?_⟩
      intro a ha
      rcases List.mem_append.mp ha with h | h
      · exact c.handleMessage_no_teardown reply msg a h
      · exact hno a h

theorem online_ne_offline (data : List Char) :
    marshalOutgoing "agent:online" data ≠ marshalOutgoing "agent:offline" data := by
  have h1 : marshalString "agent:online" = "\"agent:online\"".toList := by decide
  have h2 : marshalString "agent:offline" = "\"agent:offline\"".toList := by decide
  unfold marshalOutgoing
  rw [h1, h2]
  intro h
  have h' := congrArg String.data h
  simp at h'

theorem Client.ReadPump_count_offline (c : Client)
    (frames : List (String × Option (List String))) :
    (c.ReadPump frames).count
      (.broadcast
        { Target := TargetTenant, TargetID := c.TenantID,
          Payload := marshalOutgoing "agent:offline" (marshalAgentPresence c.UserID) }) = 1 := by
  obtain ⟨handled, hrun, hno⟩ := c.ReadPump_teardown frames
  rw [hrun, List.count_append]
  have h0 : handled.count
      (.broadcast
        { Target := TargetTenant, TargetID := c.TenantID,
          Payload := marshalOutgoing "agent:offline" (marshalAgentPresence c.UserID) }) = 0 := by
    rw [List.count_eq_zero]
    intro hm
    have := (hno _ hm).2
    simp [Action.isTenantBroadcast] at this
  rw [h0]
  simp [Client.cleanup]

/-- C8, amended: one run of `Client.cleanup` calls `RemovePresence` for the
connection once and then submits one `agent:offline` broadcast to its tenant
room, and `ReadPump` runs it once, on exit, before it submits `Unregister` and
closes the connection.  In a whole session, from the handler of
`handler.WebSocket` to the end of `ReadPump`, `RemovePresence` is called
exactly once and the `agent:offline` broadcast is submitted exactly once; the
only other broadcast to a tenant room is the `agent:online` broadcast with
which the handler starts the session. -/
theorem session_teardown_happens_once (c : Client) (token : String)
    (frames : List (String × Option (List String))) (htoken : token ≠ "") :
    c.cleanup =
      [.removePresence c.TenantID c.UserID,
       .broadcast
        { Target := TargetTenant, TargetID := c.TenantID,
          Payload := marshalOutgoing "agent:offline" (marshalAgentPresence c.UserID) }] ∧
    (∃ handled, c.ReadPump frames = handled ++ (c.cleanup ++ [.unregister c, .closeConn c])) ∧
    (c.ReadPump frames).filter Action.isRemovePresence =
      [.removePresence c.TenantID c.UserID] ∧
    (c.ReadPump frames).filter Action.isTenantBroadcast =
      [.broadcast
        { Target := TargetTenant, TargetID := c.TenantID,
          Payload := marshalOutgoing "agent:offline" (marshalAgentPresence c.UserID) }] ∧
    handler.WebSocket token (some ⟨c.UserID, c.TenantID, c.Email, c.Role⟩) (some c.ptr) frames =
      [.register c, .setPresence c.TenantID c.UserID,
       .broadcast
        { Target := TargetTenant, TargetID := c.TenantID,
          Payload := marshalOutgoing "agent:online" (marshalAgentPresence c.UserID) }] ++
        c.ReadPump frames ∧
    (handler.WebSocket token (some ⟨c.UserID, c.TenantID, c.Email, c.Role⟩) (some c.ptr)
        frames).filter Action.isRemovePresence =
      [.removePresence c.TenantID c.UserID] ∧
    (handler.WebSocket token (some ⟨c.UserID, c.TenantID, c.Email, c.Role⟩) (some c.ptr)
        frames).filter Action.isTenantBroadcast =
      [.broadcast
        { Target := TargetTenant, TargetID := c.TenantID,
          Payload := marshalOutgoing "agent:online" (marshalAgentPresence c.UserID) },
       .broadcast
        { Target := TargetTenant, TargetID := c.TenantID,
          Payload := marshalOutgoing "agent:offline" (marshalAgentPresence c.UserID) }] ∧
    (handler.WebSocket token (some ⟨c.UserID, c.TenantID, c.Email, c.Role⟩) (some c.ptr)
        frames).count
      (.broadcast
        { Target := TargetTenant, TargetID := c.TenantID,
          Payload := marshalOutgoing "agent:offline" (marshalAgentPresence c.UserID) }) = 1 := by
  obtain ⟨handled, hrun, hno⟩ := c.ReadPump_teardown frames
  have hrp : (c.ReadPump frames).filter Action.isRemovePresence =
      [.removePresence c.TenantID c.UserID] := by
    rw [hrun, List.filter_append,
      filter_eq_nil_of_forall_false _ handled (fun a ha => (hno a ha).1)]
    rfl
  have htb : (c.ReadPump frames).filter Action.isTenantBroadcast =
      [.broadcast
        { Target := TargetTenant, TargetID := c.TenantID,
          Payload := marshalOutgoing "agent:offline" (marshalAgentPresence c.UserID) }] := by
    rw [hrun, List.filter_append,
      filter_eq_nil_of_forall_false _ handled (fun a ha => (hno a ha).2)]
    simp [Client.cleanup, List.filter, Action.isTenantBroadcast]
  have hsess : handler.WebSocket token (some ⟨c.UserID, c.TenantID, c.Email, c.Role⟩)
      (some c.ptr) frames =
      [.register c, .setPresence c.TenantID c.UserID,
       .broadcast
        { Target := TargetTenant, TargetID := c.TenantID,
          Payload := marshalOutgoing "agent:online" (marshalAgentPresence c.UserID) }] ++
        c.ReadPump frames := by
    unfold handler.WebSocket
    rw [if_neg htoken]
  refine ⟨rfl, ⟨handled, hrun⟩, hrp, htb, hsess, ?_, ?_, ?_⟩
  · rw [hsess, List.filter_append, hrp]
    rfl
  · rw [hsess, List.filter_append, htb]
    simp [List.filter, Action.isTenantBroadcast]
  · rw [hsess, List.count_append, c.ReadPump_count_offline frames]
    have hne := online_ne_offline (marshalAgentPresence c.UserID)
    simp [List.count_cons, hne]

/-- C8, amended, at a concrete session: the token of `agentA` is accepted, the
connection delivers one `heartbeat` frame and then fails. -/
theorem session_teardown_happens_once_witness :
    ("tok" : String) ≠ "" ∧
    handler.WebSocket "tok" (some agentAClaims) (some 1) [("\x7b\"event\":\"heartbeat\"\x7d", none)] =
      [.register agentA, .setPresence "T1" "u1",
       .broadcast
        { Target := TargetTenant, TargetID := "T1",
          Payload := "\x7b\"event\":\"agent:online\",\"data\":\x7b\"userId\":\"u1\"\x7d\x7d" },
       .setPresence "T1" "u1",
       .removePresence "T1" "u1",
       .broadcast
        { Target := TargetTenant, TargetID := "T1",
          Payload := "\x7b\"event\":\"agent:offline\",\"data\":\x7b\"userId\":\"u1\"\x7d\x7d" },
       .unregister agentA, .closeConn agentA] ∧
    (handler.WebSocket "tok" (some agentAClaims) (some 1)
        [("\x7b\"event\":\"heartbeat\"\x7d", none)]).count
      (.broadcast
        { Target := TargetTenant, TargetID := "T1",
          Payload := "\x7b\"event\":\"agent:offline\",\"data\":\x7b\"userId\":\"u1\"\x7d\x7d" }) = 1 :=
  ⟨by decide,
   (session_teardown_happens_once agentA "tok" [("\x7b\"event\":\"heartbeat\"\x7d", none)]
      (by decide)).2.2.2.2.1,
   (session_teardown_happens_once agentA "tok" [("\x7b\"event\":\"heartbeat\"\x7d", none)]
      (by decide)).2.2.2.2.2.2.2⟩
/-- C9: a `ticket:join` command whose data is missing, does not decode, or
decodes to an empty `ticketId` makes `Client.handleMessage` do nothing: no
request to the Hub, no call of a collaborator, no broadcast of the viewer
list; a `ReadPump` that reads only such a frame goes straight to its
teardown. -/
theorem join_without_ticket_id_does_nothing (c : Client) (reply : Option (List String))
    (msg : IncomingMessage) (hev : msg.Event = "ticket:join")
    (hbad : msg.Data = none ∨ unmarshalTicketID msg.Data = none ∨
      unmarshalTicketID msg.Data = some "") :
    c.handleMessage reply msg = [] ∧
    (∀ raw, unmarshalIncoming raw = some msg →
      c.ReadPump [(raw, reply)] = c.cleanup ++ [.unregister c, .closeConn c]) := by
  have hnone : c.handleMessage reply msg = [] := by
    unfold Client.handleMessage
    rw [if_pos hev]
    rcases hbad with h | h | h
    · rw [h]
      rfl
    · rw [h]
    · rw [h]
      simp
  refine ⟨hnone, ?_⟩
  intro raw hraw
  simp [Client.ReadPump, hraw, hnone]

/-- C9 at concrete commands: `{"event":"ticket:join","data":{"ticketId":""}}`. -/
theorem join_without_ticket_id_does_nothing_witness :
    agentA.handleMessage (some ["u1"])
        { Event := "ticket:join", Data := some (.obj [("ticketId", .str "")]) } = [] ∧
    (∀ raw,
      unmarshalIncoming raw =
          some { Event := "ticket:join", Data := some (.obj [("ticketId", .str "")]) } →
        agentA.ReadPump [(raw, some ["u1"])] =
          agentA.cleanup ++ [.unregister agentA, .closeConn agentA]) :=
  join_without_ticket_id_does_nothing agentA (some ["u1"])
    { Event := "ticket:join", Data := some (.obj [("ticketId", .str "")]) } rfl
    (Or.inr (Or.inr (by decide)))

/-! ## Claims about single requests -/

/-- C11: in every Hub state, processing `Unregister(c)` for a connection `c`
that is not in the registry changes nothing: the resulting state is the same
state (registry, tenant index, topic index and every `Send` channel, so the
channel of `c` is not closed again), and the control loop carries on with the
requests that follow as if the `Unregister` had not been there.  And for every
connection and every state, `Unregister(c)` processed twice in a row gives what
`Unregister(c)` processed once gives. -/
theorem unregister_of_absent_connection_is_noop (h : HubState) (c : Client)
    (hc : c ∉ h.clients) (rest : List Request) :
    Hub.step h (.unregister c) = some h ∧
    Hub.Run h (.unregister c :: rest) = Hub.Run h rest ∧
    (∀ (h₀ : HubState) (x : Client) (more : List Request),
      Hub.Run h₀ (.unregister x :: .unregister x :: more) =
        Hub.Run h₀ (.unregister x :: more)) := by
  have hnoop : ∀ (s : HubState) (x : Client), x ∉ s.clients →
      Hub.step s (.unregister x) = some s := by
    intro s x hx
    show Hub.unregister s x = some s
    unfold Hub.unregister
    rw [if_pos hx]
  have hrun : ∀ (s : HubState) (x : Client) (more : List Request), x ∉ s.clients →
      Hub.Run s (.unregister x :: more) = Hub.Run s more := by
    intro s x more hx
    rw [Hub.Run_cons more (by simp), hnoop s x hx]
  refine ⟨hnoop h c hc, hrun h c rest hc, ?_⟩
  intro h₀ x more
  rw [Hub.Run_cons (.unregister x :: more) (by simp), Hub.Run_cons more (by simp)]
  cases hstep : Hub.step h₀ (.unregister x) with
  | none => rfl
  | some h₁ =>
    simp only
    exact hrun h₁ x more (Hub.not_mem_clients_of_unregister hstep)

/-- C11 at a concrete state: `agentA` has been evicted (`evictedState`) and its
`ReadPump` then submits `Unregister(agentA)`. -/
theorem unregister_of_absent_connection_is_noop_witness :
    Hub.step evictedState (.unregister agentA) = some evictedState ∧
    Hub.Run evictedState (.unregister agentA :: [.register agentB]) =
      Hub.Run evictedState [.register agentB] ∧
    (∀ (h₀ : HubState) (x : Client) (more : List Request),
      Hub.Run h₀ (.unregister x :: .unregister x :: more) =
        Hub.Run h₀ (.unregister x :: more)) :=
  unregister_of_absent_connection_is_noop evictedState agentA (by decide) [.register agentB]

/-- C12: in every Hub state, processing `JoinTopic(c,k)` or `LeaveTopic(c,k)`
leaves the registry, the tenant index, every `Send` channel and every ticket
room other than `k` as they were.  After `JoinTopic(c,k)` room `k` holds its
former members and `c`; on an absent `k` it is created with `c` as its only
member.  After `LeaveTopic(c,k)` room `k` holds its former members without
`c`; when none is left the key `k` is deleted; on an absent `k` nothing
changes. -/
theorem join_and_leave_touch_only_their_topic (h : HubState) (c : Client) (k : String) :
    Hub.step h (.joinTicket c k) = some (Hub.joinTicket h c k) ∧
    Hub.step h (.leaveTicket c k) = some (Hub.leaveTicket h c k) ∧
    ((Hub.joinTicket h c k).clients = h.clients ∧ (Hub.joinTicket h c k).tenants = h.tenants ∧
      (Hub.joinTicket h c k).send = h.send ∧
      ∀ k', k' ≠ k → (Hub.joinTicket h c k).tickets.get k' = h.tickets.get k') ∧
    ((Hub.leaveTicket h c k).clients = h.clients ∧ (Hub.leaveTicket h c k).tenants = h.tenants ∧
      (Hub.leaveTicket h c k).send = h.send ∧
      ∀ k', k' ≠ k → (Hub.leaveTicket h c k).tickets.get k' = h.tickets.get k') ∧
    (Hub.joinTicket h c k).tickets.get k = some ((h.tickets.members k).add c) ∧
    (h.tickets.get k = none → (Hub.joinTicket h c k).tickets.get k = some [c]) ∧
    (∀ x, x ∈ (Hub.leaveTicket h c k).tickets.members k ↔ x ∈ h.tickets.members k ∧ x ≠ c) ∧
    ((∀ x ∈ h.tickets.members k, x = c) → (Hub.leaveTicket h c k).tickets.get k = none) ∧
    (h.tickets.get k = none → Hub.leaveTicket h c k = h) := by
  refine ⟨rfl, rfl, ⟨rfl, rfl, rfl, ?_⟩, ⟨rfl, rfl, rfl, ?_⟩, ?_, ?_, ?_, ?_, ?_⟩
  · intro k' hk
    exact RoomIndex.get_put_ne _ _ hk
  · intro k' hk
    exact RoomIndex.get_leave_ne _ _ hk
  · exact RoomIndex.get_put_self _ _ _
  · intro hnone
    have : (Hub.joinTicket h c k).tickets.get k = some ((h.tickets.members k).add c) :=
      RoomIndex.get_put_self _ _ _
    rw [this]
    simp [RoomIndex.members, hnone, ClientSet.add]
  · intro x
    have := RoomIndex.mem_members_leave h.tickets k k c x
    simpa using this
  · intro hall
    have hg : (Hub.leaveTicket h c k).tickets.get k = (h.tickets.leave k c).get k := rfl
    rw [hg, RoomIndex.get_leave_self]
    cases hget : h.tickets.get k with
    | none => rfl
    | some room =>
      simp only
      have hroom : ∀ x ∈ room, x = c := by
        intro x hx
        exact hall x (by simpa [RoomIndex.members, hget] using hx)
      rw [if_pos (ClientSet.remove_isEmpty.mpr hroom)]
  · intro hnone
    simp [Hub.leaveTicket, RoomIndex.leave, hnone]

/-! ## Claims about the consistency of the indices -/

set_option maxRecDepth 100000 in
/-- C13 (evaluation at the failing input): after `agentA` registered, joined
`K9` and was sent 256 tenant frames, one more broadcast to its tenant room
evicts it; the eviction branch deletes it from `tenants["T1"]` but keeps the
key, so the tenant index holds the room `T1` with no member, where the
`unregister` case on the same state deletes the key.  The other half of the
claim holds: in every reachable state no ticket room is empty. -/
theorem eviction_leaves_empty_tenant_room :
    (∀ r ∈ stalledRequests ++ [.broadcast tenantMsg], r ≠ .shutdown) ∧
    Hub.Run NewHub (stalledRequests ++ [.broadcast tenantMsg]) = .waiting evictedState ∧
    evictedState.tenants.get "T1" = some [] ∧
    (Hub.unregister stalledState agentA).map (fun h => h.tenants.get "T1") = some none ∧
    (∀ h, Reachable h → ∀ k room, h.tickets.get k = some room → room ≠ []) := by
  refine ⟨by decide, by decide, by decide, by decide, ?_⟩
  intro h hr k room hg
  exact hr.topicsNonempty (k, room) (RoomIndex.mem_of_get hg)

/-- C14, refuted as worded: `agentA` joins `K9` and disconnects, and the
`select` takes its `Unregister` before its `JoinTopic`; the `joinTicket` case
makes no check of the registry, so `agentA` ends up a member of ticket room
`K9` without being in the registry. -/
theorem join_after_unregister_leaves_unregistered_member :
    Hub.Run NewHub [.register agentA, .unregister agentA, .joinTicket agentA "K9"] =
      .waiting
        { clients := [], tenants := [], tickets := [("K9", [agentA])],
          send := [(agentA, { buf := [], closed := true })] } ∧
    agentA ∈ RoomIndex.members [("K9", [agentA])] "K9" ∧
    agentA ∉ ([] : ClientSet) := by
  decide

/-- C14, amended: along every run of the system from `NewHub()` (requests
processed by the control loop, steps of the outbound loops, `presence:list`
replies), every member of a tenant room is in the registry and belongs to that
tenant; and every connection whose `JoinTopic` requests were all processed
while it was in the registry, and which no broadcast evicted, is in the
registry whenever it is a member of a ticket room. -/
theorem room_members_are_registered (evs : List Event) (s : System)
    (hrun : System.run System.start evs = some s) :
    (∀ t c, c ∈ s.hub.tenants.members t → c ∈ s.hub.clients ∧ c.TenantID = t) ∧
    (∀ c, System.keeps c System.start evs = true →
      ∀ k, c ∈ s.hub.tickets.members k → c ∈ s.hub.clients) := by
  have hten : TenantsAgree s.hub := tenantsAgree_run evs hrun
  refine ⟨?_, ?_⟩
  · intro t c hc
    have ht := hten.tenant_of t c hc
    subst ht
    exact ⟨(hten.mem_iff c).mp hc, rfl⟩
  · intro c hkeep k hc
    have hreg : MemberRegistered s.hub c :=
      memberRegistered_run c evs (fun kv hkv => by simp [System.start, NewHub] at hkv)
        hkeep hrun
    obtain ⟨room, hroom, hcr⟩ := RoomIndex.mem_members hc
    exact hreg _ hroom hcr

set_option maxRecDepth 100000 in
/-- C14, amended, at a concrete run: `agentB` registers and is evicted by the
257th tenant frame, then `agentA` registers and joins ticket room `K9`.
`agentA` joined while registered and was not evicted: it is a member of `K9`
and in the registry. -/
theorem room_members_are_registered_witness :
    System.run System.start (hubEvents evictionThenJoinRequests) =
      some ⟨evictionThenJoinState, true, []⟩ ∧
    System.keeps agentA System.start (hubEvents evictionThenJoinRequests) = true ∧
    System.keeps agentB System.start (hubEvents evictionThenJoinRequests) = false ∧
    agentA ∈ evictionThenJoinState.tickets.members "K9" ∧
    agentA ∈ evictionThenJoinState.clients ∧
    (∀ t c, c ∈ evictionThenJoinState.tenants.members t →
      c ∈ evictionThenJoinState.clients ∧ c.TenantID = t) :=
  ⟨by decide, by decide, by decide, by decide,
   (room_members_are_registered (hubEvents evictionThenJoinRequests)
      ⟨evictionThenJoinState, true, []⟩ (by decide)).2 agentA (by decide) "K9" (by decide),
   (room_members_are_registered (hubEvents evictionThenJoinRequests)
      ⟨evictionThenJoinState, true, []⟩ (by decide)).1⟩
set_option maxRecDepth 100000 in
/-- C20 (evaluation at the failing input): `agentA` is registered once, joins
`K9`, is sent 256 tenant frames and is evicted by the next one.  In the state
reached it is a member of ticket room `K9` and its queue is closed, and the
next broadcast to `K9` sends on the closed queue: `Hub.Run` panics.  The same
happens without any eviction when the `select` takes the `Unregister` of a
connection before its `JoinTopic`.  What holds in every reachable state is
that the members of the registry and of the tenant rooms have open queues. -/
theorem broadcast_after_eviction_sends_on_closed_queue :
    ofKind .register (stalledRequests ++ [.broadcast tenantMsg, .broadcast ticketMsg]) =
      [.register agentA] ∧
    Hub.Run NewHub (stalledRequests ++ [.broadcast tenantMsg]) = .waiting evictedState ∧
    agentA ∈ evictedState.tickets.members "K9" ∧
    (evictedState.chan agentA).closed = true ∧
    Hub.Run NewHub (stalledRequests ++ [.broadcast tenantMsg, .broadcast ticketMsg]) =
      .panicked ∧
    Hub.Run NewHub
      [.register agentA, .unregister agentA, .joinTicket agentA "K9", .broadcast ticketMsg] =
      .panicked ∧
    (∀ h, Reachable h →
      (∀ c ∈ h.clients, (h.chan c).closed = false) ∧
      (∀ t c, c ∈ h.tenants.members t → (h.chan c).closed = false)) := by
  refine ⟨by decide, by decide, by decide, by decide, by decide, by decide, ?_⟩
  intro h hr
  refine ⟨hr.registryOpen.isOpen, ?_⟩
  intro t c hc
  have hten := hr.tenantsAgree
  have ht := hten.tenant_of t c hc
  subst ht
  exact hr.registryOpen.isOpen c ((hten.mem_iff c).mp hc)

/-! ## The order in which the Hub processes requests -/

/-- C17, refuted as worded: the join handler submits `JoinTopic(agentA, K9)`
and then the broadcast of the viewer list to ticket room `K9`.  They wait in
two channels, `joinTicket` and `broadcast`, and the `select` of `Hub.Run` may
take the `broadcast` case first: the broadcast is then processed before the
join submitted ahead of it and resolves against a room that `agentA` is not
yet in, so `agentA` is not sent the frame it would be sent in submission
order. -/
theorem select_may_process_broadcast_before_earlier_join :
    Traffic.run Traffic.start
        [.submit (.joinTicket agentA "K9"), .submit (.broadcast ticketMsg),
         .select .broadcast, .select .joinTicket] =
      some
        { inbox := Inbox.new
          submitted := [.joinTicket agentA "K9", .broadcast ticketMsg]
          processed := [.broadcast ticketMsg, .joinTicket agentA "K9"] } ∧
    Hub.Run registeredState [.broadcast ticketMsg, .joinTicket agentA "K9"] =
      .waiting { registeredState with tickets := [("K9", [agentA])] } ∧
    Hub.Run registeredState [.joinTicket agentA "K9", .broadcast ticketMsg] =
      .waiting
        { registeredState with
          tickets := [("K9", [agentA])]
          send := [(agentA, { buf := [ticketMsg.Payload], closed := false })] } := by
  decide

/-- C17, amended: whatever requests are submitted and whichever cases the
`select` of `Hub.Run` takes, the requests of each kind (`Register`,
`Unregister`, `JoinTopic`, `LeaveTopic`, `Broadcast`) that the loop has
received are, in order, the first of the requests of that kind that were
submitted; those not yet received wait in the channel of that kind, in
submission order. -/
theorem requests_of_one_kind_keep_submission_order (steps : List InboxStep) (t : Traffic)
    (hrun : Traffic.run Traffic.start steps = some t) (k : SelectCase)
    (hk : k ≠ .shutdown) :
    ofKind k t.processed ++ t.inbox.pending k = ofKind k t.submitted ∧
    List.IsPrefix (ofKind k t.processed) (ofKind k t.submitted) := by
  have h := Traffic.run_fifo steps hrun k hk (by cases k <;> rfl)
  exact ⟨h, ⟨t.inbox.pending k, h⟩⟩

/-- C17, amended, at a concrete traffic: two broadcasts and a join are
submitted, the `select` takes the first broadcast and then the join. -/
theorem requests_of_one_kind_keep_submission_order_witness :
    ofKind .broadcast [.broadcast tenantMsg, .joinTicket agentA "K9"] ++
        Inbox.pending { Inbox.new with broadcast := [ticketMsg] } .broadcast =
      ofKind .broadcast
        [.broadcast tenantMsg, .joinTicket agentA "K9", .broadcast ticketMsg] ∧
    List.IsPrefix (ofKind .broadcast [.broadcast tenantMsg, .joinTicket agentA "K9"])
      (ofKind .broadcast
        [.broadcast tenantMsg, .joinTicket agentA "K9", .broadcast ticketMsg]) :=
  requests_of_one_kind_keep_submission_order
    [.submit (.broadcast tenantMsg), .submit (.joinTicket agentA "K9"),
     .submit (.broadcast ticketMsg), .select .broadcast, .select .joinTicket]
    { inbox := { Inbox.new with broadcast := [ticketMsg] }
      submitted := [.broadcast tenantMsg, .joinTicket agentA "K9", .broadcast ticketMsg]
      processed := [.broadcast tenantMsg, .joinTicket agentA "K9"] }
    (by decide) .broadcast (by decide)

/-! ## Claims about the translation table and the join command -/

/-- C15: a payload that decodes to an envelope with event name
`ticket.created` makes `Subscriber.handleMessage` call the `BroadcastFunc`
exactly once, with target 0 (`TargetTenant`), the envelope's tenant id, and the
JSON object whose `data` member is the ticket snapshot (`null` when there is
none) and whose `event` member is `"ticket:created"`; one with event name
`ticket.merged` makes it call exactly once, with target 0, the tenant id, and
the object whose `data` member is `{"sourceId": source_id, "targetId":
target_id}` and whose `event` member is `"ticket:merged"`.  Neither makes a
call with the ticket-room target.  Read back as JSON, the `data` member of the
first payload is the ticket snapshot (the snapshot itself when its string
literals hold none of `<`, `>`, `&`, U+2028, U+2029, and otherwise the snapshot
with these characters written as `\u` escapes; in both cases it denotes the
value the snapshot denotes), and the `data` member of the second is an object
with the two members `sourceId` and `targetId`, string literals that denote the
envelope's source id and target id. -/
theorem created_and_merged_make_one_tenant_broadcast (p₁ p₂ : String) (e₁ e₂ : RedisEvent)
    (h₁ : unmarshalRedisEvent p₁ = some e₁) (hc : e₁.Event = "ticket.created")
    (h₂ : unmarshalRedisEvent p₂ = some e₂) (hm : e₂.Event = "ticket.merged") :
    Subscriber.handleMessage p₁ =
      [{ target := 0, targetID := e₁.TenantID,
         payload := envelopeText "ticket:created" (marshalRaw e₁.Ticket) }] ∧
    Subscriber.handleMessage p₂ =
      [{ target := 0, targetID := e₂.TenantID,
         payload := envelopeText "ticket:merged"
           ("\x7b\"sourceId\":".toList ++ marshalString e₂.SourceID ++
             ",\"targetId\":".toList ++ marshalString e₂.TargetID ++ "\x7d".toList) }] ∧
    (Subscriber.handleMessage p₁).map mainBroadcastFunc =
      [.broadcast
        { Target := TargetTenant, TargetID := e₁.TenantID,
          Payload := envelopeText "ticket:created" (marshalRaw e₁.Ticket) }] ∧
    (∀ call ∈ Subscriber.handleMessage p₁ ++ Subscriber.handleMessage p₂, call.target ≠ 1) ∧
    (∀ snapshot, e₁.Ticket = some snapshot →
      parseJSON (envelopeText "ticket:created" (marshalRaw e₁.Ticket)) =
        some (.obj [("data", snapshot.escaped), ("event", .str "ticket:created")]) ∧
      (snapshot.isPlain = true → snapshot.escaped = snapshot) ∧
      snapshot.escaped.decoded = snapshot.decoded) ∧
    (e₁.Ticket = none →
      parseJSON (envelopeText "ticket:created" (marshalRaw e₁.Ticket)) =
        some (.obj [("data", .null), ("event", .str "ticket:created")])) ∧
    (∃ qs qt,
      parseJSON (envelopeText "ticket:merged"
          ("\x7b\"sourceId\":".toList ++ marshalString e₂.SourceID ++
            ",\"targetId\":".toList ++ marshalString e₂.TargetID ++ "\x7d".toList)) =
        some (.obj [("data", .obj [("sourceId", .str qs), ("targetId", .str qt)]),
          ("event", .str "ticket:merged")]) ∧
      unquote qs = e₂.SourceID ∧ unquote qt = e₂.TargetID) := by
  have hcr : Subscriber.handleMessage p₁ =
      [{ target := 0, targetID := e₁.TenantID,
         payload := envelopeText "ticket:created" (marshalRaw e₁.Ticket) }] := by
    unfold Subscriber.handleMessage
    rw [h₁]
    simp only [hc, marshalEnvelope_created]
    simp
  have hmg : Subscriber.handleMessage p₂ =
      [{ target := 0, targetID := e₂.TenantID,
         payload := envelopeText "ticket:merged"
           ("\x7b\"sourceId\":".toList ++ marshalString e₂.SourceID ++
             ",\"targetId\":".toList ++ marshalString e₂.TargetID ++ "\x7d".toList) }] := by
    unfold Subscriber.handleMessage
    rw [h₂]
    simp only [hm, marshalEnvelope_merged, marshalMerge]
    simp
  refine ⟨hcr, hmg, ?_, ?_, ?_, ?_, parseJSON_merged e₂.SourceID e₂.TargetID⟩
  · rw [hcr]
    rfl
  · rw [hcr, hmg]
    intro call hcall
    simp only [List.singleton_append, List.mem_cons, List.mem_singleton, List.not_mem_nil,
      or_false] at hcall
    rcases hcall with rfl | rfl
    · show (0 : Int) ≠ 1
      decide
    · show (0 : Int) ≠ 1
      decide
  · intro snapshot hs
    obtain ⟨hwf, hn⟩ := (unmarshalRedisEvent_wf h₁).1 snapshot hs
    refine ⟨?_, hwf.escaped_of_isPlain, hwf.decoded_escaped⟩
    rw [hs]
    exact parseJSON_envelopeText "ticket:created" snapshot
      (StrLit.of_plain "ticket:created".toList (by decide)) (by decide) hwf hn
  · intro hnone
    rw [hnone]
    exact parseJSON_envelopeText "ticket:created" .null
      (StrLit.of_plain "ticket:created".toList (by decide)) (by decide) .null (by decide)

/-- C15 at concrete payloads:
`{"event":"ticket.created","tenant_id":"T1","ticket":{"id":"K9", "tags":["a&b"]}}`,
whose snapshot is written without its whitespace and with `&` as a `\u`
escape that denotes `&`, and
`{"event":"ticket.merged","tenant_id":"T1","source_id":"K\"1","target_id":"K9"}`,
whose source id holds a quote. -/
theorem created_and_merged_make_one_tenant_broadcast_witness :
    Subscriber.handleMessage
        "\x7b\"event\":\"ticket.created\",\"tenant_id\":\"T1\",\"ticket\":\x7b\"id\":\"K9\", \"tags\":[\"a&b\"]\x7d\x7d" =
      [{ target := 0, targetID := "T1",
         payload := "\x7b\"data\":\x7b\"id\":\"K9\",\"tags\":[\"a\\u0026b\"]\x7d,\"event\":\"ticket:created\"\x7d" }] ∧
    Subscriber.handleMessage
        "\x7b\"event\":\"ticket.merged\",\"tenant_id\":\"T1\",\"source_id\":\"K\\\"1\",\"target_id\":\"K9\"\x7d" =
      [{ target := 0, targetID := "T1",
         payload := "\x7b\"data\":\x7b\"sourceId\":\"K\\\"1\",\"targetId\":\"K9\"\x7d,\"event\":\"ticket:merged\"\x7d" }] ∧
    (Subscriber.handleMessage
        "\x7b\"event\":\"ticket.created\",\"tenant_id\":\"T1\",\"ticket\":\x7b\"id\":\"K9\", \"tags\":[\"a&b\"]\x7d\x7d").map
        mainBroadcastFunc =
      [.broadcast
        { Target := TargetTenant, TargetID := "T1",
          Payload := "\x7b\"data\":\x7b\"id\":\"K9\",\"tags\":[\"a\\u0026b\"]\x7d,\"event\":\"ticket:created\"\x7d" }] ∧
    parseJSON "\x7b\"data\":\x7b\"id\":\"K9\",\"tags\":[\"a\\u0026b\"]\x7d,\"event\":\"ticket:created\"\x7d" =
      some (.obj [("data", .obj [("id", .str "K9"), ("tags", .arr [.str "a\\u0026b"])]),
        ("event", .str "ticket:created")]) ∧
    JSON.decoded (.obj [("id", .str "K9"), ("tags", .arr [.str "a\\u0026b"])]) =
      .obj [("id", .str "K9"), ("tags", .arr [.str "a&b"])] ∧
    (∃ qs qt,
      parseJSON "\x7b\"data\":\x7b\"sourceId\":\"K\\\"1\",\"targetId\":\"K9\"\x7d,\"event\":\"ticket:merged\"\x7d" =
        some (.obj [("data", .obj [("sourceId", .str qs), ("targetId", .str qt)]),
          ("event", .str "ticket:merged")]) ∧
      unquote qs = "K\"1" ∧ unquote qt = "K9") :=
  ⟨(created_and_merged_make_one_tenant_broadcast
      "\x7b\"event\":\"ticket.created\",\"tenant_id\":\"T1\",\"ticket\":\x7b\"id\":\"K9\", \"tags\":[\"a&b\"]\x7d\x7d"
      "\x7b\"event\":\"ticket.merged\",\"tenant_id\":\"T1\",\"source_id\":\"K\\\"1\",\"target_id\":\"K9\"\x7d"
      { Event := "ticket.created", TenantID := "T1",
        Ticket := some (.obj [("id", .str "K9"), ("tags", .arr [.str "a&b"])]),
        TicketID := "", Message := none, SourceID := "", TargetID := "" }
      { Event := "ticket.merged", TenantID := "T1", Ticket := none, TicketID := "",
        Message := none, SourceID := "K\"1", TargetID := "K9" }
      (by rfl) rfl (by rfl) rfl).1,
   (created_and_merged_make_one_tenant_broadcast
      "\x7b\"event\":\"ticket.created\",\"tenant_id\":\"T1\",\"ticket\":\x7b\"id\":\"K9\", \"tags\":[\"a&b\"]\x7d\x7d"
      "\x7b\"event\":\"ticket.merged\",\"tenant_id\":\"T1\",\"source_id\":\"K\\\"1\",\"target_id\":\"K9\"\x7d"
      { Event := "ticket.created", TenantID := "T1",
        Ticket := some (.obj [("id", .str "K9"), ("tags", .arr [.str "a&b"])]),
        TicketID := "", Message := none, SourceID := "", TargetID := "" }
      { Event := "ticket.merged", TenantID := "T1", Ticket := none, TicketID := "",
        Message := none, SourceID := "K\"1", TargetID := "K9" }
      (by rfl) rfl (by rfl) rfl).2.1,
   (created_and_merged_make_one_tenant_broadcast
      "\x7b\"event\":\"ticket.created\",\"tenant_id\":\"T1\",\"ticket\":\x7b\"id\":\"K9\", \"tags\":[\"a&b\"]\x7d\x7d"
      "\x7b\"event\":\"ticket.merged\",\"tenant_id\":\"T1\",\"source_id\":\"K\\\"1\",\"target_id\":\"K9\"\x7d"
      { Event := "ticket.created", TenantID := "T1",
        Ticket := some (.obj [("id", .str "K9"), ("tags", .arr [.str "a&b"])]),
        TicketID := "", Message := none, SourceID := "", TargetID := "" }
      { Event := "ticket.merged", TenantID := "T1", Ticket := none, TicketID := "",
        Message := none, SourceID := "K\"1", TargetID := "K9" }
      (by rfl) rfl (by rfl) rfl).2.2.1,
   ((created_and_merged_make_one_tenant_broadcast
      "\x7b\"event\":\"ticket.created\",\"tenant_id\":\"T1\",\"ticket\":\x7b\"id\":\"K9\", \"tags\":[\"a&b\"]\x7d\x7d"
      "\x7b\"event\":\"ticket.merged\",\"tenant_id\":\"T1\",\"source_id\":\"K\\\"1\",\"target_id\":\"K9\"\x7d"
      { Event := "ticket.created", TenantID := "T1",
        Ticket := some (.obj [("id", .str "K9"), ("tags", .arr [.str "a&b"])]),
        TicketID := "", Message := none, SourceID := "", TargetID := "" }
      { Event := "ticket.merged", TenantID := "T1", Ticket := none, TicketID := "",
        Message := none, SourceID := "K\"1", TargetID := "K9" }
      (by rfl) rfl (by rfl) rfl).2.2.2.2.1
      (.obj [("id", .str "K9"), ("tags", .arr [.str "a&b"])]) rfl).1,
   ((created_and_merged_make_one_tenant_broadcast
      "\x7b\"event\":\"ticket.created\",\"tenant_id\":\"T1\",\"ticket\":\x7b\"id\":\"K9\", \"tags\":[\"a&b\"]\x7d\x7d"
      "\x7b\"event\":\"ticket.merged\",\"tenant_id\":\"T1\",\"source_id\":\"K\\\"1\",\"target_id\":\"K9\"\x7d"
      { Event := "ticket.created", TenantID := "T1",
        Ticket := some (.obj [("id", .str "K9"), ("tags", .arr [.str "a&b"])]),
        TicketID := "", Message := none, SourceID := "", TargetID := "" }
      { Event := "ticket.merged", TenantID := "T1", Ticket := none, TicketID := "",
        Message := none, SourceID := "K\"1", TargetID := "K9" }
      (by rfl) rfl (by rfl) rfl).2.2.2.2.1
      (.obj [("id", .str "K9"), ("tags", .arr [.str "a&b"])]) rfl).2.2,
   (created_and_merged_make_one_tenant_broadcast
      "\x7b\"event\":\"ticket.created\",\"tenant_id\":\"T1\",\"ticket\":\x7b\"id\":\"K9\", \"tags\":[\"a&b\"]\x7d\x7d"
      "\x7b\"event\":\"ticket.merged\",\"tenant_id\":\"T1\",\"source_id\":\"K\\\"1\",\"target_id\":\"K9\"\x7d"
      { Event := "ticket.created", TenantID := "T1",
        Ticket := some (.obj [("id", .str "K9"), ("tags", .arr [.str "a&b"])]),
        TicketID := "", Message := none, SourceID := "", TargetID := "" }
      { Event := "ticket.merged", TenantID := "T1", Ticket := none, TicketID := "",
        Message := none, SourceID := "K\"1", TargetID := "K9" }
      (by rfl) rfl (by rfl) rfl).2.2.2.2.2.2⟩
/-- C16: a payload that `json.Unmarshal` rejects, and a payload that decodes to
an envelope whose event name is none of `ticket.created`, `ticket.updated`,
`ticket.merged`, `message.created`, make `Subscriber.handleMessage` return
without a call of the `BroadcastFunc`; the loop of `Listen` goes on with the
messages that follow, whose calls are made as if the dropped payloads had not
been there. -/
theorem dropped_payloads_make_no_broadcast (p₁ p₂ : String) (e₂ : RedisEvent)
    (h₁ : unmarshalRedisEvent p₁ = none)
    (h₂ : unmarshalRedisEvent p₂ = some e₂)
    (hc : e₂.Event ≠ "ticket.created") (hu : e₂.Event ≠ "ticket.updated")
    (hm : e₂.Event ≠ "ticket.merged") (hg : e₂.Event ≠ "message.created")
    (before between after : List String) :
    Subscriber.handleMessage p₁ = [] ∧
    Subscriber.handleMessage p₂ = [] ∧
    Subscriber.Listen (before ++ p₁ :: between ++ p₂ :: after) =
      Subscriber.Listen before ++ Subscriber.Listen between ++ Subscriber.Listen after := by
  have d₁ := Subscriber.handleMessage_of_undecodable h₁
  have d₂ := Subscriber.handleMessage_of_unknown h₂ hc hu hm hg
  refine ⟨d₁, d₂, ?_⟩
  have skip : ∀ (p : String) (rest : List String), Subscriber.handleMessage p = [] →
      Subscriber.Listen (p :: rest) = Subscriber.Listen rest := by
    intro p rest hp
    simp [Subscriber.Listen, hp]
  rw [Subscriber.Listen_append, Subscriber.Listen_append, skip p₁ between d₁,
    skip p₂ after d₂]

/-- C16 at concrete payloads: text that is not JSON, and an envelope with the
event name `ticket.deleted`, between two envelopes that are translated. -/
theorem dropped_payloads_make_no_broadcast_witness :
    Subscriber.handleMessage "not json" = [] ∧
    Subscriber.handleMessage "\x7b\"event\":\"ticket.deleted\",\"tenant_id\":\"T1\"\x7d" = [] ∧
    Subscriber.Listen
        (["\x7b\"event\":\"message.created\",\"ticket_id\":\"K9\",\"message\":\x7b\x7d\x7d"] ++
          "not json" :: [] ++
          "\x7b\"event\":\"ticket.deleted\",\"tenant_id\":\"T1\"\x7d" ::
          ["\x7b\"event\":\"message.created\",\"ticket_id\":\"K7\",\"message\":\x7b\x7d\x7d"]) =
      Subscriber.Listen
          ["\x7b\"event\":\"message.created\",\"ticket_id\":\"K9\",\"message\":\x7b\x7d\x7d"] ++
        Subscriber.Listen [] ++
        Subscriber.Listen
          ["\x7b\"event\":\"message.created\",\"ticket_id\":\"K7\",\"message\":\x7b\x7d\x7d"] :=
  dropped_payloads_make_no_broadcast "not json"
    "\x7b\"event\":\"ticket.deleted\",\"tenant_id\":\"T1\"\x7d"
    { Event := "ticket.deleted", TenantID := "T1", Ticket := none, TicketID := "",
      Message := none, SourceID := "", TargetID := "" }
    (by rfl) (by rfl) (by decide) (by decide) (by decide) (by decide)
    ["\x7b\"event\":\"message.created\",\"ticket_id\":\"K9\",\"message\":\x7b\x7d\x7d"] []
    ["\x7b\"event\":\"message.created\",\"ticket_id\":\"K7\",\"message\":\x7b\x7d\x7d"]

/-- C18: for a payload that decodes to an envelope with event name
`ticket.updated`, `Subscriber.handleMessage` first makes the call for the
tenant room, and makes a second call, for a ticket room, exactly when the
ticket snapshot decodes (as `json.Unmarshal` decodes it into a struct with the
field `id`, matching keys without regard to case) to an id that is not empty;
that call has the id as its key and the very payload of the first call.
Exactly one call, the one for the tenant room, is made when the snapshot is
absent, when it is not an object, when no member of it is an id, when every id
member is `null` or the empty string, and when an id member is neither a
string nor `null`.  In terms of the snapshot itself: when its id members are
strings or `null`, the last one that is a string decides; the second call is
made, with the string it denotes as key, when that string is not empty, and is
not made when it is empty. -/
theorem ticket_updated_topic_broadcast_iff_id (payload : String) (event : RedisEvent)
    (hdec : unmarshalRedisEvent payload = some event)
    (hev : event.Event = "ticket.updated") :
    (∃ rest, Subscriber.handleMessage payload = tenantUpdatedCall event :: rest ∧
      ∀ call ∈ rest, call.target = 1) ∧
    ((∃ call ∈ Subscriber.handleMessage payload, call.target = 1) ↔
      ∃ K, unmarshalTicketRef event.Ticket = some K ∧ K ≠ "") ∧
    (∀ K, unmarshalTicketRef event.Ticket = some K → K ≠ "" →
      Subscriber.handleMessage payload = [tenantUpdatedCall event, ticketUpdatedCall event K] ∧
      (ticketUpdatedCall event K).payload = (tenantUpdatedCall event).payload ∧
      (ticketUpdatedCall event K).targetID = K) ∧
    (event.Ticket = none → Subscriber.handleMessage payload = [tenantUpdatedCall event]) ∧
    (∀ j, event.Ticket = some j → j.isObject = false →
      Subscriber.handleMessage payload = [tenantUpdatedCall event]) ∧
    (∀ fields, event.Ticket = some (.obj fields) →
      (∀ kv ∈ fields, keyMatches (unquote kv.1) "id" = false) →
      Subscriber.handleMessage payload = [tenantUpdatedCall event]) ∧
    (∀ fields, event.Ticket = some (.obj fields) →
      (∀ kv ∈ fields, keyMatches (unquote kv.1) "id" = true → kv.2.isEmptyId = true) →
      Subscriber.handleMessage payload = [tenantUpdatedCall event]) ∧
    (∀ fields, event.Ticket = some (.obj fields) →
      (∃ kv ∈ fields, keyMatches (unquote kv.1) "id" = true ∧ kv.2.isString = false ∧
        kv.2.isNull = false) →
      Subscriber.handleMessage payload = [tenantUpdatedCall event]) ∧
    (∀ pre key lit post, event.Ticket = some (.obj (pre ++ (key, .str lit) :: post)) →
      keyMatches (unquote key) "id" = true →
      (∀ kv ∈ pre, keyMatches (unquote kv.1) "id" = true →
        kv.2.isString = true ∨ kv.2.isNull = true) →
      (∀ kv ∈ post, keyMatches (unquote kv.1) "id" = true → kv.2.isNull = true) →
      (unquote lit ≠ "" →
        Subscriber.handleMessage payload =
          [tenantUpdatedCall event, ticketUpdatedCall event (unquote lit)]) ∧
      (unquote lit = "" →
        Subscriber.handleMessage payload = [tenantUpdatedCall event])) := by
  have hcode := Subscriber.handleMessage_updated hdec hev
  have hone : (unmarshalTicketRef event.Ticket = none ∨
      unmarshalTicketRef event.Ticket = some "") →
      Subscriber.handleMessage payload = [tenantUpdatedCall event] := by
    intro h
    rw [hcode]
    rcases h with h | h
    · rw [h]
      rfl
    · rw [h]
      rfl
  have htwo : ∀ K, unmarshalTicketRef event.Ticket = some K → K ≠ "" →
      Subscriber.handleMessage payload =
        [tenantUpdatedCall event, ticketUpdatedCall event K] := by
    intro K hK hne
    rw [hcode, hK]
    simp only [hne, ne_eq, not_false_eq_true, if_true]
    rfl
  refine ⟨?_, ?_, ?_, ?_, ?_, ?_, ?_, ?_, ?_⟩
  · cases hr : unmarshalTicketRef event.Ticket with
    | none =>
      exact ⟨[], hone (Or.inl hr), fun _ h => by cases h⟩
    | some K =>
      by_cases hK : K = ""
      · subst hK
        exact ⟨[], hone (Or.inr hr), fun _ h => by cases h⟩
      · refine ⟨[ticketUpdatedCall event K], htwo K hr hK, ?_⟩
        intro call hcall
        rw [List.mem_singleton] at hcall
        rw [hcall]
        rfl
  · constructor
    · rintro ⟨call, hcall, htarget⟩
      cases hr : unmarshalTicketRef event.Ticket with
      | none =>
        rw [hone (Or.inl hr), List.mem_singleton] at hcall
        rw [hcall] at htarget
        have h0 : (0 : Int) = 1 := htarget
        exact absurd h0 (by decide)
      | some K =>
        by_cases hK : K = ""
        · subst hK
          rw [hone (Or.inr hr), List.mem_singleton] at hcall
          rw [hcall] at htarget
          have h0 : (0 : Int) = 1 := htarget
          exact absurd h0 (by decide)
        · exact ⟨K, rfl, hK⟩
    · rintro ⟨K, hr, hK⟩
      refine ⟨ticketUpdatedCall event K, ?_, rfl⟩
      rw [htwo K hr hK]
      simp
  · intro K hr hK
    exact ⟨htwo K hr hK, rfl, rfl⟩
  · intro hnone
    apply hone
    left
    rw [hnone]
    rfl
  · intro j hj hobj
    apply hone
    rw [hj]
    exact unmarshalTicketRef_of_not_object hobj
  · intro fields hf hno
    apply hone
    right
    rw [hf, unmarshalTicketRef_obj]
    exact decodeMembers_of_no_match "id" fields "" hno
  · intro fields hf hempty
    apply hone
    right
    rw [hf, unmarshalTicketRef_obj]
    exact decodeMembers_of_empty_values "id" fields hempty
  · intro fields hf hbad
    apply hone
    left
    rw [hf, unmarshalTicketRef_obj]
    exact decodeMembers_of_bad_value "id" fields "" hbad
  · intro pre key lit post hf hkey hpre hpost
    have hid : unmarshalTicketRef event.Ticket = some (unquote lit) := by
      rw [hf, unmarshalTicketRef_obj]
      exact decodeMembers_of_last_string "id" key lit post hkey hpost pre "" hpre
    refine ⟨fun hne => htwo _ hid hne, fun he => ?_⟩
    apply hone
    right
    rw [hid, he]

/-- C18 at concrete payloads.  The snapshot of
`{"event":"ticket.updated","tenant_id":"T1","ticket":{"id":5}}` has a number as
id: one call, for the tenant room.  The snapshot of
`{"event":"ticket.updated","tenant_id":"T1","ticket":{"title":"a<b", "id":"K9","n":[1,2.5e3,true,null]}}`
has the string `K9` as id: a second call, for ticket room `K9`, with the same
payload. -/
theorem ticket_updated_topic_broadcast_iff_id_witness :
    Subscriber.handleMessage
        "\x7b\"event\":\"ticket.updated\",\"tenant_id\":\"T1\",\"ticket\":\x7b\"id\":5\x7d\x7d" =
      [{ target := 0, targetID := "T1",
         payload := "\x7b\"data\":\x7b\"id\":5\x7d,\"event\":\"ticket:updated\"\x7d" }] ∧
    Subscriber.handleMessage
        "\x7b\"event\":\"ticket.updated\",\"tenant_id\":\"T1\",\"ticket\":\x7b\"title\":\"a<b\", \"id\":\"K9\",\"n\":[1,2.5e3,true,null]\x7d\x7d" =
      [{ target := 0, targetID := "T1",
         payload := "\x7b\"data\":\x7b\"title\":\"a\\u003cb\",\"id\":\"K9\",\"n\":[1,2.5e3,true,null]\x7d,\"event\":\"ticket:updated\"\x7d" },
       { target := 1, targetID := "K9",
         payload := "\x7b\"data\":\x7b\"title\":\"a\\u003cb\",\"id\":\"K9\",\"n\":[1,2.5e3,true,null]\x7d,\"event\":\"ticket:updated\"\x7d" }] :=
  ⟨(ticket_updated_topic_broadcast_iff_id
      "\x7b\"event\":\"ticket.updated\",\"tenant_id\":\"T1\",\"ticket\":\x7b\"id\":5\x7d\x7d"
      numberIdEvent (by rfl) rfl).2.2.2.2.2.2.2.1
      [("id", .num "5")] rfl ⟨("id", .num "5"), List.mem_singleton.mpr rfl, by decide, rfl, rfl⟩,
   ((ticket_updated_topic_broadcast_iff_id
      "\x7b\"event\":\"ticket.updated\",\"tenant_id\":\"T1\",\"ticket\":\x7b\"title\":\"a<b\", \"id\":\"K9\",\"n\":[1,2.5e3,true,null]\x7d\x7d"
      stringIdEvent (by rfl) rfl).2.2.2.2.2.2.2.2
      [("title", .str "a<b")] "id" "K9"
      [("n", .arr [.num "1", .num "2.5e3", .bool true, .null])] rfl (by decide)
      (by decide) (by decide)).1 (by decide)⟩
theorem marshalOutgoing_viewers (viewers : List String) :
    marshalOutgoing "ticket:viewers" (marshalViewers viewers) = viewersText viewers := by
  have hs : marshalString "ticket:viewers" = "\"ticket:viewers\"".toList := by decide
  unfold marshalOutgoing marshalViewers viewersText
  rw [hs]
  congr 1
  simp

/-- C19: for a `ticket:join` command whose data decodes to the non-empty ticket
id `k`, `Client.handleMessage` submits `JoinTopic(c,k)` to the Hub, calls
`AddViewer(k, c.UserID)`, calls `GetViewers(k)` and then, when `GetViewers`
returned the list `vs`, submits one broadcast for ticket room `k` whose payload
is `{"event":"ticket:viewers","data":{"viewers": vs}}`, in this order and
nothing else; for a `ticket:leave` command it does the same with
`LeaveTopic(c,k)` and `RemoveViewer(k, c.UserID)`.  When `GetViewers` fails it
stops after that call: no broadcast is submitted and nothing is sent to the
connection.  Read back as JSON, the payload is the object with the member
`event`, the string `ticket:viewers`, and the member `data`, an object whose
one member `viewers` is an array of string literals that denote, in order, the
strings of `vs`. -/
theorem join_and_leave_rebroadcast_viewers (c : Client) (k : String) (vs : List String)
    (join leave : IncomingMessage)
    (hj : join.Event = "ticket:join") (hjk : unmarshalTicketID join.Data = some k)
    (hl : leave.Event = "ticket:leave") (hlk : unmarshalTicketID leave.Data = some k)
    (hk : k ≠ "") :
    c.handleMessage (some vs) join =
      [.joinTicket c k, .addViewer k c.UserID, .getViewers k,
       .broadcast { Target := TargetTicket, TargetID := k, Payload := viewersText vs }] ∧
    c.handleMessage (some vs) leave =
      [.leaveTicket c k, .removeViewer k c.UserID, .getViewers k,
       .broadcast { Target := TargetTicket, TargetID := k, Payload := viewersText vs }] ∧
    c.handleMessage none join = [.joinTicket c k, .addViewer k c.UserID, .getViewers k] ∧
    c.handleMessage none leave = [.leaveTicket c k, .removeViewer k c.UserID, .getViewers k] ∧
    (∃ lits : List String,
      parseJSON (viewersText vs) =
        some (.obj [("event", .str "ticket:viewers"),
          ("data", .obj [("viewers", .arr (lits.map JSON.str))])]) ∧
      lits.map unquote = vs) := by
  have hne : ¬ leave.Event = "ticket:join" := by
    rw [hl]
    decide
  refine ⟨?_, ?_, ?_, ?_, parseJSON_viewersText vs⟩
  · unfold Client.handleMessage
    rw [if_pos hj, hjk]
    simp [hk, Client.broadcastViewers, marshalOutgoing_viewers]
  · unfold Client.handleMessage
    rw [if_neg hne, if_pos hl, hlk]
    simp [hk, Client.broadcastViewers, marshalOutgoing_viewers]
  · unfold Client.handleMessage
    rw [if_pos hj, hjk]
    simp [hk, Client.broadcastViewers]
  · unfold Client.handleMessage
    rw [if_neg hne, if_pos hl, hlk]
    simp [hk, Client.broadcastViewers]

/-- C19 at concrete commands: `agentA` joins and leaves ticket `K9` while
`GetViewers` returns the two user ids `u1` and `a"b<c`; the payload is
`{"event":"ticket:viewers","data":{"viewers":["u1","a\"b<c"]}}`. -/
theorem join_and_leave_rebroadcast_viewers_witness :
    agentA.handleMessage (some ["u1", "a\"b<c"])
        { Event := "ticket:join", Data := some (.obj [("ticketId", .str "K9")]) } =
      [.joinTicket agentA "K9", .addViewer "K9" agentA.UserID, .getViewers "K9",
       .broadcast
        { Target := TargetTicket, TargetID := "K9",
          Payload := "\x7b\"event\":\"ticket:viewers\",\"data\":\x7b\"viewers\":[\"u1\",\"a\\\"b\\u003cc\"]\x7d\x7d" }] ∧
    agentA.handleMessage (some ["u1", "a\"b<c"])
        { Event := "ticket:leave", Data := some (.obj [("ticketId", .str "K9")]) } =
      [.leaveTicket agentA "K9", .removeViewer "K9" agentA.UserID, .getViewers "K9",
       .broadcast
        { Target := TargetTicket, TargetID := "K9",
          Payload := "\x7b\"event\":\"ticket:viewers\",\"data\":\x7b\"viewers\":[\"u1\",\"a\\\"b\\u003cc\"]\x7d\x7d" }] ∧
    agentA.handleMessage none
        { Event := "ticket:join", Data := some (.obj [("ticketId", .str "K9")]) } =
      [.joinTicket agentA "K9", .addViewer "K9" agentA.UserID, .getViewers "K9"] ∧
    agentA.handleMessage none
        { Event := "ticket:leave", Data := some (.obj [("ticketId", .str "K9")]) } =
      [.leaveTicket agentA "K9", .removeViewer "K9" agentA.UserID, .getViewers "K9"] ∧
    (∃ lits : List String,
      parseJSON "\x7b\"event\":\"ticket:viewers\",\"data\":\x7b\"viewers\":[\"u1\",\"a\\\"b\\u003cc\"]\x7d\x7d" =
        some (.obj [("event", .str "ticket:viewers"),
          ("data", .obj [("viewers", .arr (lits.map JSON.str))])]) ∧
      lits.map unquote = ["u1", "a\"b<c"]) :=
  join_and_leave_rebroadcast_viewers agentA "K9" ["u1", "a\"b<c"]
    { Event := "ticket:join", Data := some (.obj [("ticketId", .str "K9")]) }
    { Event := "ticket:leave", Data := some (.obj [("ticketId", .str "K9")]) }
    rfl (by decide) rfl (by decide) (by decide)

/-- The tenant id of the key matters: with a `:` in it the third part of the
split key is not the user id. -/
theorem presenceKey_of_tenant_with_colon :
    strings.SplitN (redis.Client.SetPresence "a:b" "u1" 0).key ":" 3 =
      ["presence", "a", "b:u1"] := by
  decide

/-! ## C21: the presence key round trip -/

/-- C21: for a tenant id without `:` and any user id (with or without `:`),
`strings.SplitN(key, ":", 3)` of the key that `SetPresence` writes has three
parts and the third is the user id, so the loop body of `ListPresence` appends
exactly that user id; `RemovePresence` deletes that same key; and `ListPresence`
against a server that holds pages of such keys returns the user ids, page after
page. -/
theorem presence_key_round_trip (tenantID userID : String) (now : Int)
    (hT : ':' ∉ tenantID.toList) :
    (redis.Client.SetPresence tenantID userID now).key =
        "presence:" ++ tenantID ++ ":" ++ userID ∧
    strings.SplitN (redis.Client.SetPresence tenantID userID now).key ":" 3 =
        ["presence", tenantID, userID] ∧
    (∀ agentIDs : List String,
      redis.Client.ListPresence.visit agentIDs (redis.Client.SetPresence tenantID userID now).key =
        agentIDs ++ [userID]) ∧
    redis.Client.RemovePresence tenantID userID =
        .del (redis.Client.SetPresence tenantID userID now).key ∧
    (∀ (users : List (List String)) (extra : Nat),
      redis.Client.ListPresence
          (pagedServer
            (users.map (fun page =>
              page.map (fun u => (redis.Client.SetPresence tenantID u now).key))))
          tenantID (users.length + 1 + extra) =
        some (.ok users.flatten)) := by
  refine ⟨rfl, strings.SplitN_presenceKey tenantID userID hT,
    fun agentIDs => redis.Client.ListPresence.visit_presenceKey agentIDs tenantID userID hT,
    rfl, ?_⟩
  intro users extra
  have hkey : ∀ u, (redis.Client.SetPresence tenantID u now).key =
      "presence:" ++ tenantID ++ ":" ++ u := fun _ => rfl
  simp only [hkey]
  unfold redis.Client.ListPresence
  cases users with
  | nil =>
    rw [show ([] : List (List String)).length + 1 + extra = extra + 1 by
      simp [Nat.add_comm]]
    rfl
  | cons page users =>
    rw [redis.Client.ListPresence.loop_of_pages _ _
      ((page :: users).map (fun page => page.map (fun u => "presence:" ++ tenantID ++ ":" ++ u)))
      (fun i _ => rfl) (users.length + 1) 0 _ [] (by simp) (by omega) (by simp; omega)]
    rw [List.drop_zero, ← List.map_flatten,
      redis.Client.ListPresence.foldl_visit_presenceKeys tenantID hT]
    simp

/-- C21 at a concrete key: tenant `T1`, user id `agent:7` (with a `:`), and a
server with two pages of keys. -/
theorem presence_key_round_trip_witness :
    ':' ∉ ("T1" : String).toList ∧
    strings.SplitN (redis.Client.SetPresence "T1" "agent:7" 1700000000000).key ":" 3 =
        ["presence", "T1", "agent:7"] ∧
    redis.Client.RemovePresence "T1" "agent:7" = .del "presence:T1:agent:7" ∧
    redis.Client.ListPresence
        (pagedServer [["presence:T1:agent:7", "presence:T1:u2"], ["presence:T1:"]]) "T1" 3 =
      some (.ok ["agent:7", "u2", ""]) :=
  ⟨by decide,
   (presence_key_round_trip "T1" "agent:7" 1700000000000 (by decide)).2.1,
   (presence_key_round_trip "T1" "agent:7" 1700000000000 (by decide)).2.2.2.1,
   (presence_key_round_trip "T1" "agent:7" 1700000000000 (by decide)).2.2.2.2
     [["agent:7", "u2"], [""]] 0⟩
end TicketHacker
